import Mathlib

/-!
Verification development for the personal-blog repository's two build
scripts: `book-reviews/update_book_registry.py` (delimited-record parser,
HTML fragment renderer, document splicer) and `blog/md_to_html.py`
(date normalizer, slug generator, CLI driver).

Strings are modelled as `List Char` (`Str`).  Python string primitives
(`str.strip`, `str.split`, `html.escape`, ...) are embedded as executable
Lean functions that follow the CPython implementations; each definition
names the Python construct it translates.
-/

set_option maxHeartbeats 1000000
set_option maxRecDepth 16384

abbrev Str := List Char

/-- Conversion from a Lean string literal to the `List Char` model. -/
def str (s : String) : Str := s.data

namespace Py

/-- Python `str.isspace` on the ASCII whitespace characters
(` `, `\t`, `\n`, `\r`, `\x0b`, `\x0c`); the non-ASCII Unicode
whitespace accepted by Python is outside the inputs modelled here. -/
def isSpace (c : Char) : Bool :=
  c = ' ' || c = '\t' || c = '\n' || c = '\r' || c = '\x0b' || c = '\x0c'

/-- Python `str.strip()` (no argument): drop whitespace from both ends. -/
def strip (s : Str) : Str :=
  ((s.dropWhile isSpace).reverse.dropWhile isSpace).reverse

/-- Python `str.strip('-')`: drop `'-'` characters from both ends
(used by `slugify`). -/
def stripHyphens (s : Str) : Str :=
  ((s.dropWhile (· = '-')).reverse.dropWhile (· = '-')).reverse

/-- Python `line.split(' - ')`, specialised to the fixed three-character
delimiter of `update_book_registry.py`: leftmost, non-overlapping
occurrences of space-hyphen-space separate the segments. -/
def splitDelim : Str → List Str
  | [] => [[]]
  | ' ' :: '-' :: ' ' :: rest => [] :: splitDelim rest
  | c :: rest =>
    match splitDelim rest with
    | [] => [[c]]
    | seg :: segs => (c :: seg) :: segs

/-- Python `' - '.join(parts)`. -/
def joinDelim (parts : List Str) : Str :=
  List.intercalate (str " - ") parts

/-- Python `s.replace(needle, repl)` for a single-character needle
(every occurrence is independent, so the general left-to-right
replacement coincides with a character-wise expansion). -/
def replaceChar (needle : Char) (repl : Str) : Str → Str
  | [] => []
  | c :: rest => (if c = needle then repl else [c]) ++ replaceChar needle repl rest

/-- CPython `html.escape(s, quote=True)`: the five sequential
`str.replace` calls of the stdlib implementation, `&` first. -/
def escape (s : Str) : Str :=
  replaceChar '\'' (str "&#x27;")
    (replaceChar '"' (str "&quot;")
      (replaceChar '>' (str "&gt;")
        (replaceChar '<' (str "&lt;")
          (replaceChar '&' (str "&amp;") s))))

/-- The character-wise image of `escape` (derived form used in proofs). -/
def escChar (c : Char) : Str :=
  if c = '&' then str "&amp;"
  else if c = '<' then str "&lt;"
  else if c = '>' then str "&gt;"
  else if c = '"' then str "&quot;"
  else if c = '\'' then str "&#x27;"
  else [c]

/-- Strip HTML tags from a fragment: drop every character between `<`
and the next `>` (inclusive), keeping the text content.  This is the
tag-stripping reading used by the specification's round-trip property. -/
def stripTagsAux (inTag : Bool) : Str → Str
  | [] => []
  | c :: rest =>
    if inTag then
      (if c = '>' then stripTagsAux false rest else stripTagsAux true rest)
    else
      (if c = '<' then stripTagsAux true rest else c :: stripTagsAux false rest)

/-- The tag-scanner state after consuming a string. -/
def tagState (inTag : Bool) : Str → Bool
  | [] => inTag
  | c :: rest =>
    if inTag then
      (if c = '>' then tagState false rest else tagState true rest)
    else
      (if c = '<' then tagState true rest else tagState false rest)

/-- Text content of an HTML fragment (tags stripped). -/
def stripTags (s : Str) : Str := stripTagsAux false s

/-- Invert `escape`: decode the five entities `escape` produces, leave
everything else (including a bare `&` that starts no known entity)
untouched. -/
def unesc : Str → Str
  | [] => []
  | c :: rest =>
    if c = '&' then
      (if (str "amp;").isPrefixOf rest then '&' :: unesc (rest.drop 4)
       else if (str "lt;").isPrefixOf rest then '<' :: unesc (rest.drop 3)
       else if (str "gt;").isPrefixOf rest then '>' :: unesc (rest.drop 3)
       else if (str "quot;").isPrefixOf rest then '"' :: unesc (rest.drop 5)
       else if (str "#x27;").isPrefixOf rest then '\'' :: unesc (rest.drop 5)
       else c :: unesc rest)
    else c :: unesc rest
termination_by s => s.length
decreasing_by
  all_goals simp [List.length_drop]
  all_goals omega

end Py

namespace UpdateBookRegistry

/-- The record produced by `parse_book_line` (the dict with keys
`rating`, `date_read`, `title`, `author`, `description`). -/
structure Book where
  rating : Str
  date_read : Str
  title : Str
  author : Str
  description : Str
deriving DecidableEq, Repr

/-- The two lines printed by `parse_book_line` on a malformed line. -/
def warnMsg (strippedLine : Str) : Str :=
  str "Warning: Invalid format in line: " ++ strippedLine

/-- Second diagnostic line of `parse_book_line`. -/
def formatMsg : Str :=
  str "Expected format: rating - date - title - author - description"

/-- `parse_book_line` from `update_book_registry.py`: strip the line,
return `None` for an empty line, split on `' - '`, strip every part,
reject fewer than 5 parts (with two printed diagnostics), otherwise
build the record, re-joining parts 4.. with `' - '`.  The second
component collects the printed diagnostics. -/
def parse_book_line (line0 : Str) : Option Book × List Str :=
  let line := Py.strip line0
  if line = [] then (none, [])
  else
    let parts := (Py.splitDelim line).map Py.strip
    if parts.length < 5 then (none, [warnMsg line, formatMsg])
    else
      (some
        { rating := parts.getD 0 []
          date_read := parts.getD 1 []
          title := parts.getD 2 []
          author := parts.getD 3 []
          description := Py.joinDelim (parts.drop 4) }, [])

/-- One iteration of the parsing loop in `update_book_registry` (lines
116-120): blank lines and lines whose stripped form starts with `#` are
skipped before `parse_book_line` is called (the 1-based `line_num` of
`enumerate` is never used by the loop body). -/
def processLine (line : Str) : Option Book × List Str :=
  if Py.strip line = [] then (none, [])
  else if (Py.strip line).head? = some '#' then (none, [])
  else parse_book_line line

/-- The list of successfully parsed records, in file order. -/
def parseBooks (lines : List Str) : List Book :=
  lines.filterMap (fun l => (processLine l).fst)

/-- All diagnostics printed while parsing a whole file, in order. -/
def parseDiags (lines : List Str) : List Str :=
  (lines.map (fun l => (processLine l).snd)).flatten

/-- `format_date` from `update_book_registry.py`: keeps the date
string unchanged. -/
def format_date (date_str : Str) : Str := date_str

/-- The summary `<li>` generated for one book (the f-string of
`generate_book_html`, section 1). -/
def summaryItem (b : Book) : Str :=
  str "                <li>" ++ Py.escape b.rating ++ str " — " ++
    Py.escape (format_date b.date_read) ++ str " — <strong>" ++
    Py.escape b.title ++ str "</strong> by " ++ Py.escape b.author ++ str "</li>"

/-- The detail `<li>` generated for one book (the f-string of
`generate_book_html`, section 2). -/
def detailItem (b : Book) : Str :=
  str "                <li>\n                    <span class=\"book-title-author\"><strong>" ++
    Py.escape b.title ++ str "</strong> by " ++ Py.escape b.author ++
    str "</span>\n                    <div class=\"book-description\">" ++
    Py.escape b.description ++ str "</div>\n                </li>"

/-- `generate_book_html`: the pair (summary list, details list), each a
`'\n'.join` of per-book items; empty input yields two empty strings. -/
def generate_book_html (books : List Book) : Str × Str :=
  if books = [] then ([], [])
  else
    (List.intercalate (str "\n") (books.map summaryItem),
     List.intercalate (str "\n") (books.map detailItem))

end UpdateBookRegistry

namespace Re

/-- Regular-expression fragments sufficient for the two splice patterns
of `update_book_registry.py` (compiled with `re.DOTALL`) and their
`_strptime`-style character classes: literals, one-character classes,
sequencing, greedy option `(?:...)?`, lazy star `.*?` and greedy star
`\s*`.  Capture-group parentheses do not influence matching, so they
are not represented; the single group each replacement template
references is recovered by `findFirst` below. -/
inductive Pat where
  | lit : Str → Pat
  | cls : (Char → Bool) → Pat
  | seq : Pat → Pat → Pat
  | opt : Pat → Pat
  | starL : Pat → Pat
  | starG : Pat → Pat

/-- Right-nested sequence of patterns. -/
def seqs (ps : List Pat) : Pat := ps.foldr Pat.seq (.lit [])

/-- Backtracking matcher.  `matchStates f p ss` matches `p` at the head
of each state (remaining input) of `ss` and returns every possible
remaining input, in exactly the order CPython's backtracking engine
explores alternatives: `opt`/`starG` try the consuming branch first,
`starL` tries the empty branch first, and a star iteration must consume
at least one character (CPython's empty-loop rule).  `f` is recursion
fuel, decremented on every call; the drivers below supply fuel that is
ample for the fixed patterns used in this file. -/
def matchStates : Nat → Pat → List Str → List Str
  | 0, _, _ => []
  | _ + 1, _, [] => []
  | f + 1, .lit cs, s :: rest =>
    (if cs.isPrefixOf s then [s.drop cs.length] else []) ++ matchStates f (.lit cs) rest
  | f + 1, .cls p, s :: rest =>
    (match s with
     | [] => []
     | c :: s' => if p c then [s'] else []) ++ matchStates f (.cls p) rest
  | f + 1, .seq a b, ss => matchStates f b (matchStates f a ss)
  | f + 1, .opt r, s :: rest =>
    (matchStates f r [s] ++ [s]) ++ matchStates f (.opt r) rest
  | f + 1, .starL r, s :: rest =>
    (s :: matchStates f (.starL r)
        ((matchStates f r [s]).filter (fun t => t.length < s.length)))
      ++ matchStates f (.starL r) rest
  | f + 1, .starG r, s :: rest =>
    (matchStates f (.starG r)
        ((matchStates f r [s]).filter (fun t => t.length < s.length))
      ++ [s]) ++ matchStates f (.starG r) rest

/-- Scan the body-match remainders in backtracking order and return the
first one after which the tail pattern also matches, together with the
remainder after the tail: the first overall success of `body ++ tail`. -/
def firstTail (f : Nat) (tl : Pat) : List Str → Option (Str × Str)
  | [] => none
  | s1 :: rest =>
    match matchStates f tl [s1] with
    | r :: _ => some (s1, r)
    | [] => firstTail f tl rest

/-- Leftmost match of `body` followed by `tl` in `s` (re's unanchored
search): `some (pre, matched, g2, rest)` where `pre` is the unmatched
prefix, `matched` the matched span, `g2` the part of it matched by `tl`
(the final capture group of both splice patterns) and `rest` the input
after the match. -/
def findFirst (f : Nat) (body tl : Pat) (s : Str) : Option (Str × Str × Str × Str) :=
  match firstTail f tl (matchStates f body [s]) with
  | some (s1, r) =>
    some ([], s.take (s.length - r.length), s1.take (s1.length - r.length), r)
  | none =>
    match s with
    | [] => none
    | c :: s' =>
      (findFirst f body tl s').map (fun q => (c :: q.1, q.2.1, q.2.2.1, q.2.2.2))

/-- One element of a parsed replacement template: a literal character
or a group reference. -/
inductive TItem where
  | litc : Char → TItem
  | ref : Nat → TItem
deriving DecidableEq

/-- Is `c` an ASCII octal digit. -/
def isOct (c : Char) : Bool := '0' ≤ c && c ≤ '7'

/-- Octal value of a digit character. -/
def octVal (c : Char) : Nat := c.toNat - '0'.toNat

/-- Decimal group name inside `\g<...>`: digits up to `>`. -/
def readGroupName : Nat → Str → Option (Nat × Str)
  | 0, _ => none
  | _ + 1, [] => none
  | f + 1, c :: rest =>
    if c = '>' then none
    else if c.isDigit then
      match rest with
      | '>' :: rest' => some (octVal c, rest')
      | _ =>
        (readGroupName f rest).map (fun q => (octVal c * 10 + q.1, q.2))
    else none

/-- The non-digit escape cases of `parse_template`: the `ESCAPES`
table, an error for other ASCII letters, backslash kept otherwise.
Returns the template items the escape contributes, `none` on a bad
escape. -/
def escOrLit (c : Char) : Option (List TItem) :=
  if c = 'a' then some [.litc (Char.ofNat 7)]
  else if c = 'b' then some [.litc (Char.ofNat 8)]
  else if c = 'f' then some [.litc (Char.ofNat 12)]
  else if c = 'n' then some [.litc '\n']
  else if c = 'r' then some [.litc (Char.ofNat 13)]
  else if c = 't' then some [.litc '\t']
  else if c = 'v' then some [.litc (Char.ofNat 11)]
  else if c = '\\' then some [.litc '\\']
  else if ('A' ≤ c && c ≤ 'Z') || ('a' ≤ c && c ≤ 'z') then none
  else some [.litc '\\', .litc c]

/-- CPython `re._parser.parse_template`, restricted to text templates:
`\g<number>` and `\1`..`\99` are group references (an index above
`ngroups` is an error), `\0oo`/`\ooo` are octal character escapes,
`\a \b \f \n \r \t \v \\` are the `ESCAPES` table, a backslash before
any other ASCII letter is a `bad escape` error (`none`), a backslash
before anything else keeps both characters, and a trailing backslash is
an error.  `re.sub` parses the template before scanning, so a bad
template is an error even when the pattern never matches.  The first
argument is fuel (one unit per consumed character suffices). -/
def parseTemplate (ngroups : Nat) : Nat → Str → Option (List TItem)
  | 0, _ => none
  | _ + 1, [] => some []
  | f + 1, c :: rest =>
    if c = '\\' then
    (match rest with
     | [] => none
     | 'g' :: '<' :: more =>
       (match readGroupName f more with
        | none => none
        | some (n, rest') =>
          if n ≤ ngroups then (parseTemplate ngroups f rest').map (.ref n :: ·) else none)
     | 'g' :: _ => none
     | '0' :: d1 :: d2 :: more =>
       if isOct d1 && isOct d2 then
         (parseTemplate ngroups f more).map (.litc (Char.ofNat (octVal d1 * 8 + octVal d2)) :: ·)
       else if isOct d1 then
         (parseTemplate ngroups f (d2 :: more)).map (.litc (Char.ofNat (octVal d1)) :: ·)
       else (parseTemplate ngroups f (d1 :: d2 :: more)).map (.litc (Char.ofNat 0) :: ·)
     | '0' :: d1 :: more =>
       if isOct d1 then (parseTemplate ngroups f more).map (.litc (Char.ofNat (octVal d1)) :: ·)
       else (parseTemplate ngroups f (d1 :: more)).map (.litc (Char.ofNat 0) :: ·)
     | ['0'] => (parseTemplate ngroups f []).map (.litc (Char.ofNat 0) :: ·)
     | c :: d1 :: d2 :: more =>
       if c.isDigit then
         if d1.isDigit then
           if isOct c && isOct d1 && isOct d2 then
             if octVal c * 64 + octVal d1 * 8 + octVal d2 ≤ 255 then
               (parseTemplate ngroups f more).map
                 (.litc (Char.ofNat (octVal c * 64 + octVal d1 * 8 + octVal d2)) :: ·)
             else none
           else
             if octVal c * 10 + octVal d1 ≤ ngroups then
               (parseTemplate ngroups f (d2 :: more)).map (.ref (octVal c * 10 + octVal d1) :: ·)
             else none
         else
           if octVal c ≤ ngroups then
             (parseTemplate ngroups f (d1 :: d2 :: more)).map (.ref (octVal c) :: ·)
           else none
       else
         match escOrLit c with
         | none => none
         | some pre => (parseTemplate ngroups f (d1 :: d2 :: more)).map (pre ++ ·)
     | c :: d1 :: more =>
       if c.isDigit then
         if d1.isDigit then
           if octVal c * 10 + octVal d1 ≤ ngroups then
             (parseTemplate ngroups f more).map (.ref (octVal c * 10 + octVal d1) :: ·)
           else none
         else
           if octVal c ≤ ngroups then
             (parseTemplate ngroups f (d1 :: more)).map (.ref (octVal c) :: ·)
           else none
       else
         match escOrLit c with
         | none => none
         | some pre => (parseTemplate ngroups f (d1 :: more)).map (pre ++ ·)
     | [c2] =>
       if c2.isDigit then
         (if octVal c2 ≤ ngroups then
           (parseTemplate ngroups f []).map (.ref (octVal c2) :: ·)
          else none)
       else
         match escOrLit c2 with
         | none => none
         | some pre => (parseTemplate ngroups f []).map (pre ++ ·))
    else (parseTemplate ngroups f rest).map (.litc c :: ·)

/-- Expand a parsed template at one match.  Only the final capture
group `gIdx` of the splice patterns is modelled; a reference to any
other group is outside the model and yields `none`. -/
def expandTemplate (gIdx : Nat) (g2 : Str) : List TItem → Option Str
  | [] => some []
  | .litc c :: rest => (expandTemplate gIdx g2 rest).map (c :: ·)
  | .ref n :: rest =>
    if n = gIdx then (expandTemplate gIdx g2 rest).map (g2 ++ ·) else none

/-- The global-substitution loop of `re.sub`: repeatedly take the
leftmost match, emit the expanded template in its place, and continue
after it (after an empty match CPython emits the template, copies one
character and continues).  The first fuel is the matcher fuel, the
second bounds the number of replacements (`s.length + 1` is ample since
every step consumes input). -/
def subLoop (mf : Nat) (body tl : Pat) (gIdx : Nat) (tpl : List TItem) :
    Nat → Str → Option Str
  | 0, s => some s
  | fuel + 1, s =>
    match findFirst mf body tl s with
    | none => some s
    | some (p, m, g2, r) =>
      match expandTemplate gIdx g2 tpl with
      | none => none
      | some rep =>
        if m = [] then
          match r with
          | [] => some (p ++ rep)
          | c :: r' =>
            (subLoop mf body tl gIdx tpl fuel r').map (fun t => p ++ rep ++ [c] ++ t)
        else (subLoop mf body tl gIdx tpl fuel r).map (fun t => p ++ rep ++ t)

/-- Matcher fuel that is ample for the fixed splice patterns on an
input of length `n`. -/
def mfuel (s : Str) : Nat := (s.length + 200) * (s.length + 200)

/-- `re.sub(pattern, template, s, flags=re.DOTALL)` for a pattern split
as `body` + final captured `tl` group, returning `none` where CPython
raises (bad template, or a group reference outside the model). -/
def reSub (body tl : Pat) (gIdx ngroups : Nat) (tplStr : Str) (s : Str) : Option Str :=
  match parseTemplate ngroups (tplStr.length + 1) tplStr with
  | none => none
  | some tpl => subLoop (mfuel s) body tl gIdx tpl (s.length + 1) s

/-- All suffixes of a string in decreasing length: the order in which
the lazy `.*?` (`starL` over any character) yields its remainders. -/
def suffixesList : Str → List Str
  | [] => [[]]
  | c :: t => (c :: t) :: suffixesList t

/-- The remainders produced by a greedy class star (`\s*`-style) on
`w ++ z` when all of `w` satisfies the class and `z` does not start
with a class character: longest consumption first. -/
def gws (w z : Str) : List Str :=
  match w with
  | [] => [z]
  | c :: w2 => gws w2 z ++ [c :: (w2 ++ z)]

/-- `litGuard L K` checks that every window of `K` (also the windows
hanging over its right edge) differs from `L` at some position still
inside `K`: no occurrence of `L` can start inside `K`, whatever text
follows it.  Boolean, evaluated by `decide` on concrete `K`. -/
def litGuard (L K : Str) : Bool :=
  (List.range K.length).all (fun i =>
    (List.range L.length).any (fun j =>
      decide (i + j < K.length) && decide (K.get? (i + j) ≠ L.get? j)))

/-- No occurrence of `L` starts strictly inside `X`, whatever text
follows `X`. -/
def noEarly (L X : Str) : Prop :=
  ∀ (Z : Str), ∀ i < X.length, ¬ L.isPrefixOf ((X ++ Z).drop i)

end Re

namespace UpdateBookRegistry

/-- Python's `\s` class (ASCII part, as in `Py.isSpace`). -/
def wsStar : Re.Pat := .starG (.cls Py.isSpace)

/-- `.*?` under `re.DOTALL`: lazy star over any character. -/
def lazyDot : Re.Pat := .starL (.cls (fun _ => true))

/-- Body of the primary splice pattern (everything before the final
captured group): `(<div class="books-list">.*?</ul>\s*</div>)`
`(?:\s*<div class="books-separator">.*?</div>)?`
`(?:\s*<div class="books-details">.*?</ul>\s*</div>)?`. -/
def primaryBody : Re.Pat :=
  Re.seqs
    [.lit (str "<div class=\"books-list\">"), lazyDot, .lit (str "</ul>"), wsStar,
     .lit (str "</div>"),
     .opt (Re.seqs
       [wsStar, .lit (str "<div class=\"books-separator\">"), lazyDot, .lit (str "</div>")]),
     .opt (Re.seqs
       [wsStar, .lit (str "<div class=\"books-details\">"), lazyDot, .lit (str "</ul>"),
        wsStar, .lit (str "</div>")])]

/-- Body of the fallback splice pattern:
`(<div class="books-list">\s*<ul>)(.*?)(</ul>\s*</div>)`. -/
def fallbackBody : Re.Pat :=
  Re.seqs
    [.lit (str "<div class=\"books-list\">"), wsStar, .lit (str "<ul>"), lazyDot,
     .lit (str "</ul>"), wsStar, .lit (str "</div>")]

/-- The optional separator group of the primary pattern:
`\s*<div class="books-separator">.*?</div>`. -/
def sepPat : Re.Pat :=
  Re.seqs
    [wsStar, .lit (str "<div class=\"books-separator\">"), lazyDot, .lit (str "</div>")]

/-- The optional details group of the primary pattern:
`\s*<div class="books-details">.*?</ul>\s*</div>`. -/
def detPat : Re.Pat :=
  Re.seqs
    [wsStar, .lit (str "<div class=\"books-details\">"), lazyDot, .lit (str "</ul>"),
     wsStar, .lit (str "</div>")]

/-- The final captured group of both patterns: `(\s*</main>)`. -/
def spliceTail : Re.Pat := .seq wsStar (.lit (str "</main>"))

/-- Fixed part of the replacement before the summary list. -/
def canonPre : Str := str "<div class=\"books-list\">\n            <ul>\n"

/-- Fixed part of the replacement between summary and details lists. -/
def canonMid : Str :=
  str "\n            </ul>\n        </div>\n\n        <div class=\"books-separator\"></div>\n\n        <div class=\"books-details\">\n            <ul>\n"

/-- Fixed part of the replacement after the details list. -/
def canonPost : Str := str "\n            </ul>\n        </div>"

/-!  Named fragments of the canonical replacement text and of the two
splice patterns' literals, used to state where the pattern's literals
occur inside the replacement block. -/

/-- `<div class="books-list">`, the leading literal of both patterns. -/
def L1S : Str := str "<div class=\"books-list\">"

/-- `</ul>`. -/
def ULS : Str := str "</ul>"

/-- `</div>`. -/
def DVS : Str := str "</div>"

/-- `<ul>`. -/
def ULO : Str := str "<ul>"

/-- `<div class="books-separator">`. -/
def SEPOS : Str := str "<div class=\"books-separator\">"

/-- `<div class="books-details">`. -/
def DETOS : Str := str "<div class=\"books-details\">"

/-- `</main>`. -/
def MAINS : Str := str "</main>"

/-- Newline plus twelve spaces. -/
def WS12 : Str := str "\n            "

/-- Newline plus eight spaces. -/
def WS8 : Str := str "\n        "

/-- Two newlines plus eight spaces. -/
def WS2_8 : Str := str "\n\n        "

/-- Single newline. -/
def NL : Str := str "\n"

/-- The replacement template of the primary `re.sub` (the triple-quoted
f-string of lines 147-159) as raw text, ending in the backreference
`\2`. -/
def primaryTemplate (books : List Book) : Str :=
  canonPre ++ (generate_book_html books).1 ++ canonMid ++
    (generate_book_html books).2 ++ canonPost ++ ['\\', '2']

/-- The replacement template of the fallback `re.sub` (lines 167-179),
identical text ending in `\4`. -/
def fallbackTemplate (books : List Book) : Str :=
  canonPre ++ (generate_book_html books).1 ++ canonMid ++
    (generate_book_html books).2 ++ canonPost ++ ['\\', '4']

/-- The fully expanded canonical replacement block (the template with
the backreference removed). -/
def canonBlock (books : List Book) : Str :=
  canonPre ++ (generate_book_html books).1 ++ canonMid ++
    (generate_book_html books).2 ++ canonPost

/-- The primary `re.sub` call (line 162).  The primary pattern has two
groups; the template references group 2. -/
def primarySub (books : List Book) (doc : Str) : Option Str :=
  Re.reSub primaryBody spliceTail 2 2 (primaryTemplate books) doc

/-- The fallback `re.sub` call (line 181).  The fallback pattern has
four groups; the template references group 4. -/
def fallbackSub (books : List Book) (doc : Str) : Option Str :=
  Re.reSub fallbackBody spliceTail 4 4 (fallbackTemplate books) doc

/-- Lines 161-181: run the primary substitution; if the document is
unchanged, run the fallback substitution.  `none` models an uncaught
`re.error` (bad replacement template). -/
def spliceBooks (books : List Book) (doc : Str) : Option Str :=
  match primarySub books doc with
  | none => none
  | some s1 => if s1 = doc then fallbackSub books doc else some s1

/-- Outcome of `update_book_registry()`: `False` returned (no write),
an uncaught exception (no write), or a successful write of the new
document followed by `True`. -/
inductive UpdateResult where
  | failed : UpdateResult
  | crashed : UpdateResult
  | wrote : Str → UpdateResult
deriving DecidableEq, Repr

/-- `update_book_registry` (file I/O abstracted away: `lines` is the
content of `books.txt`, `doc` the content of `book-registry.html`; the
missing-file and read/write-error branches, which also return `False`,
are outside the model): parse all lines, fail on an empty record list,
splice, write the result unconditionally and return `True`. -/
def update_book_registry (lines : List Str) (doc : Str) : UpdateResult :=
  let books := parseBooks lines
  if books = [] then .failed
  else
    match spliceBooks books doc with
    | none => .crashed
    | some newDoc => .wrote newDoc

/-- Process exit status of the script: `main` returns 0 iff
`update_book_registry()` returned `True`; an uncaught exception also
exits non-zero. -/
def mainExit (lines : List Str) (doc : Str) : Nat :=
  match update_book_registry lines doc with
  | .wrote _ => 0
  | _ => 1

end UpdateBookRegistry

namespace MdToHtml

/-- ASCII decimal digit test (CPython's `\d` also accepts non-ASCII
Unicode digits; those are outside the inputs modelled here). -/
def isDigit (c : Char) : Bool := '0' ≤ c && c ≤ '9'

/-- Numeric value of a digit character. -/
def dVal (c : Char) : Nat := c.toNat - '0'.toNat

/-- `%Y` of `_strptime`: exactly four digits. -/
def parseYear : Str → Option (Nat × Str)
  | c1 :: c2 :: c3 :: c4 :: rest =>
    if isDigit c1 && isDigit c2 && isDigit c3 && isDigit c4 then
      some (dVal c1 * 1000 + dVal c2 * 100 + dVal c3 * 10 + dVal c4, rest)
    else none
  | _ => none

/-- `%m` of `_strptime` — `1[0-2]|0[1-9]|[1-9]` — as the ordered list
of alternatives a backtracking engine tries. -/
def monthAlts : Str → List (Nat × Str)
  | c1 :: c2 :: rest =>
    (if c1 = '1' && '0' ≤ c2 && c2 ≤ '2' then [(10 + dVal c2, rest)]
     else if c1 = '0' && '1' ≤ c2 && c2 ≤ '9' then [(dVal c2, rest)]
     else []) ++
    (if '1' ≤ c1 && c1 ≤ '9' then [(dVal c1, c2 :: rest)] else [])
  | [c1] => if '1' ≤ c1 && c1 ≤ '9' then [(dVal c1, [])] else []
  | [] => []

/-- `%d` of `_strptime` — `3[0-1]|[1-2]\d|0[1-9]|[1-9]| [1-9]` — as the
ordered list of alternatives a backtracking engine tries. -/
def dayAlts : Str → List (Nat × Str)
  | c1 :: c2 :: rest =>
    (if c1 = '3' && '0' ≤ c2 && c2 ≤ '1' then [(30 + dVal c2, rest)]
     else if ('1' ≤ c1 && c1 ≤ '2') && isDigit c2 then [(dVal c1 * 10 + dVal c2, rest)]
     else if c1 = '0' && '1' ≤ c2 && c2 ≤ '9' then [(dVal c2, rest)]
     else []) ++
    (if '1' ≤ c1 && c1 ≤ '9' then [(dVal c1, c2 :: rest)] else []) ++
    (if c1 = ' ' && '1' ≤ c2 && c2 ≤ '9' then [(dVal c2, rest)] else [])
  | [c1] => if '1' ≤ c1 && c1 ≤ '9' then [(dVal c1, [])] else []
  | [] => []

/-- Gregorian leap year, as `datetime` uses. -/
def isLeap (y : Nat) : Bool := y % 4 = 0 && (y % 100 ≠ 0 || y % 400 = 0)

/-- Days in a month, as `datetime` validates. -/
def daysInMonth (y m : Nat) : Nat :=
  if m = 2 then (if isLeap y then 29 else 28)
  else if m = 4 || m = 6 || m = 9 || m = 11 then 30
  else 31

/-- Try the month alternatives in order; for each, require the literal
`-` and then the first matching day alternative (after a day matches
the pattern ends, so the engine never revisits that choice). -/
def matchMonthDay : List (Nat × Str) → Option (Nat × Nat × Str)
  | [] => none
  | (m, r) :: more =>
    match r with
    | '-' :: r2 =>
      (match dayAlts r2 with
       | (d, r3) :: _ => some (m, d, r3)
       | [] => matchMonthDay more)
    | _ => matchMonthDay more

/-- `datetime.strptime(s, "%Y-%m-%d")`, successful iff the anchored
pattern `%Y-%m-%d` matches, no input is left over, and the values form
a valid `datetime` date (year ≥ 1, day within the month). -/
def strptimeYmd (s : Str) : Option (Nat × Nat × Nat) :=
  match parseYear s with
  | none => none
  | some (y, r1) =>
    match r1 with
    | '-' :: r2 =>
      (match matchMonthDay (monthAlts r2) with
       | none => none
       | some (m, d, rest) =>
         if rest = [] && 1 ≤ y && d ≤ daysInMonth y m then some (y, m, d) else none)
    | _ => none

/-- `%B` of `strftime` in the C locale: full English month name. -/
def monthName (m : Nat) : Str :=
  if m = 1 then str "January" else if m = 2 then str "February"
  else if m = 3 then str "March" else if m = 4 then str "April"
  else if m = 5 then str "May" else if m = 6 then str "June"
  else if m = 7 then str "July" else if m = 8 then str "August"
  else if m = 9 then str "September" else if m = 10 then str "October"
  else if m = 11 then str "November" else str "December"

/-- `%d` of `strftime`: zero-padded two-digit day. -/
def pad2 (n : Nat) : Str := if n < 10 then '0' :: (toString n).data else (toString n).data

/-- Decimal rendering of the year (`%Y` under glibc prints the year
without padding). -/
def natStr (n : Nat) : Str := (toString n).data

/-- `format_date` from `md_to_html.py`, string branch: try
`strptime("%Y-%m-%d")` and reformat with `strftime("%B %d, %Y")`; on
`ValueError` return the input unchanged.  (The `datetime` branch of the
Python function applies to non-string metadata and is outside the
string model.) -/
def format_date (s : Str) : Str :=
  match strptimeYmd s with
  | some (y, m, d) => monthName m ++ [' '] ++ pad2 d ++ str ", " ++ natStr y
  | none => s

/-- Python `\w` (ASCII part): letters, digits, underscore. -/
def isWordChar (c : Char) : Bool := c.isAlpha || isDigit c || c = '_'

/-- The class `[-\s]` collapsed by `slugify`'s second `re.sub`. -/
def sepChar (c : Char) : Bool := c = '-' || Py.isSpace c

/-- `re.sub(r'[-\s]+', '-', text)`: replace every maximal run of
hyphens/whitespace by a single hyphen (each match of the one-class
pattern `[-\s]+` is a maximal run). -/
def collapseRuns : Str → Str
  | [] => []
  | [c] => if sepChar c then ['-'] else [c]
  | c :: d :: rest =>
    if sepChar c then
      (if sepChar d then collapseRuns (d :: rest) else '-' :: collapseRuns (d :: rest))
    else c :: collapseRuns (d :: rest)

/-- `slugify` from `md_to_html.py`: lower-case, `re.sub(r'[^\w\s-]',
'', ...)` (drop every character that is not word/whitespace/hyphen),
`re.sub(r'[-\s]+', '-', ...)`, then `strip('-')`.  `str.lower` is
modelled by `Char.toLower` (ASCII-correct). -/
def slugify (s : Str) : Str :=
  Py.stripHyphens
    (collapseRuns
      ((s.map Char.toLower).filter (fun c => isWordChar c || Py.isSpace c || c = '-')))

/-- The maximal runs of non-separator characters of a string, in
order (used to state the specification's reading of slug generation). -/
def chunksBy : Str → List Str
  | [] => []
  | [c] => if sepChar c then [] else [[c]]
  | c :: d :: rest =>
    if sepChar c then chunksBy (d :: rest)
    else
      if sepChar d then [c] :: chunksBy (d :: rest)
      else
        match chunksBy (d :: rest) with
        | [] => [[c]]
        | g :: gs => (c :: g) :: gs

/-- Does the string start with a separator (whitespace/hyphen)? -/
def headIsSep (l : Str) : Bool :=
  match l with
  | [] => false
  | c :: _ => sepChar c

/-- Does the string end with a separator (whitespace/hyphen)? -/
def lastIsSep (l : Str) : Bool :=
  match l.getLast? with
  | some c => sepChar c
  | none => false

/-- The specification's reading of slug generation, written
independently: after lower-casing and dropping non word/space/hyphen
characters, every run of whitespace/hyphens becomes a single hyphen and
none is left at either end — i.e. the non-separator chunks joined by
single hyphens. -/
def slugSpec (s : Str) : Str :=
  List.intercalate ['-']
    (chunksBy
      ((s.map Char.toLower).filter (fun c => isWordChar c || Py.isSpace c || c = '-')))

/-- Abstract environment of `convert_markdown_to_html`: which paths
exist, and the title the frontmatter parse of a path produces (with the
`'Untitled'` default applied) — the markdown/frontmatter libraries are
external collaborators. -/
structure Env where
  fsExists : Str → Bool
  fileTitle : Str → Str

/-- POSIX `Path.is_absolute`. -/
def isAbsolute (p : Str) : Bool := p.head? = some '/'

/-- `convert_markdown_to_html` (lines 385-450), file contents
abstracted: resolve the input path (falling back to `drafts/<path>` for
a non-existing relative path), return `None` if it still does not
exist, otherwise write and return the output path
`<output_dir or posts>/article-<slug>.html`. -/
def convert_markdown_to_html (env : Env) (md_file_path : Str) (output_dir : Option Str) :
    Option Str :=
  let md :=
    if !env.fsExists md_file_path && !isAbsolute md_file_path then
      (if env.fsExists (str "drafts/" ++ md_file_path) then str "drafts/" ++ md_file_path
       else md_file_path)
    else md_file_path
  if env.fsExists md then
    some ((output_dir.getD (str "posts")) ++ str "/article-" ++
      slugify (env.fileTitle md) ++ str ".html")
  else none

/-- Exit status of `md_to_html.py`'s `main`: `sys.exit(1)` when invoked
with no argument; otherwise `convert_markdown_to_html` is called and
its result is ignored, so the interpreter exits 0. -/
def mainExit (env : Env) (argv : List Str) : Nat :=
  if argv.length < 2 then 1
  else
    let _ := convert_markdown_to_html env (argv.getD 1 [])
      (if argv.length > 2 then some (argv.getD 2 []) else none)
    0

/-- The specification's "string exactly matching the YYYY-MM-DD form",
written independently from its words: four digits, hyphen, two digits,
hyphen, two digits. -/
def strictYmdShape (s : Str) : Bool :=
  match s with
  | [y1, y2, y3, y4, '-', m1, m2, '-', d1, d2] =>
    isDigit y1 && isDigit y2 && isDigit y3 && isDigit y4 &&
    isDigit m1 && isDigit m2 && isDigit d1 && isDigit d2
  | _ => false

/-- Decimal digit character of `n % 10` (used to state date inputs). -/
def dig (n : Nat) : Char := Char.ofNat (48 + n % 10)

/-- Zero-padded two-digit numeral (spec-side). -/
def pad2spec (n : Nat) : Str := [dig (n / 10), dig n]

/-- Zero-padded four-digit numeral (spec-side). -/
def pad4spec (n : Nat) : Str := [dig (n / 1000), dig (n / 100), dig (n / 10), dig n]

end MdToHtml

/-!  ## Lemmas and claim theorems  -/

namespace Py

theorem replaceChar_append (n : Char) (r x y : Str) :
    replaceChar n r (x ++ y) = replaceChar n r x ++ replaceChar n r y := by
  induction x with
  | nil => rfl
  | cons c t ih => simp [replaceChar, ih]

theorem escape_append (x y : Str) : escape (x ++ y) = escape x ++ escape y := by
  simp [escape, replaceChar_append]

theorem escape_single (c : Char) : escape [c] = escChar c := by
  by_cases h1 : c = '&'
  · subst h1; rfl
  · by_cases h2 : c = '<'
    · subst h2; rfl
    · by_cases h3 : c = '>'
      · subst h3; rfl
      · by_cases h4 : c = '"'
        · subst h4; rfl
        · by_cases h5 : c = '\''
          · subst h5; rfl
          · simp [escape, replaceChar, escChar, h1, h2, h3, h4, h5]

theorem escape_cons (c : Char) (s : Str) : escape (c :: s) = escChar c ++ escape s := by
  have : (c :: s) = [c] ++ s := rfl
  rw [this, escape_append, escape_single]

theorem escChar_no_tag {c x : Char} (hx : x ∈ escChar c) : x ≠ '<' ∧ x ≠ '>' := by
  by_cases h1 : c = '&'
  · subst h1
    have hx' : x ∈ ['&', 'a', 'm', 'p', ';'] := hx
    fin_cases hx' <;> exact ⟨by decide, by decide⟩
  · by_cases h2 : c = '<'
    · subst h2
      have hx' : x ∈ ['&', 'l', 't', ';'] := hx
      fin_cases hx' <;> exact ⟨by decide, by decide⟩
    · by_cases h3 : c = '>'
      · subst h3
        have hx' : x ∈ ['&', 'g', 't', ';'] := hx
        fin_cases hx' <;> exact ⟨by decide, by decide⟩
      · by_cases h4 : c = '"'
        · subst h4
          have hx' : x ∈ ['&', 'q', 'u', 'o', 't', ';'] := hx
          fin_cases hx' <;> exact ⟨by decide, by decide⟩
        · by_cases h5 : c = '\''
          · subst h5
            have hx' : x ∈ ['&', '#', 'x', '2', '7', ';'] := hx
            fin_cases hx' <;> exact ⟨by decide, by decide⟩
          · simp only [escChar, h1, h2, h3, h4, h5, if_false] at hx
            simp only [List.mem_singleton] at hx
            subst hx
            exact ⟨h2, h3⟩

theorem escape_no_tag {s : Str} {x : Char} (hx : x ∈ escape s) : x ≠ '<' ∧ x ≠ '>' := by
  induction s with
  | nil => simp [escape, replaceChar] at hx
  | cons c t ih =>
    rw [escape_cons] at hx
    rcases List.mem_append.1 hx with h | h
    · exact escChar_no_tag h
    · exact ih h

end Py

namespace Py

theorem stripTagsAux_append (b : Bool) (x y : Str) :
    stripTagsAux b (x ++ y) = stripTagsAux b x ++ stripTagsAux (tagState b x) y := by
  induction x generalizing b with
  | nil => rfl
  | cons c t ih =>
    cases b with
    | false =>
      by_cases hc : c = '<'
      · simp [stripTagsAux, tagState, hc, ih]
      · simp [stripTagsAux, tagState, hc, ih]
    | true =>
      by_cases hc : c = '>'
      · simp [stripTagsAux, tagState, hc, ih]
      · simp [stripTagsAux, tagState, hc, ih]

theorem stripTagsAux_of_no_tag {s : Str} (h : ∀ c ∈ s, c ≠ '<' ∧ c ≠ '>') :
    stripTagsAux false s = s ∧ tagState false s = false := by
  induction s with
  | nil => exact ⟨rfl, rfl⟩
  | cons c t ih =>
    have hc := h c (List.mem_cons_self c t)
    have ht := ih (fun x hx => h x (List.mem_cons_of_mem c hx))
    constructor
    · simp [stripTagsAux, hc.1, ht.1]
    · simp [tagState, hc.1, ht.2]

theorem stripTags_escape_append (s rest : Str) :
    stripTagsAux false (escape s ++ rest) = escape s ++ stripTagsAux false rest := by
  have h := stripTagsAux_of_no_tag (s := escape s) (fun c hc => escape_no_tag hc)
  rw [stripTagsAux_append, h.1, h.2]

theorem stripTags_glue_append (g g' rest : Str)
    (h1 : stripTagsAux false g = g') (h2 : tagState false g = false) :
    stripTagsAux false (g ++ rest) = g' ++ stripTagsAux false rest := by
  rw [stripTagsAux_append, h1, h2]

theorem unesc_cons_ne {c : Char} (s : Str) (h : c ≠ '&') : unesc (c :: s) = c :: unesc s := by
  rw [unesc]
  simp [h]

theorem unesc_nil : unesc [] = [] := by
  rw [unesc]

theorem unesc_noamp_append (g rest : Str) (h : ∀ c ∈ g, c ≠ '&') :
    unesc (g ++ rest) = g ++ unesc rest := by
  induction g with
  | nil => rfl
  | cons c t ih =>
    have hc := h c (List.mem_cons_self c t)
    rw [List.cons_append, unesc_cons_ne _ hc, ih (fun x hx => h x (List.mem_cons_of_mem c hx))]
    rfl

theorem unesc_escChar (c : Char) (rest : Str) : unesc (escChar c ++ rest) = c :: unesc rest := by
  have namp : ∀ (x y z : Char) (t : Str), x ≠ 'a' → ¬ str "amp;" <+: (x :: y :: z :: t) := by
    rintro x y z t hx ⟨u, hu⟩
    simp [str] at hu
    exact hx hu.1.symm
  by_cases h1 : c = '&'
  · subst h1
    show unesc ('&' :: ('a' :: 'm' :: 'p' :: ';' :: rest)) = '&' :: unesc rest
    rw [unesc]
    have hp : str "amp;" <+: ('a' :: 'm' :: 'p' :: ';' :: rest) := ⟨rest, rfl⟩
    simp [hp]
  · by_cases h2 : c = '<'
    · subst h2
      show unesc ('&' :: ('l' :: 't' :: ';' :: rest)) = '<' :: unesc rest
      rw [unesc]
      have hp : str "lt;" <+: ('l' :: 't' :: ';' :: rest) := ⟨rest, rfl⟩
      have hn := namp 'l' 't' ';' rest (by decide)
      simp [hp, hn]
    · by_cases h3 : c = '>'
      · subst h3
        show unesc ('&' :: ('g' :: 't' :: ';' :: rest)) = '>' :: unesc rest
        rw [unesc]
        have hp : str "gt;" <+: ('g' :: 't' :: ';' :: rest) := ⟨rest, rfl⟩
        have hn := namp 'g' 't' ';' rest (by decide)
        have hn2 : ¬ str "lt;" <+: ('g' :: 't' :: ';' :: rest) := by
          rintro ⟨u, hu⟩
          simp [str] at hu
        simp [hp, hn, hn2]
      · by_cases h4 : c = '"'
        · subst h4
          show unesc ('&' :: ('q' :: 'u' :: 'o' :: 't' :: ';' :: rest)) = '"' :: unesc rest
          rw [unesc]
          have hp : str "quot;" <+: ('q' :: 'u' :: 'o' :: 't' :: ';' :: rest) := ⟨rest, rfl⟩
          have hn := namp 'q' 'u' 'o' ('t' :: ';' :: rest) (by decide)
          have hn2 : ¬ str "lt;" <+: ('q' :: 'u' :: 'o' :: 't' :: ';' :: rest) := by
            rintro ⟨u, hu⟩
            simp [str] at hu
          have hn3 : ¬ str "gt;" <+: ('q' :: 'u' :: 'o' :: 't' :: ';' :: rest) := by
            rintro ⟨u, hu⟩
            simp [str] at hu
          simp [hp, hn, hn2, hn3]
        · by_cases h5 : c = '\''
          · subst h5
            show unesc ('&' :: ('#' :: 'x' :: '2' :: '7' :: ';' :: rest)) = '\'' :: unesc rest
            rw [unesc]
            have hp : str "#x27;" <+: ('#' :: 'x' :: '2' :: '7' :: ';' :: rest) := ⟨rest, rfl⟩
            have hn := namp '#' 'x' '2' ('7' :: ';' :: rest) (by decide)
            have hn2 : ¬ str "lt;" <+: ('#' :: 'x' :: '2' :: '7' :: ';' :: rest) := by
              rintro ⟨u, hu⟩
              simp [str] at hu
            have hn3 : ¬ str "gt;" <+: ('#' :: 'x' :: '2' :: '7' :: ';' :: rest) := by
              rintro ⟨u, hu⟩
              simp [str] at hu
            have hn4 : ¬ str "quot;" <+: ('#' :: 'x' :: '2' :: '7' :: ';' :: rest) := by
              rintro ⟨u, hu⟩
              simp [str] at hu
            simp [hp, hn, hn2, hn3, hn4]
          · have : escChar c = [c] := by simp [escChar, h1, h2, h3, h4, h5]
            rw [this, List.singleton_append, unesc_cons_ne _ h1]

theorem unesc_escape_append (s rest : Str) :
    unesc (escape s ++ rest) = s ++ unesc rest := by
  induction s with
  | nil => simp [escape, replaceChar]
  | cons c t ih =>
    rw [escape_cons, List.append_assoc, unesc_escChar, ih]
    rfl

end Py

namespace UpdateBookRegistry

theorem stripTags_summaryItem (b : Book) :
    Py.stripTags (summaryItem b) =
      str "                " ++ Py.escape b.rating ++ str " — " ++
        Py.escape b.date_read ++ str " — " ++ Py.escape b.title ++
        str " by " ++ Py.escape b.author := by
  show Py.stripTagsAux false (summaryItem b) = _
  unfold summaryItem format_date
  simp only [List.append_assoc]
  rw [Py.stripTags_glue_append (str "                <li>") (str "                ") _ rfl rfl]
  rw [Py.stripTags_escape_append]
  rw [Py.stripTags_glue_append (str " — ") (str " — ") _ rfl rfl]
  rw [Py.stripTags_escape_append]
  rw [Py.stripTags_glue_append (str " — <strong>") (str " — ") _ rfl rfl]
  rw [Py.stripTags_escape_append]
  rw [Py.stripTags_glue_append (str "</strong> by ") (str " by ") _ rfl rfl]
  rw [Py.stripTags_escape_append]
  rw [show Py.stripTagsAux false (str "</li>") = [] from rfl]
  simp [List.append_assoc]

theorem stripTags_detailItem (b : Book) :
    Py.stripTags (detailItem b) =
      str "                \n                    " ++ Py.escape b.title ++
        str " by " ++ Py.escape b.author ++ str "\n                    " ++
        Py.escape b.description ++ str "\n                " := by
  show Py.stripTagsAux false (detailItem b) = _
  unfold detailItem
  simp only [List.append_assoc]
  rw [Py.stripTags_glue_append
    (str "                <li>\n                    <span class=\"book-title-author\"><strong>")
    (str "                \n                    ") _ rfl rfl]
  rw [Py.stripTags_escape_append]
  rw [Py.stripTags_glue_append (str "</strong> by ") (str " by ") _ rfl rfl]
  rw [Py.stripTags_escape_append]
  rw [Py.stripTags_glue_append
    (str "</span>\n                    <div class=\"book-description\">")
    (str "\n                    ") _ rfl rfl]
  rw [Py.stripTags_escape_append]
  rw [show Py.stripTagsAux false (str "</div>\n                </li>") = str "\n                " from rfl]

theorem unesc_stripTags_summaryItem (b : Book) :
    Py.unesc (Py.stripTags (summaryItem b)) =
      str "                " ++ b.rating ++ str " — " ++ b.date_read ++
        str " — " ++ b.title ++ str " by " ++ b.author := by
  rw [stripTags_summaryItem]
  simp only [List.append_assoc]
  rw [Py.unesc_noamp_append (str "                ") _ (by decide)]
  rw [Py.unesc_escape_append]
  rw [Py.unesc_noamp_append (str " — ") _ (by decide)]
  rw [Py.unesc_escape_append]
  rw [Py.unesc_noamp_append (str " — ") _ (by decide)]
  rw [Py.unesc_escape_append]
  rw [Py.unesc_noamp_append (str " by ") _ (by decide)]
  have hA : Py.unesc (Py.escape b.author) = b.author := by
    have h := Py.unesc_escape_append b.author []
    simpa [Py.unesc_nil] using h
  rw [hA]

theorem unesc_stripTags_detailItem (b : Book) :
    Py.unesc (Py.stripTags (detailItem b)) =
      str "                \n                    " ++ b.title ++ str " by " ++
        b.author ++ str "\n                    " ++ b.description ++
        str "\n                " := by
  rw [stripTags_detailItem]
  simp only [List.append_assoc]
  rw [Py.unesc_noamp_append (str "                \n                    ") _ (by decide)]
  rw [Py.unesc_escape_append]
  rw [Py.unesc_noamp_append (str " by ") _ (by decide)]
  rw [Py.unesc_escape_append]
  rw [Py.unesc_noamp_append (str "\n                    ") _ (by decide)]
  rw [Py.unesc_escape_append]
  have hlast : Py.unesc (str "\n                ") = str "\n                " := by
    have h := Py.unesc_noamp_append (str "\n                ") [] (by decide)
    simpa [Py.unesc_nil] using h
  rw [hlast]

end UpdateBookRegistry

/-- C1: every user-supplied field of a rendered book fragment (rating,
date_read, title, author in the summary item; title, author,
description in the details item) is inserted only in `html.escape`d
form and exactly once: the tag-stripped text of each rendered item is
the fixed glue text with the escaped fields spliced in, and un-escaping
that text content reproduces the original field values verbatim. -/
theorem C1_escape_roundtrip (r d t a desc : Str) :
    (Py.stripTags (UpdateBookRegistry.summaryItem ⟨r, d, t, a, desc⟩) =
      str "                " ++ Py.escape r ++ str " — " ++ Py.escape d ++
        str " — " ++ Py.escape t ++ str " by " ++ Py.escape a) ∧
    (Py.unesc (Py.stripTags (UpdateBookRegistry.summaryItem ⟨r, d, t, a, desc⟩)) =
      str "                " ++ r ++ str " — " ++ d ++ str " — " ++ t ++
        str " by " ++ a) ∧
    (Py.stripTags (UpdateBookRegistry.detailItem ⟨r, d, t, a, desc⟩) =
      str "                \n                    " ++ Py.escape t ++ str " by " ++
        Py.escape a ++ str "\n                    " ++ Py.escape desc ++
        str "\n                ") ∧
    (Py.unesc (Py.stripTags (UpdateBookRegistry.detailItem ⟨r, d, t, a, desc⟩)) =
      str "                \n                    " ++ t ++ str " by " ++ a ++
        str "\n                    " ++ desc ++ str "\n                ") :=
  ⟨UpdateBookRegistry.stripTags_summaryItem ⟨r, d, t, a, desc⟩,
   UpdateBookRegistry.unesc_stripTags_summaryItem ⟨r, d, t, a, desc⟩,
   UpdateBookRegistry.stripTags_detailItem ⟨r, d, t, a, desc⟩,
   UpdateBookRegistry.unesc_stripTags_detailItem ⟨r, d, t, a, desc⟩⟩

namespace UpdateBookRegistry

theorem parse_book_line_of_five (line : Str)
    (h : 5 ≤ ((Py.splitDelim (Py.strip line)).map Py.strip).length) :
    (parse_book_line line).fst = some
      { rating := ((Py.splitDelim (Py.strip line)).map Py.strip).getD 0 []
        date_read := ((Py.splitDelim (Py.strip line)).map Py.strip).getD 1 []
        title := ((Py.splitDelim (Py.strip line)).map Py.strip).getD 2 []
        author := ((Py.splitDelim (Py.strip line)).map Py.strip).getD 3 []
        description :=
          Py.joinDelim (((Py.splitDelim (Py.strip line)).map Py.strip).drop 4) } := by
  have hne : Py.strip line ≠ [] := by
    intro he
    rw [he] at h
    simp [Py.splitDelim] at h
  unfold parse_book_line
  simp only [hne, if_false, if_neg (by omega : ¬ ((Py.splitDelim (Py.strip line)).map Py.strip).length < 5)]

end UpdateBookRegistry

/-- C3: a line whose stripped form splits on `' - '` into at least five
segments parses to a record with rating/date/title/author from segments
0-3 and the description from segments 4.. re-joined with `' - '`
(each segment individually stripped, as the code does); in particular a
description containing the delimiter is kept whole. -/
theorem C3_field_mapping (line : Str)
    (h : 5 ≤ ((Py.splitDelim (Py.strip line)).map Py.strip).length) :
    (UpdateBookRegistry.parse_book_line line).fst = some
      { rating := ((Py.splitDelim (Py.strip line)).map Py.strip).getD 0 []
        date_read := ((Py.splitDelim (Py.strip line)).map Py.strip).getD 1 []
        title := ((Py.splitDelim (Py.strip line)).map Py.strip).getD 2 []
        author := ((Py.splitDelim (Py.strip line)).map Py.strip).getD 3 []
        description :=
          Py.joinDelim (((Py.splitDelim (Py.strip line)).map Py.strip).drop 4) } :=
  UpdateBookRegistry.parse_book_line_of_five line h

/-- Witness for C3 at the specification's own example line: the
delimiter-containing description parses whole. -/
theorem C3_field_mapping_witness :
    (UpdateBookRegistry.parse_book_line
        (str "4 stars - 2024-01-01 - Title - Author - Part one - Part two")).fst =
      some
        { rating := str "4 stars", date_read := str "2024-01-01",
          title := str "Title", author := str "Author",
          description := str "Part one - Part two" } := by
  rw [C3_field_mapping _ (by decide)]
  decide

namespace Py

theorem strip_eq_rdropWhile (s : Str) :
    strip s = List.rdropWhile isSpace (s.dropWhile isSpace) := rfl

theorem strip_idem (s : Str) : strip (strip s) = strip s := by
  rw [strip_eq_rdropWhile, strip_eq_rdropWhile]
  have h1 : List.dropWhile isSpace (List.rdropWhile isSpace (s.dropWhile isSpace)) =
      List.rdropWhile isSpace (s.dropWhile isSpace) := by
    rcases hA : List.rdropWhile isSpace (s.dropWhile isSpace) with _ | ⟨c, cs⟩
    · rfl
    · obtain ⟨t, ht⟩ := List.rdropWhile_prefix isSpace (s.dropWhile isSpace)
      rw [hA] at ht
      have hne : s.dropWhile isSpace ≠ [] := by
        rw [← ht]
        simp
      have hhead : (s.dropWhile isSpace).head hne = c := by
        simp only [← ht, List.cons_append, List.head_cons]
      have hc : isSpace c = false := by
        rw [← hhead]
        exact List.head_dropWhile_not isSpace s hne
      simp [List.dropWhile_cons, hc]
  rw [h1, List.rdropWhile_idempotent]

theorem strip_nil : strip ([] : Str) = [] := rfl

theorem getD_map_strip (L : List Str) (i : Nat) :
    (L.map strip).getD i [] = strip (L.getD i []) := by
  rcases h : L[i]? with _ | a
  · have hi : L.length ≤ i := by
      rw [← List.getElem?_eq_none_iff]
      exact h
    rw [List.getD_eq_default _ _ (by simpa using hi), List.getD_eq_default _ _ hi, strip_nil]
  · have hi : i < L.length := by
      by_contra hc
      push_neg at hc
      rw [List.getElem?_eq_none_iff.mpr hc] at h
      exact Option.noConfusion h
    rw [List.getD_eq_getElem _ _ (by simpa using hi), List.getD_eq_getElem _ _ hi]
    simp

end Py

namespace UpdateBookRegistry

theorem parse_book_line_some_elim (line : Str) (b : Book)
    (h : (parse_book_line line).fst = some b) :
    Py.strip line ≠ [] ∧
    5 ≤ ((Py.splitDelim (Py.strip line)).map Py.strip).length ∧
    b = { rating := ((Py.splitDelim (Py.strip line)).map Py.strip).getD 0 []
          date_read := ((Py.splitDelim (Py.strip line)).map Py.strip).getD 1 []
          title := ((Py.splitDelim (Py.strip line)).map Py.strip).getD 2 []
          author := ((Py.splitDelim (Py.strip line)).map Py.strip).getD 3 []
          description :=
            Py.joinDelim (((Py.splitDelim (Py.strip line)).map Py.strip).drop 4) } := by
  by_cases h1 : Py.strip line = []
  · unfold parse_book_line at h
    simp [h1] at h
  · by_cases h2 : (Py.splitDelim (Py.strip line)).length < 5
    · unfold parse_book_line at h
      simp [h1, h2] at h
    · have h5 : 5 ≤ ((Py.splitDelim (Py.strip line)).map Py.strip).length := by
        rw [List.length_map]
        omega
      refine ⟨h1, h5, ?_⟩
      unfold parse_book_line at h
      simp only [h1, if_false] at h
      rw [if_neg (by rw [List.length_map]; omega)] at h
      exact (Option.some.inj h).symm

end UpdateBookRegistry

/-- C10 fails as stated: an empty fifth segment gives a description
with leading whitespace (`" - x"`). -/
theorem C10_counterexample :
    (UpdateBookRegistry.parse_book_line (str "r - d - t - a -  - x")).fst =
      some { rating := str "r", date_read := str "d", title := str "t",
             author := str "a", description := str " - x" } ∧
    Py.strip (str " - x") ≠ str " - x" := by
  decide

/-- C10 amended: rating, date_read, title and author of every parsed
record are individually stripped (no leading/trailing whitespace); the
description is the `' - '`-join of the individually stripped remaining
segments — so each of its segments is whitespace-free, but the join
itself can begin or end with `" - "` when an extreme segment is empty. -/
theorem C10_fields_stripped (line : Str) (b : UpdateBookRegistry.Book)
    (h : (UpdateBookRegistry.parse_book_line line).fst = some b) :
    Py.strip b.rating = b.rating ∧ Py.strip b.date_read = b.date_read ∧
    Py.strip b.title = b.title ∧ Py.strip b.author = b.author ∧
    b.description =
      Py.joinDelim (((Py.splitDelim (Py.strip line)).map Py.strip).drop 4) ∧
    ∀ p ∈ ((Py.splitDelim (Py.strip line)).map Py.strip).drop 4, Py.strip p = p := by
  obtain ⟨br, bd, bt, ba, bdesc⟩ := b
  obtain ⟨-, -, hb⟩ := UpdateBookRegistry.parse_book_line_some_elim line _ h
  rw [UpdateBookRegistry.Book.mk.injEq] at hb
  obtain ⟨e1, e2, e3, e4, e5⟩ := hb
  subst e1
  subst e2
  subst e3
  subst e4
  subst e5
  dsimp only
  refine ⟨?_, ?_, ?_, ?_, rfl, ?_⟩
  · rw [Py.getD_map_strip, Py.strip_idem]
  · rw [Py.getD_map_strip, Py.strip_idem]
  · rw [Py.getD_map_strip, Py.strip_idem]
  · rw [Py.getD_map_strip, Py.strip_idem]
  · intro p hp
    have hp' := List.mem_of_mem_drop hp
    obtain ⟨q, -, hq⟩ := List.mem_map.1 hp'
    rw [← hq, Py.strip_idem]

/-- Witness for C10's amended theorem at a concrete parsed line. -/
theorem C10_fields_stripped_witness :
    Py.strip (str "r") = str "r" ∧
    (str " - x" = Py.joinDelim
      (((Py.splitDelim (Py.strip (str "r - d - t - a -  - x"))).map Py.strip).drop 4)) := by
  have h := C10_fields_stripped (str "r - d - t - a -  - x")
    { rating := str "r", date_read := str "d", title := str "t",
      author := str "a", description := str " - x" } (by decide)
  exact ⟨h.1, h.2.2.2.2.1⟩

/-- C4 fails as stated: the malformed-line diagnostic names the line
text but never its 1-based line number (`line_num` is computed by the
loop but unused) — for the one-line file `["a - b"]` no emitted
diagnostic contains the digit `1`. -/
theorem C4_counterexample :
    UpdateBookRegistry.parseDiags [str "a - b"] =
      [UpdateBookRegistry.warnMsg (str "a - b"), UpdateBookRegistry.formatMsg] ∧
    ∀ dmsg ∈ UpdateBookRegistry.parseDiags [str "a - b"], ¬ str "1" <:+: dmsg := by
  decide

/-- C4 amended: a line that is blank after stripping, or whose stripped
form starts with `#`, yields no record and no diagnostic; a non-blank
non-comment line with fewer than five `' - '` segments yields no record
and exactly the two warning prints, the first of which contains the
offending (stripped) line text — but not its line number; and file
parsing always continues with the remaining lines. -/
theorem C4_malformed_diagnostics (line : Str) (rest : List Str) :
    (Py.strip line = [] → UpdateBookRegistry.processLine line = (none, [])) ∧
    ((Py.strip line).head? = some '#' → UpdateBookRegistry.processLine line = (none, [])) ∧
    (Py.strip line ≠ [] → (Py.strip line).head? ≠ some '#' →
      (Py.splitDelim (Py.strip line)).length < 5 →
      UpdateBookRegistry.processLine line =
        (none, [UpdateBookRegistry.warnMsg (Py.strip line), UpdateBookRegistry.formatMsg]) ∧
        Py.strip line <:+: UpdateBookRegistry.warnMsg (Py.strip line)) ∧
    UpdateBookRegistry.parseBooks (line :: rest) =
      ((UpdateBookRegistry.processLine line).fst).toList ++ UpdateBookRegistry.parseBooks rest ∧
    UpdateBookRegistry.parseDiags (line :: rest) =
      (UpdateBookRegistry.processLine line).snd ++ UpdateBookRegistry.parseDiags rest := by
  refine ⟨?_, ?_, ?_, ?_, ?_⟩
  · intro h
    unfold UpdateBookRegistry.processLine
    simp [h]
  · intro h
    unfold UpdateBookRegistry.processLine
    by_cases h0 : Py.strip line = []
    · simp [h0]
    · simp [h0, h]
  · intro h1 h2 h3
    constructor
    · unfold UpdateBookRegistry.processLine UpdateBookRegistry.parse_book_line
      simp only [h1, if_false, h2, if_neg h2]
      rw [if_pos (by rw [List.length_map]; omega)]
    · exact ⟨str "Warning: Invalid format in line: ", [], by simp [UpdateBookRegistry.warnMsg]⟩
  · unfold UpdateBookRegistry.parseBooks
    rw [List.filterMap_cons]
    rcases hb : (UpdateBookRegistry.processLine line).fst with _ | b <;> simp [hb]
  · unfold UpdateBookRegistry.parseDiags
    simp

/-- Witness for C4's amended theorem at concrete lines. -/
theorem C4_malformed_diagnostics_witness :
    UpdateBookRegistry.processLine (str "   ") = (none, []) ∧
    UpdateBookRegistry.processLine (str "# a - b - c - d - e") = (none, []) ∧
    UpdateBookRegistry.processLine (str "a - b") =
      (none, [UpdateBookRegistry.warnMsg (str "a - b"), UpdateBookRegistry.formatMsg]) ∧
    Py.strip (str "a - b") <:+: UpdateBookRegistry.warnMsg (str "a - b") ∧
    UpdateBookRegistry.parseBooks [str "a - b", str "v - w - x - y - z"] =
      ((UpdateBookRegistry.processLine (str "a - b")).fst).toList ++
        UpdateBookRegistry.parseBooks [str "v - w - x - y - z"] := by
  have hml := (C4_malformed_diagnostics (str "a - b") []).2.2.1 (by decide) (by decide) (by decide)
  exact ⟨(C4_malformed_diagnostics (str "   ") []).1 (by decide),
    (C4_malformed_diagnostics (str "# a - b - c - d - e") []).2.1 (by decide),
    hml.1, hml.2,
    (C4_malformed_diagnostics (str "a - b") [str "v - w - x - y - z"]).2.2.2.1⟩

/-- C5 fails as stated: `main` ignores the result of
`convert_markdown_to_html`, so with an argument whose file is missing
(also after the `drafts/` fallback) the conversion returns `None` yet
the process still exits 0, not 1. -/
theorem C5_counterexample :
    MdToHtml.convert_markdown_to_html ⟨fun _ => false, fun _ => []⟩
        (str "missing.md") none = none ∧
    MdToHtml.mainExit ⟨fun _ => false, fun _ => []⟩
        [str "md_to_html.py", str "missing.md"] = 0 := by
  exact ⟨rfl, rfl⟩

/-- C5 amended: the converter exits 1 only on a usage error (no
markdown-path argument); with an argument it always exits 0, even when
the input file is missing after the drafts-directory fallback — that
case is reported only through `convert_markdown_to_html` returning
`None`. -/
theorem C5_exit_codes (env : MdToHtml.Env) (argv : List Str) (p : Str) (od : Option Str) :
    (argv.length < 2 → MdToHtml.mainExit env argv = 1) ∧
    (2 ≤ argv.length → MdToHtml.mainExit env argv = 0) ∧
    (env.fsExists p = false → env.fsExists (str "drafts/" ++ p) = false →
      MdToHtml.convert_markdown_to_html env p od = none) := by
  refine ⟨?_, ?_, ?_⟩
  · intro h
    unfold MdToHtml.mainExit
    rw [if_pos h]
  · intro h
    unfold MdToHtml.mainExit
    rw [if_neg (by omega)]
  · intro h1 h2
    unfold MdToHtml.convert_markdown_to_html
    by_cases ha : MdToHtml.isAbsolute p
    · simp [ha, h1]
    · simp [ha, h1, h2]

/-- Witness for C5's amended theorem. -/
theorem C5_exit_codes_witness :
    MdToHtml.mainExit ⟨fun _ => false, fun _ => []⟩ [str "md_to_html.py"] = 1 ∧
    MdToHtml.mainExit ⟨fun _ => false, fun _ => []⟩ [str "md_to_html.py", str "a.md"] = 0 ∧
    MdToHtml.convert_markdown_to_html ⟨fun _ => false, fun _ => []⟩ (str "a.md") none = none :=
  ⟨(C5_exit_codes ⟨fun _ => false, fun _ => []⟩ [str "md_to_html.py"] (str "a.md") none).1
      (by decide),
   (C5_exit_codes ⟨fun _ => false, fun _ => []⟩ [str "md_to_html.py", str "a.md"]
      (str "a.md") none).2.1 (by decide),
   (C5_exit_codes ⟨fun _ => false, fun _ => []⟩ [str "md_to_html.py", str "a.md"]
      (str "a.md") none).2.2 rfl rfl⟩

namespace MdToHtml

theorem dig_isDigit (n : Nat) : isDigit (dig n) = true := by
  unfold dig
  obtain ⟨r, hr, heq⟩ : ∃ r, r < 10 ∧ n % 10 = r :=
    ⟨n % 10, Nat.mod_lt _ (by norm_num), rfl⟩
  rw [heq]
  interval_cases r <;> decide

theorem dVal_dig (n : Nat) : dVal (dig n) = n % 10 := by
  unfold dig dVal
  obtain ⟨r, hr, heq⟩ : ∃ r, r < 10 ∧ n % 10 = r :=
    ⟨n % 10, Nat.mod_lt _ (by norm_num), rfl⟩
  rw [heq]
  interval_cases r <;> decide

theorem parseYear_pad4 (y : Nat) (rest : Str) (hy : y ≤ 9999) :
    parseYear (pad4spec y ++ rest) = some (y, rest) := by
  show parseYear (dig (y / 1000) :: dig (y / 100) :: dig (y / 10) :: dig y :: rest) = _
  simp only [parseYear]
  rw [if_pos (by simp [dig_isDigit])]
  rw [dVal_dig, dVal_dig, dVal_dig, dVal_dig]
  have : y / 1000 % 10 * 1000 + y / 100 % 10 * 100 + y / 10 % 10 * 10 + y % 10 = y := by
    omega
  rw [this]

theorem monthAlts_pad2 (m : Nat) (rest : Str) (h1 : 1 ≤ m) (h2 : m ≤ 12) :
    ∃ tail, monthAlts (pad2spec m ++ rest) = (m, rest) :: tail := by
  interval_cases m <;> exact ⟨_, rfl⟩

theorem dayAlts_pad2 (d : Nat) (rest : Str) (h1 : 1 ≤ d) (h2 : d ≤ 31) :
    ∃ tail, dayAlts (pad2spec d ++ rest) = (d, rest) :: tail := by
  interval_cases d <;> exact ⟨_, rfl⟩

theorem daysInMonth_le (y m : Nat) : daysInMonth y m ≤ 31 := by
  unfold daysInMonth
  split_ifs <;> simp

end MdToHtml

/-- C8 fails as stated: CPython's `%m`/`%d` accept single-digit months
and days, so `"2024-3-5"` — not in `YYYY-MM-DD` shape — is still
reformatted rather than passed through unchanged. -/
theorem C8_counterexample :
    MdToHtml.strictYmdShape (str "2024-3-5") = false ∧
    MdToHtml.format_date (str "2024-3-5") = str "March 05, 2024" ∧
    MdToHtml.format_date (str "2024-3-5") ≠ str "2024-3-5" := by
  decide

/-- C8 amended: `format_date` is total on strings; every valid
calendar date written as `YYYY-MM-DD` (and that form is in
`strictYmdShape`) is reformatted to `"Month DD, YYYY"`, and every
string `strptime` rejects is passed through unchanged — but the
accepted set is wider than the strict shape (zero padding of month and
day is optional, see the counterexample). -/
theorem C8_format_date (s : Str) (y m d : Nat) (hy1 : 1 ≤ y) (hy2 : y ≤ 9999)
    (hm1 : 1 ≤ m) (hm2 : m ≤ 12) (hd1 : 1 ≤ d) (hd2 : d ≤ MdToHtml.daysInMonth y m) :
    MdToHtml.strictYmdShape
      (MdToHtml.pad4spec y ++ '-' :: MdToHtml.pad2spec m ++ '-' :: MdToHtml.pad2spec d) = true ∧
    MdToHtml.format_date
        (MdToHtml.pad4spec y ++ '-' :: MdToHtml.pad2spec m ++ '-' :: MdToHtml.pad2spec d) =
      MdToHtml.monthName m ++ [' '] ++ MdToHtml.pad2 d ++ str ", " ++ MdToHtml.natStr y ∧
    (MdToHtml.strptimeYmd s = none → MdToHtml.format_date s = s) := by
  have hd31 : d ≤ 31 := le_trans hd2 (MdToHtml.daysInMonth_le y m)
  refine ⟨?_, ?_, ?_⟩
  · show MdToHtml.strictYmdShape
      (MdToHtml.dig (y / 1000) :: MdToHtml.dig (y / 100) :: MdToHtml.dig (y / 10) ::
        MdToHtml.dig y :: '-' :: MdToHtml.dig (m / 10) :: MdToHtml.dig m :: '-' ::
        MdToHtml.dig (d / 10) :: [MdToHtml.dig d]) = true
    simp only [MdToHtml.strictYmdShape]
    simp [MdToHtml.dig_isDigit]
  · have hparse : MdToHtml.strptimeYmd
        (MdToHtml.pad4spec y ++ '-' :: MdToHtml.pad2spec m ++ '-' :: MdToHtml.pad2spec d) =
        some (y, m, d) := by
      unfold MdToHtml.strptimeYmd
      simp only [List.append_assoc, List.cons_append]
      rw [MdToHtml.parseYear_pad4 y ('-' :: (MdToHtml.pad2spec m ++ '-' :: MdToHtml.pad2spec d)) hy2]
      obtain ⟨t1, hM⟩ := MdToHtml.monthAlts_pad2 m ('-' :: MdToHtml.pad2spec d) hm1 hm2
      obtain ⟨t2, hD⟩ := MdToHtml.dayAlts_pad2 d [] hd1 hd31
      rw [List.append_nil] at hD
      simp only [hM, MdToHtml.matchMonthDay, hD]
      rw [if_pos (by simp [hy1, hd2])]
    unfold MdToHtml.format_date
    rw [hparse]
  · intro hs
    unfold MdToHtml.format_date
    rw [hs]

/-- Witness for C8's amended theorem at the specification's two
examples. -/
theorem C8_format_date_witness :
    MdToHtml.format_date (str "2024-03-05") = str "March 05, 2024" ∧
    MdToHtml.format_date (str "circa 1990") = str "circa 1990" := by
  have h := C8_format_date (str "circa 1990") 2024 3 5 (by norm_num) (by norm_num)
    (by norm_num) (by norm_num) (by norm_num) (by decide)
  constructor
  · have h2 := h.2.1
    rw [show MdToHtml.pad4spec 2024 ++ '-' :: MdToHtml.pad2spec 3 ++ '-' :: MdToHtml.pad2spec 5 =
        str "2024-03-05" from by decide] at h2
    rw [h2]
    decide
  · exact h.2.2 (by decide)

namespace MdToHtml

theorem chunksBy_sound (l : Str) :
    ∀ g ∈ chunksBy l, g ≠ [] ∧ ∀ c ∈ g, sepChar c = false := by
  induction l with
  | nil => simp [chunksBy]
  | cons c t ih =>
    cases t with
    | nil =>
      by_cases hc : sepChar c
      · simp [chunksBy, hc]
      · simp only [chunksBy, hc, Bool.false_eq_true, if_false, List.mem_singleton]
        rintro g rfl
        refine ⟨by simp, ?_⟩
        intro x hx
        rw [List.mem_singleton] at hx
        subst hx
        simpa using hc
    | cons d rest =>
      by_cases hc : sepChar c
      · intro g hg
        refine ih g ?_
        simpa [chunksBy, hc] using hg
      · by_cases hd : sepChar d
        · intro g hg
          rw [show chunksBy (c :: d :: rest) = [c] :: chunksBy (d :: rest) from by
            simp [chunksBy, hc, hd]] at hg
          rw [List.mem_cons] at hg
          rcases hg with rfl | hg
          · refine ⟨by simp, ?_⟩
            intro x hx
            rw [List.mem_singleton] at hx
            subst hx
            simpa using hc
          · exact ih g hg
        · intro g hg
          rcases hcb : chunksBy (d :: rest) with _ | ⟨g0, gs⟩
          · rw [show chunksBy (c :: d :: rest) = [[c]] from by
              simp [chunksBy, hc, hd, hcb]] at hg
            rw [List.mem_singleton] at hg
            subst hg
            refine ⟨by simp, ?_⟩
            intro x hx
            rw [List.mem_singleton] at hx
            subst hx
            simpa using hc
          · rw [show chunksBy (c :: d :: rest) = (c :: g0) :: gs from by
              simp [chunksBy, hc, hd, hcb]] at hg
            rw [List.mem_cons] at hg
            have h0 := ih g0 (by rw [hcb]; exact List.mem_cons_self g0 gs)
            rcases hg with rfl | hg
            · refine ⟨by simp, ?_⟩
              intro x hx
              rw [List.mem_cons] at hx
              rcases hx with rfl | hx
              · simpa using hc
              · exact h0.2 x hx
            · exact ih g (by rw [hcb]; exact List.mem_cons_of_mem g0 hg)

theorem chunksBy_eq_nil_iff (l : Str) :
    chunksBy l = [] ↔ ∀ c ∈ l, sepChar c = true := by
  induction l with
  | nil => simp [chunksBy]
  | cons c t ih =>
    cases t with
    | nil =>
      by_cases hc : sepChar c <;> simp [chunksBy, hc]
    | cons d rest =>
      by_cases hc : sepChar c
      · rw [show chunksBy (c :: d :: rest) = chunksBy (d :: rest) from by
          simp [chunksBy, hc]]
        rw [ih]
        constructor
        · intro h x hx
          rw [List.mem_cons] at hx
          rcases hx with rfl | hx
          · exact hc
          · exact h x hx
        · intro h x hx
          exact h x (List.mem_cons_of_mem c hx)
      · constructor
        · intro h
          exfalso
          by_cases hd : sepChar d
          · rw [show chunksBy (c :: d :: rest) = [c] :: chunksBy (d :: rest) from by
              simp [chunksBy, hc, hd]] at h
            exact List.noConfusion h
          · rcases hcb : chunksBy (d :: rest) with _ | ⟨g0, gs⟩
            · rw [show chunksBy (c :: d :: rest) = [[c]] from by
                simp [chunksBy, hc, hd, hcb]] at h
              exact List.noConfusion h
            · rw [show chunksBy (c :: d :: rest) = (c :: g0) :: gs from by
                simp [chunksBy, hc, hd, hcb]] at h
              exact List.noConfusion h
        · intro h
          exact absurd (h c (List.mem_cons_self c _)) (by simpa using hc)

end MdToHtml

namespace MdToHtml

theorem intercalate_nil_parts (s : Str) : List.intercalate s ([] : List Str) = [] := rfl

theorem intercalate_single (s g : Str) : List.intercalate s [g] = g := by
  simp [List.intercalate, List.intersperse]

theorem intercalate_cons2 (s g h : Str) (t : List Str) :
    List.intercalate s (g :: h :: t) = g ++ s ++ List.intercalate s (h :: t) := by
  simp [List.intercalate, List.intersperse]

end MdToHtml

namespace MdToHtml

theorem lastIsSep_cons_cons (c d : Char) (rest : Str) :
    lastIsSep (c :: d :: rest) = lastIsSep (d :: rest) := by
  simp [lastIsSep, List.getLast?_cons_cons]

theorem lastIsSep_of_all (l : Str) (hne : l ≠ []) (h : ∀ c ∈ l, sepChar c = true) :
    lastIsSep l = true := by
  unfold lastIsSep
  rw [List.getLast?_eq_getLast l hne]
  exact h _ (List.getLast_mem hne)

theorem intercalate_cons_head (s : Str) (c : Char) (g : Str) (gs : List Str) :
    List.intercalate s ((c :: g) :: gs) = c :: List.intercalate s (g :: gs) := by
  cases gs with
  | nil => rw [intercalate_single, intercalate_single]
  | cons h t => rw [intercalate_cons2, intercalate_cons2]; simp

theorem collapse_decomp (l : Str) :
    collapseRuns l =
      (if headIsSep l then ['-'] else []) ++
      List.intercalate ['-'] (chunksBy l) ++
      (if lastIsSep l && !(chunksBy l).isEmpty then ['-'] else []) := by
  induction l with
  | nil => rfl
  | cons c t ih =>
    cases t with
    | nil =>
      by_cases hc : sepChar c
      · simp [collapseRuns, chunksBy, headIsSep, lastIsSep, hc, intercalate_nil_parts]
      · simp [collapseRuns, chunksBy, headIsSep, lastIsSep, hc, intercalate_single]
    | cons d rest =>
      by_cases hc : sepChar c
      · by_cases hd : sepChar d
        · rw [show collapseRuns (c :: d :: rest) = collapseRuns (d :: rest) from by
            simp [collapseRuns, hc, hd]]
          rw [show chunksBy (c :: d :: rest) = chunksBy (d :: rest) from by
            simp [chunksBy, hc]]
          rw [ih, lastIsSep_cons_cons]
          have h1 : headIsSep (c :: d :: rest) = true := by simp [headIsSep, hc]
          have h2 : headIsSep (d :: rest) = true := by simp [headIsSep, hd]
          rw [h1, h2]
        · rw [show collapseRuns (c :: d :: rest) = '-' :: collapseRuns (d :: rest) from by
            simp [collapseRuns, hc, hd]]
          rw [show chunksBy (c :: d :: rest) = chunksBy (d :: rest) from by
            simp [chunksBy, hc]]
          rw [ih, lastIsSep_cons_cons]
          have h1 : headIsSep (c :: d :: rest) = true := by simp [headIsSep, hc]
          have h2 : headIsSep (d :: rest) = false := by simp [headIsSep, hd]
          rw [h1, h2]
          simp
      · have hlead : headIsSep (c :: d :: rest) = false := by simp [headIsSep, hc]
        by_cases hd : sepChar d
        · rw [show collapseRuns (c :: d :: rest) = c :: collapseRuns (d :: rest) from by
            simp [collapseRuns, hc]]
          rw [show chunksBy (c :: d :: rest) = [c] :: chunksBy (d :: rest) from by
            simp [chunksBy, hc, hd]]
          rw [ih, lastIsSep_cons_cons, hlead]
          have h2 : headIsSep (d :: rest) = true := by simp [headIsSep, hd]
          rw [h2]
          rcases hcb : chunksBy (d :: rest) with _ | ⟨g, gs⟩
          · have hall : ∀ x ∈ d :: rest, sepChar x = true := (chunksBy_eq_nil_iff _).1 hcb
            have hlast : lastIsSep (d :: rest) = true :=
              lastIsSep_of_all _ (by simp) hall
            rw [hlast, intercalate_nil_parts, intercalate_single]
            simp
          · rw [intercalate_cons2]
            simp [List.append_assoc]
        · rw [show collapseRuns (c :: d :: rest) = c :: collapseRuns (d :: rest) from by
            simp [collapseRuns, hc]]
          rcases hcb : chunksBy (d :: rest) with _ | ⟨g, gs⟩
          · exfalso
            have hall := (chunksBy_eq_nil_iff _).1 hcb
            exact absurd (hall d (List.mem_cons_self d rest)) (by simpa using hd)
          · rw [show chunksBy (c :: d :: rest) = (c :: g) :: gs from by
              simp [chunksBy, hc, hd, hcb]]
            rw [ih, lastIsSep_cons_cons, hlead]
            have h2 : headIsSep (d :: rest) = false := by simp [headIsSep, hd]
            rw [h2, hcb, intercalate_cons_head]
            simp

end MdToHtml

namespace MdToHtml

theorem intercalate_getLast_not_sep (gs : List Str) (g : Str)
    (h : ∀ x ∈ g :: gs, x ≠ [] ∧ ∀ c ∈ x, sepChar c = false) :
    ∃ z, (List.intercalate ['-'] (g :: gs)).getLast? = some z ∧ sepChar z = false := by
  induction gs generalizing g with
  | nil =>
    have hg := h g (List.mem_cons_self g [])
    refine ⟨g.getLast hg.1, ?_, ?_⟩
    · rw [intercalate_single, List.getLast?_eq_getLast g hg.1]
    · exact hg.2 _ (List.getLast_mem hg.1)
  | cons h2 t ih =>
    obtain ⟨z, hz1, hz2⟩ := ih h2 (fun x hx => h x (List.mem_cons_of_mem g hx))
    refine ⟨z, ?_, hz2⟩
    rw [intercalate_cons2]
    have hne : List.intercalate ['-'] (h2 :: t) ≠ [] := by
      intro he
      rw [he] at hz1
      simp at hz1
    rw [List.append_assoc, List.getLast?_append_of_ne_nil _ (by simp [hne])]
    rw [List.getLast?_append_of_ne_nil _ hne]
    exact hz1

theorem stripHyphens_core (g : Str) (gs : List Str)
    (h : ∀ x ∈ g :: gs, x ≠ [] ∧ ∀ c ∈ x, sepChar c = false) :
    Py.stripHyphens (List.intercalate ['-'] (g :: gs)) =
      List.intercalate ['-'] (g :: gs) := by
  have hg := h g (List.mem_cons_self g gs)
  obtain ⟨gc, g', rfl⟩ : ∃ gc g', g = gc :: g' := by
    rcases g with _ | ⟨gc, g'⟩
    · exact absurd rfl hg.1
    · exact ⟨gc, g', rfl⟩
  have hgc : sepChar gc = false := hg.2 gc (List.mem_cons_self gc g')
  have hgc' : (gc = '-') = False := by
    by_cases hq : gc = '-'
    · subst hq
      simp [sepChar] at hgc
    · simp [hq]
  show (((List.intercalate ['-'] ((gc :: g') :: gs)).dropWhile (· = '-')).reverse.dropWhile
      (· = '-')).reverse = _
  rw [intercalate_cons_head]
  rw [List.dropWhile_cons]
  simp only [hgc', decide_False, if_false]
  obtain ⟨z, hz1, hz2⟩ := intercalate_getLast_not_sep gs (gc :: g') h
  rw [intercalate_cons_head] at hz1
  have hrd : List.rdropWhile (· = '-') (gc :: List.intercalate ['-'] (g' :: gs)) =
      gc :: List.intercalate ['-'] (g' :: gs) := by
    rw [List.rdropWhile_eq_self_iff]
    intro hl
    have := List.getLast?_eq_getLast _ hl
    rw [hz1] at this
    have hz : (gc :: List.intercalate ['-'] (g' :: gs)).getLast hl = z :=
      Option.some.inj this.symm
    rw [hz]
    intro hzz
    have hz' : z = '-' := of_decide_eq_true hzz
    rw [hz'] at hz2
    simp [sepChar] at hz2
  exact hrd

end MdToHtml

namespace MdToHtml

theorem stripHyphens_cons_hyphen (x : Str) :
    Py.stripHyphens ('-' :: x) = Py.stripHyphens x := by
  show ((('-' :: x).dropWhile (· = '-')).reverse.dropWhile (· = '-')).reverse =
    ((x.dropWhile (· = '-')).reverse.dropWhile (· = '-')).reverse
  rw [show ('-' :: x).dropWhile (· = '-') = x.dropWhile (· = '-') from by
    simp [List.dropWhile_cons]]

theorem stripHyphens_core_trail (g : Str) (gs : List Str)
    (h : ∀ x ∈ g :: gs, x ≠ [] ∧ ∀ c ∈ x, sepChar c = false) :
    Py.stripHyphens (List.intercalate ['-'] (g :: gs) ++ ['-']) =
      List.intercalate ['-'] (g :: gs) := by
  have hg := h g (List.mem_cons_self g gs)
  obtain ⟨gc, g', rfl⟩ : ∃ gc g', g = gc :: g' := by
    rcases g with _ | ⟨gc, g'⟩
    · exact absurd rfl hg.1
    · exact ⟨gc, g', rfl⟩
  have hgc : sepChar gc = false := hg.2 gc (List.mem_cons_self gc g')
  have hgc' : (gc = '-') = False := by
    by_cases hq : gc = '-'
    · subst hq
      simp [sepChar] at hgc
    · simp [hq]
  show (((List.intercalate ['-'] ((gc :: g') :: gs) ++ ['-']).dropWhile
      (· = '-')).reverse.dropWhile (· = '-')).reverse = _
  rw [intercalate_cons_head, List.cons_append, List.dropWhile_cons]
  simp only [hgc', decide_False, if_false]
  obtain ⟨z, hz1, hz2⟩ := intercalate_getLast_not_sep gs (gc :: g') h
  rw [intercalate_cons_head] at hz1
  have hstep : List.rdropWhile (· = '-')
      ((gc :: List.intercalate ['-'] (g' :: gs)) ++ ['-']) =
      List.rdropWhile (· = '-') (gc :: List.intercalate ['-'] (g' :: gs)) :=
    List.rdropWhile_concat_pos _ _ '-' (by simp)
  have hrd : List.rdropWhile (· = '-') (gc :: List.intercalate ['-'] (g' :: gs)) =
      gc :: List.intercalate ['-'] (g' :: gs) := by
    rw [List.rdropWhile_eq_self_iff]
    intro hl
    have := List.getLast?_eq_getLast _ hl
    rw [hz1] at this
    have hz : (gc :: List.intercalate ['-'] (g' :: gs)).getLast hl = z :=
      Option.some.inj this.symm
    rw [hz]
    intro hzz
    have hz' : z = '-' := of_decide_eq_true hzz
    rw [hz'] at hz2
    simp [sepChar] at hz2
  show List.rdropWhile (· = '-') ((gc :: List.intercalate ['-'] (g' :: gs)) ++ ['-']) = _
  rw [hstep, hrd]

end MdToHtml

/-- C9: slug generation equals the specification's composition —
lower-case, drop every character that is not word/whitespace/hyphen,
then join the remaining non-separator chunks with single hyphens (no
leading or trailing hyphen) — with the spec's concrete examples. -/
theorem C9_slugify (s : Str) :
    MdToHtml.slugify s = MdToHtml.slugSpec s ∧
    MdToHtml.slugify (str "My Post: Part 2!") = str "my-post-part-2" ∧
    MdToHtml.slugify (str "!?!") = [] ∧
    MdToHtml.slugify [] = [] := by
  refine ⟨?_, by decide, by decide, by decide⟩
  unfold MdToHtml.slugify MdToHtml.slugSpec
  generalize (s.map Char.toLower).filter
    (fun c => MdToHtml.isWordChar c || Py.isSpace c || c = '-') = X
  rw [MdToHtml.collapse_decomp]
  rcases hcb : MdToHtml.chunksBy X with _ | ⟨g, gs⟩
  · rw [MdToHtml.intercalate_nil_parts]
    simp only [List.isEmpty_nil, Bool.not_true, Bool.and_false, if_false,
      List.append_nil, List.nil_append]
    by_cases hH : MdToHtml.headIsSep X
    · rw [if_pos hH]
      decide
    · rw [if_neg hH]
      decide
  · have hsound : ∀ x ∈ g :: gs, x ≠ [] ∧ ∀ c ∈ x, MdToHtml.sepChar c = false := by
      rw [← hcb]
      exact MdToHtml.chunksBy_sound X
    simp only [List.isEmpty_cons, Bool.not_false, Bool.and_true]
    by_cases hH : MdToHtml.headIsSep X <;> by_cases hL : MdToHtml.lastIsSep X
    · rw [if_pos hH, if_pos hL, List.singleton_append, List.cons_append,
        MdToHtml.stripHyphens_cons_hyphen]
      exact MdToHtml.stripHyphens_core_trail g gs hsound
    · rw [if_pos hH, if_neg hL, List.singleton_append, List.append_nil,
        MdToHtml.stripHyphens_cons_hyphen]
      exact MdToHtml.stripHyphens_core g gs hsound
    · rw [if_neg hH, if_pos hL, List.nil_append]
      exact MdToHtml.stripHyphens_core_trail g gs hsound
    · rw [if_neg hH, if_neg hL, List.nil_append, List.append_nil]
      exact MdToHtml.stripHyphens_core g gs hsound

namespace Re

theorem matchStates_suffix (f : Nat) :
    ∀ (re : Pat) (ss : List Str) (t : Str), t ∈ matchStates f re ss →
      ∃ s ∈ ss, t <:+ s := by
  induction f with
  | zero =>
    intro re ss t ht
    simp [matchStates] at ht
  | succ f ih =>
    intro re ss t ht
    cases ss with
    | nil => simp [matchStates] at ht
    | cons s rest =>
      cases re with
      | lit cs =>
        simp only [matchStates] at ht
        rcases List.mem_append.1 ht with h | h
        · refine ⟨s, List.mem_cons_self s rest, ?_⟩
          rcases Decidable.em (cs.isPrefixOf s) with hp | hp
          · rw [if_pos hp] at h
            rw [List.mem_singleton] at h
            subst h
            exact List.drop_suffix _ _
          · rw [if_neg hp] at h
            simp at h
        · obtain ⟨u, hu, hsuf⟩ := ih _ _ _ h
          exact ⟨u, List.mem_cons_of_mem s hu, hsuf⟩
      | cls p =>
        simp only [matchStates] at ht
        rcases List.mem_append.1 ht with h | h
        · refine ⟨s, List.mem_cons_self s rest, ?_⟩
          rcases s with _ | ⟨c, s2⟩
          · simp at h
          · have h2 : t ∈ (if p c = true then [s2] else []) := h
            rcases Decidable.em (p c) with hp | hp
            · rw [if_pos hp] at h2
              rw [List.mem_singleton] at h2
              subst h2
              exact ⟨[c], rfl⟩
            · rw [if_neg (by simpa using hp)] at h2
              simp at h2
        · obtain ⟨u, hu, hsuf⟩ := ih _ _ _ h
          exact ⟨u, List.mem_cons_of_mem s hu, hsuf⟩
      | seq a b =>
        simp only [matchStates] at ht
        obtain ⟨u, hu, hsuf⟩ := ih _ _ _ ht
        obtain ⟨v, hv, hsuf2⟩ := ih _ _ _ hu
        exact ⟨v, hv, hsuf.trans hsuf2⟩
      | opt r =>
        simp only [matchStates] at ht
        rcases List.mem_append.1 ht with h | h
        · rcases List.mem_append.1 h with h2 | h2
          · obtain ⟨u, hu, hsuf⟩ := ih _ _ _ h2
            rw [List.mem_singleton] at hu
            subst hu
            exact ⟨u, List.mem_cons_self u rest, hsuf⟩
          · rw [List.mem_singleton] at h2
            subst h2
            exact ⟨t, List.mem_cons_self t rest, List.suffix_refl t⟩
        · obtain ⟨u, hu, hsuf⟩ := ih _ _ _ h
          exact ⟨u, List.mem_cons_of_mem s hu, hsuf⟩
      | starL r =>
        simp only [matchStates] at ht
        rcases List.mem_append.1 ht with h | h
        · rw [List.mem_cons] at h
          rcases h with rfl | h2
          · exact ⟨t, List.mem_cons_self t rest, List.suffix_refl t⟩
          · obtain ⟨u, hu, hsuf⟩ := ih _ _ _ h2
            have hu2 := List.mem_filter.1 hu
            obtain ⟨v, hv, hsuf2⟩ := ih _ _ _ hu2.1
            rw [List.mem_singleton] at hv
            subst hv
            exact ⟨v, List.mem_cons_self v rest, hsuf.trans hsuf2⟩
        · obtain ⟨u, hu, hsuf⟩ := ih _ _ _ h
          exact ⟨u, List.mem_cons_of_mem s hu, hsuf⟩
      | starG r =>
        simp only [matchStates] at ht
        rcases List.mem_append.1 ht with h | h
        · rcases List.mem_append.1 h with h2 | h2
          · obtain ⟨u, hu, hsuf⟩ := ih _ _ _ h2
            have hu2 := List.mem_filter.1 hu
            obtain ⟨v, hv, hsuf2⟩ := ih _ _ _ hu2.1
            rw [List.mem_singleton] at hv
            subst hv
            exact ⟨v, List.mem_cons_self v rest, hsuf.trans hsuf2⟩
          · rw [List.mem_singleton] at h2
            subst h2
            exact ⟨t, List.mem_cons_self t rest, List.suffix_refl t⟩
        · obtain ⟨u, hu, hsuf⟩ := ih _ _ _ h
          exact ⟨u, List.mem_cons_of_mem s hu, hsuf⟩

end Re

namespace Re

theorem take_sub_of_suffix (s y : Str) (h : y <:+ s) :
    s.take (s.length - y.length) ++ y = s := by
  obtain ⟨w, rfl⟩ := h
  have hl : (w ++ y).length - y.length = w.length := by
    simp [List.length_append]
  rw [hl, List.take_left]

theorem firstTail_spec (f : Nat) (tl : Pat) :
    ∀ (l : List Str) (s1 r : Str), firstTail f tl l = some (s1, r) →
      s1 ∈ l ∧ r ∈ matchStates f tl [s1] := by
  intro l
  induction l with
  | nil =>
    intro s1 r h
    simp [firstTail] at h
  | cons x rest ih =>
    intro s1 r h
    rw [firstTail] at h
    rcases hm : matchStates f tl [x] with _ | ⟨r0, rs⟩
    · rw [hm] at h
      obtain ⟨h1, h2⟩ := ih s1 r h
      exact ⟨List.mem_cons_of_mem x h1, h2⟩
    · rw [hm] at h
      obtain ⟨e1, e2⟩ := Prod.mk.injEq .. ▸ Option.some.inj h
      subst e1
      subst e2
      exact ⟨List.mem_cons_self x rest, by rw [hm]; exact List.mem_cons_self r0 rs⟩

theorem findFirst_decomp (f : Nat) (body tl : Pat) :
    ∀ (s p m g r : Str), findFirst f body tl s = some (p, m, g, r) →
      s = p ++ m ++ r ∧ ∃ w, m = w ++ g := by
  intro s
  induction s with
  | nil =>
    intro p m g r h
    rw [findFirst] at h
    rcases hft : firstTail f tl (matchStates f body [[]]) with _ | ⟨s1, r0⟩
    · rw [hft] at h
      simp at h
    · rw [hft] at h
      obtain ⟨hs1, hr0⟩ := firstTail_spec f tl _ s1 r0 hft
      obtain ⟨u, hu, hsuf⟩ := matchStates_suffix f body [[]] s1 hs1
      rw [List.mem_singleton] at hu
      rw [hu] at hsuf
      obtain ⟨u2, hu2, hsuf2⟩ := matchStates_suffix f tl [s1] r0 hr0
      rw [List.mem_singleton] at hu2
      rw [hu2] at hsuf2
      have hs1nil : s1 = [] := List.eq_nil_of_suffix_nil hsuf
      have hr0nil : r0 = [] := by
        rw [hs1nil] at hsuf2
        exact List.eq_nil_of_suffix_nil hsuf2
      rw [hs1nil, hr0nil] at h
      simp only [Option.some.injEq, Prod.mk.injEq] at h
      obtain ⟨h1, h2, h3, h4⟩ := h
      rw [← h1, ← h2, ← h3, ← h4]
      exact ⟨rfl, [], rfl⟩
  | cons c s2 ih =>
    intro p m g r h
    rw [findFirst] at h
    rcases hft : firstTail f tl (matchStates f body [c :: s2]) with _ | ⟨s1, r0⟩
    · rw [hft] at h
      rcases hf2 : findFirst f body tl s2 with _ | ⟨⟨p2, m2, g2, r2⟩⟩
      · rw [hf2] at h
        simp at h
      · rw [hf2] at h
        simp only [Option.map_some', Option.some.injEq, Prod.mk.injEq] at h
        obtain ⟨h1, h2, h3, h4⟩ := h
        obtain ⟨hd, hw⟩ := ih p2 m2 g2 r2 hf2
        rw [← h1, ← h2, ← h3, ← h4]
        constructor
        · rw [List.cons_append, List.cons_append, ← hd]
        · exact hw
    · rw [hft] at h
      obtain ⟨hs1, hr0⟩ := firstTail_spec f tl _ s1 r0 hft
      obtain ⟨u, hu, hsuf⟩ := matchStates_suffix f body [c :: s2] s1 hs1
      rw [List.mem_singleton] at hu
      rw [hu] at hsuf
      obtain ⟨u2, hu2, hsuf2⟩ := matchStates_suffix f tl [s1] r0 hr0
      rw [List.mem_singleton] at hu2
      rw [hu2] at hsuf2
      simp only [Option.some.injEq, Prod.mk.injEq] at h
      obtain ⟨h1, h2, h3, h4⟩ := h
      have hrs : r0 <:+ (c :: s2) := hsuf2.trans hsuf
      obtain ⟨w1, hw1⟩ := hrs
      obtain ⟨w2, hw2⟩ := hsuf2
      obtain ⟨w3, hw3⟩ := hsuf
      have e1 : (c :: s2).take ((c :: s2).length - r0.length) = w1 := by
        have h5 := take_sub_of_suffix (c :: s2) r0 ⟨w1, hw1⟩
        have h6 : (c :: s2).take ((c :: s2).length - r0.length) ++ r0 = w1 ++ r0 := by
          rw [hw1]
          exact h5
        exact List.append_cancel_right h6
      have e2 : s1.take (s1.length - r0.length) = w2 := by
        have h5 := take_sub_of_suffix s1 r0 ⟨w2, hw2⟩
        have h6 : s1.take (s1.length - r0.length) ++ r0 = w2 ++ r0 := by
          rw [hw2]
          exact h5
        exact List.append_cancel_right h6
      subst h1
      subst h2
      subst h3
      subst h4
      constructor
      · rw [List.nil_append, e1]
        exact hw1.symm
      · refine ⟨w3, ?_⟩
        rw [e1, e2]
        have h7 : w1 ++ r0 = w3 ++ (w2 ++ r0) := by
          rw [hw1, hw2, hw3]
        rw [← List.append_assoc] at h7
        exact List.append_cancel_right h7

end Re

namespace Re

theorem parseTemplate_append_noBS (ng : Nat) (t : Str) (fuel : Nat) (rest : Str)
    (h : ∀ c ∈ t, c ≠ '\\') :
    parseTemplate ng (t.length + fuel) (t ++ rest) =
      (parseTemplate ng fuel rest).map (fun T => t.map TItem.litc ++ T) := by
  induction t with
  | nil =>
    show parseTemplate ng (0 + fuel) rest = _
    rw [Nat.zero_add]
    rcases hE : parseTemplate ng fuel rest with _ | T <;> simp [hE]
  | cons c t2 ih =>
    have hc : c ≠ '\\' := h c (List.mem_cons_self c t2)
    show parseTemplate ng (t2.length + 1 + fuel) (c :: (t2 ++ rest)) = _
    rw [show t2.length + 1 + fuel = (t2.length + fuel) + 1 from by omega]
    rw [parseTemplate.eq_def]
    simp only [if_neg hc]
    rw [ih (fun x hx => h x (List.mem_cons_of_mem c hx))]
    rcases hE : parseTemplate ng fuel rest with _ | T <;> simp [hE]

theorem expandTemplate_litc_append (gIdx : Nat) (g2 t : Str) (T : List TItem) :
    expandTemplate gIdx g2 (t.map TItem.litc ++ T) =
      (expandTemplate gIdx g2 T).map (fun x => t ++ x) := by
  induction t with
  | nil => rcases hE : expandTemplate gIdx g2 T with _ | v <;> simp [hE]
  | cons c t2 ih =>
    show expandTemplate gIdx g2 (TItem.litc c :: (t2.map TItem.litc ++ T)) = _
    rw [expandTemplate, ih]
    rcases hE : expandTemplate gIdx g2 T with _ | v <;> simp [hE]

theorem expandTemplate_canonical (gIdx : Nat) (g2 t : Str) :
    expandTemplate gIdx g2 (t.map TItem.litc ++ [TItem.ref gIdx]) = some (t ++ g2) := by
  rw [expandTemplate_litc_append]
  rw [show expandTemplate gIdx g2 [TItem.ref gIdx] = some g2 from by
    rw [expandTemplate]
    rw [if_pos rfl]
    rw [show expandTemplate gIdx g2 [] = some [] from rfl]
    simp]
  simp

theorem subLoop_succ (mf : Nat) (body tl : Pat) (gIdx : Nat) (tpl : List TItem)
    (fuel : Nat) (s : Str) :
    subLoop mf body tl gIdx tpl (fuel + 1) s =
      match findFirst mf body tl s with
      | none => some s
      | some (p, m, g2, r) =>
        match expandTemplate gIdx g2 tpl with
        | none => none
        | some rep =>
          if m = [] then
            match r with
            | [] => some (p ++ rep)
            | c :: r' =>
              (subLoop mf body tl gIdx tpl fuel r').map (fun t => p ++ rep ++ [c] ++ t)
          else (subLoop mf body tl gIdx tpl fuel r).map (fun t => p ++ rep ++ t) := rfl

theorem reSub_single_match (body tl : Pat) (gi : Nat) (dch : Char)
    (tplText doc p m g r : Str)
    (htpl : parseTemplate gi ((tplText ++ ['\\', dch]).length + 1) (tplText ++ ['\\', dch]) =
      some (tplText.map TItem.litc ++ [TItem.ref gi]))
    (hf : findFirst (mfuel doc) body tl doc = some (p, m, g, r))
    (hnone : findFirst (mfuel doc) body tl r = none)
    (hm : m ≠ []) :
    reSub body tl gi gi (tplText ++ ['\\', dch]) doc = some (p ++ tplText ++ g ++ r) := by
  unfold reSub
  rw [htpl]
  have hsub : ∀ k : Nat,
      subLoop (mfuel doc) body tl gi (tplText.map TItem.litc ++ [TItem.ref gi]) k r = some r := by
    intro k
    cases k with
    | zero => rfl
    | succ k2 =>
      rw [subLoop_succ]
      simp only [hnone]
  show subLoop (mfuel doc) body tl gi (tplText.map TItem.litc ++ [TItem.ref gi])
      (doc.length + 1) doc = _
  rw [subLoop_succ]
  simp only [hf, expandTemplate_canonical, if_neg hm, hsub doc.length, Option.map_some']
  simp [List.append_assoc]

end Re

namespace Re

/-- `re.sub` with a parseable template is the identity when the pattern
has no match anywhere in the input. -/
theorem reSub_noMatch (body tl : Pat) (gi : Nat) (tplStr doc : Str) (tpl : List TItem)
    (htpl : parseTemplate gi (tplStr.length + 1) tplStr = some tpl)
    (hnone : findFirst (mfuel doc) body tl doc = none) :
    reSub body tl gi gi tplStr doc = some doc := by
  unfold reSub
  rw [htpl]
  show subLoop (mfuel doc) body tl gi tpl (doc.length + 1) doc = some doc
  rw [subLoop_succ]
  simp only [hnone]

end Re

namespace UpdateBookRegistry

/-- The primary replacement template is the canonical block followed by
the backreference `\2`. -/
theorem primaryTemplate_eq (books : List Book) :
    primaryTemplate books = canonBlock books ++ ['\\', '2'] := rfl

/-- The fallback replacement template is the canonical block followed by
the backreference `\4`. -/
theorem fallbackTemplate_eq (books : List Book) :
    fallbackTemplate books = canonBlock books ++ ['\\', '4'] := rfl

/-- When the rendered block contains no backslash, `parse_template`
parses the primary replacement into its literal text plus a reference
to group 2. -/
theorem primary_tpl_parse (books : List Book)
    (hb : ∀ c ∈ canonBlock books, c ≠ '\\') :
    Re.parseTemplate 2 ((primaryTemplate books).length + 1) (primaryTemplate books) =
      some ((canonBlock books).map Re.TItem.litc ++ [Re.TItem.ref 2]) := by
  rw [primaryTemplate_eq]
  have h2 : (canonBlock books ++ ['\\', '2']).length + 1 = (canonBlock books).length + 3 := by
    simp [List.length_append]
  rw [h2]
  rw [Re.parseTemplate_append_noBS 2 (canonBlock books) 3 ['\\', '2'] hb]
  rfl

/-- When the rendered block contains no backslash, `parse_template`
parses the fallback replacement into its literal text plus a reference
to group 4. -/
theorem fallback_tpl_parse (books : List Book)
    (hb : ∀ c ∈ canonBlock books, c ≠ '\\') :
    Re.parseTemplate 4 ((fallbackTemplate books).length + 1) (fallbackTemplate books) =
      some ((canonBlock books).map Re.TItem.litc ++ [Re.TItem.ref 4]) := by
  rw [fallbackTemplate_eq]
  have h2 : (canonBlock books ++ ['\\', '4']).length + 1 = (canonBlock books).length + 3 := by
    simp [List.length_append]
  rw [h2]
  rw [Re.parseTemplate_append_noBS 4 (canonBlock books) 3 ['\\', '4'] hb]
  rfl

end UpdateBookRegistry

namespace UpdateBookRegistry

/-- C2 fails as stated: on the host document `"ab"` neither the primary
nor the fallback pattern matches, yet `update_book_registry()` writes
the (unchanged) document back and returns `True`, and the process exits
with code 0, not 1 — the code never compares the final `new_html` with
the original content. -/
theorem C2_counterexample :
    Re.findFirst (Re.mfuel (str "ab")) primaryBody spliceTail (str "ab") = none ∧
    Re.findFirst (Re.mfuel (str "ab")) fallbackBody spliceTail (str "ab") = none ∧
    update_book_registry [str "5 stars - 2024-01-01 - T - A - D"] (str "ab") =
      .wrote (str "ab") ∧
    mainExit [str "5 stars - 2024-01-01 - T - A - D"] (str "ab") = 0 := by
  refine ⟨by decide, by decide, by decide, by decide⟩

/-- C2 amended: when at least one record parses, the rendered block
contains no backslash, and neither splice pattern matches anywhere in
the host document, `update_book_registry()` writes the document back
unchanged and reports success — `main()` exits 0; the no-match case is
not detected or reported as a failure. -/
theorem C2_no_match_writes (lines : List Str) (doc : Str)
    (hbooks : parseBooks lines ≠ [])
    (hb : ∀ c ∈ canonBlock (parseBooks lines), c ≠ '\\')
    (h1 : Re.findFirst (Re.mfuel doc) primaryBody spliceTail doc = none)
    (h2 : Re.findFirst (Re.mfuel doc) fallbackBody spliceTail doc = none) :
    update_book_registry lines doc = .wrote doc ∧ mainExit lines doc = 0 := by
  have hp : primarySub (parseBooks lines) doc = some doc := by
    unfold primarySub
    exact Re.reSub_noMatch primaryBody spliceTail 2 (primaryTemplate (parseBooks lines)) doc
      ((canonBlock (parseBooks lines)).map Re.TItem.litc ++ [Re.TItem.ref 2])
      (primary_tpl_parse (parseBooks lines) hb) h1
  have hfb : fallbackSub (parseBooks lines) doc = some doc := by
    unfold fallbackSub
    exact Re.reSub_noMatch fallbackBody spliceTail 4 (fallbackTemplate (parseBooks lines)) doc
      ((canonBlock (parseBooks lines)).map Re.TItem.litc ++ [Re.TItem.ref 4])
      (fallback_tpl_parse (parseBooks lines) hb) h2
  have hs : spliceBooks (parseBooks lines) doc = some doc := by
    unfold spliceBooks
    rw [hp]
    show (if doc = doc then fallbackSub (parseBooks lines) doc else some doc) = some doc
    rw [if_pos rfl]
    exact hfb
  have hu : update_book_registry lines doc = .wrote doc := by
    simp only [update_book_registry, if_neg hbooks, hs]
  refine ⟨hu, ?_⟩
  unfold mainExit
  rw [hu]

/-- Witness for C2's amended theorem: one well-formed book line and the
pattern-free host document `"xy"`. -/
theorem C2_no_match_writes_witness :
    update_book_registry [str "5 stars - 2024-01-01 - T - A - D"] (str "xy") =
      .wrote (str "xy") ∧
    mainExit [str "5 stars - 2024-01-01 - T - A - D"] (str "xy") = 0 :=
  C2_no_match_writes [str "5 stars - 2024-01-01 - T - A - D"] (str "xy")
    (by decide) (by decide) (by decide) (by decide)

end UpdateBookRegistry

namespace UpdateBookRegistry

/-- C7: frame property of the splice. When a splice pattern has exactly
one match in the host document (and the rendered block is
backslash-free, so the replacement template parses), the substituted
document keeps every byte before the matched region and every byte
after it unchanged, and the captured trailing `\s*</main>` group is
re-emitted verbatim: only the interior of the matched region is
replaced by the canonical block.  Stated for both the primary and the
fallback substitution. -/
theorem C7_splice_frame (books : List Book) (doc : Str)
    (hb : ∀ c ∈ canonBlock books, c ≠ '\\') :
    (∀ p m g r : Str,
      Re.findFirst (Re.mfuel doc) primaryBody spliceTail doc = some (p, m, g, r) →
      Re.findFirst (Re.mfuel doc) primaryBody spliceTail r = none →
      m ≠ [] →
      doc = p ++ m ++ r ∧ ∃ w, m = w ++ g ∧
        primarySub books doc = some (p ++ canonBlock books ++ g ++ r)) ∧
    (∀ p m g r : Str,
      Re.findFirst (Re.mfuel doc) fallbackBody spliceTail doc = some (p, m, g, r) →
      Re.findFirst (Re.mfuel doc) fallbackBody spliceTail r = none →
      m ≠ [] →
      doc = p ++ m ++ r ∧ ∃ w, m = w ++ g ∧
        fallbackSub books doc = some (p ++ canonBlock books ++ g ++ r)) := by
  constructor
  · intro p m g r hf hnone hm
    obtain ⟨hdoc, w, hw⟩ :=
      Re.findFirst_decomp (Re.mfuel doc) primaryBody spliceTail doc p m g r hf
    refine ⟨hdoc, w, hw, ?_⟩
    have htpl : Re.parseTemplate 2 ((canonBlock books ++ ['\\', '2']).length + 1)
        (canonBlock books ++ ['\\', '2']) =
        some ((canonBlock books).map Re.TItem.litc ++ [Re.TItem.ref 2]) := by
      have h0 := primary_tpl_parse books hb
      rw [primaryTemplate_eq] at h0
      exact h0
    have hsub := Re.reSub_single_match primaryBody spliceTail 2 '2' (canonBlock books)
      doc p m g r htpl hf hnone hm
    unfold primarySub
    rw [primaryTemplate_eq]
    exact hsub
  · intro p m g r hf hnone hm
    obtain ⟨hdoc, w, hw⟩ :=
      Re.findFirst_decomp (Re.mfuel doc) fallbackBody spliceTail doc p m g r hf
    refine ⟨hdoc, w, hw, ?_⟩
    have htpl : Re.parseTemplate 4 ((canonBlock books ++ ['\\', '4']).length + 1)
        (canonBlock books ++ ['\\', '4']) =
        some ((canonBlock books).map Re.TItem.litc ++ [Re.TItem.ref 4]) := by
      have h0 := fallback_tpl_parse books hb
      rw [fallbackTemplate_eq] at h0
      exact h0
    have hsub := Re.reSub_single_match fallbackBody spliceTail 4 '4' (canonBlock books)
      doc p m g r htpl hf hnone hm
    unfold fallbackSub
    rw [fallbackTemplate_eq]
    exact hsub

/-- Witness for C7 at the minimal legacy host document: the match spans
the whole document, and the substitution output is the canonical block
followed by the verbatim `</main>` group. -/
theorem C7_splice_frame_witness :
    str "<div class=\"books-list\"><ul></ul></div></main>" =
      [] ++ str "<div class=\"books-list\"><ul></ul></div></main>" ++ [] ∧
    ∃ w, str "<div class=\"books-list\"><ul></ul></div></main>" = w ++ str "</main>" ∧
      primarySub (parseBooks [str "5 stars - 2024-01-01 - T - A - D"])
          (str "<div class=\"books-list\"><ul></ul></div></main>") =
        some ([] ++ canonBlock (parseBooks [str "5 stars - 2024-01-01 - T - A - D"]) ++
          str "</main>" ++ []) :=
  (C7_splice_frame (parseBooks [str "5 stars - 2024-01-01 - T - A - D"])
      (str "<div class=\"books-list\"><ul></ul></div></main>") (by decide)).1
    [] (str "<div class=\"books-list\"><ul></ul></div></main>") (str "</main>") []
    (by decide) (by decide) (by decide)

end UpdateBookRegistry

namespace Re

theorem matchStates_nil (f : Nat) (re : Pat) : matchStates f re [] = [] := by
  cases f with
  | zero => rfl
  | succ f2 => cases re <;> rfl

theorem matchStates_zero (re : Pat) (ss : List Str) : matchStates 0 re ss = [] := rfl

theorem lit_cons (f : Nat) (cs s : Str) (rest : List Str) :
    matchStates (f + 1) (.lit cs) (s :: rest) =
      (if cs.isPrefixOf s then [s.drop cs.length] else []) ++
        matchStates f (.lit cs) rest := rfl

theorem cls_cons (f : Nat) (p : Char → Bool) (s : Str) (rest : List Str) :
    matchStates (f + 1) (.cls p) (s :: rest) =
      (match s with
       | [] => []
       | c :: s2 => if p c then [s2] else []) ++ matchStates f (.cls p) rest := rfl

theorem opt_cons (f : Nat) (r : Pat) (s : Str) (rest : List Str) :
    matchStates (f + 1) (.opt r) (s :: rest) =
      (matchStates f r [s] ++ [s]) ++ matchStates f (.opt r) rest := rfl

theorem starL_cons (f : Nat) (r : Pat) (s : Str) (rest : List Str) :
    matchStates (f + 1) (.starL r) (s :: rest) =
      (s :: matchStates f (.starL r)
          ((matchStates f r [s]).filter (fun t => t.length < s.length)))
        ++ matchStates f (.starL r) rest := rfl

theorem starG_cons (f : Nat) (r : Pat) (s : Str) (rest : List Str) :
    matchStates (f + 1) (.starG r) (s :: rest) =
      (matchStates f (.starG r)
          ((matchStates f r [s]).filter (fun t => t.length < s.length))
        ++ [s]) ++ matchStates f (.starG r) rest := rfl

theorem seq_cons (f : Nat) (a b : Pat) (s : Str) (rest : List Str) :
    matchStates (f + 1) (.seq a b) (s :: rest) =
      matchStates f b (matchStates f a (s :: rest)) := rfl

theorem dist_lit (cs : Str) :
    ∀ (xs : List Str) (f : Nat) (ys : List Str),
      matchStates f (.lit cs) (xs ++ ys) =
        matchStates f (.lit cs) xs ++ matchStates (f - xs.length) (.lit cs) ys := by
  intro xs
  induction xs with
  | nil => intro f ys; simp [matchStates_nil]
  | cons x xs2 ih =>
    intro f ys
    cases f with
    | zero => simp [matchStates_zero, Nat.zero_sub]
    | succ f2 =>
      rw [List.cons_append, lit_cons, lit_cons, ih f2 ys]
      simp [List.append_assoc, Nat.succ_sub_succ]

theorem dist_opt (r : Pat) :
    ∀ (xs : List Str) (f : Nat) (ys : List Str),
      matchStates f (.opt r) (xs ++ ys) =
        matchStates f (.opt r) xs ++ matchStates (f - xs.length) (.opt r) ys := by
  intro xs
  induction xs with
  | nil => intro f ys; simp [matchStates_nil]
  | cons x xs2 ih =>
    intro f ys
    cases f with
    | zero => simp [matchStates_zero, Nat.zero_sub]
    | succ f2 =>
      rw [List.cons_append, opt_cons, opt_cons, ih f2 ys]
      simp [List.append_assoc, Nat.succ_sub_succ]

theorem dist_starL (r : Pat) :
    ∀ (xs : List Str) (f : Nat) (ys : List Str),
      matchStates f (.starL r) (xs ++ ys) =
        matchStates f (.starL r) xs ++ matchStates (f - xs.length) (.starL r) ys := by
  intro xs
  induction xs with
  | nil => intro f ys; simp [matchStates_nil]
  | cons x xs2 ih =>
    intro f ys
    cases f with
    | zero => simp [matchStates_zero, Nat.zero_sub]
    | succ f2 =>
      rw [List.cons_append, starL_cons, starL_cons, ih f2 ys]
      simp [List.append_assoc, Nat.succ_sub_succ]

theorem dist_starG (r : Pat) :
    ∀ (xs : List Str) (f : Nat) (ys : List Str),
      matchStates f (.starG r) (xs ++ ys) =
        matchStates f (.starG r) xs ++ matchStates (f - xs.length) (.starG r) ys := by
  intro xs
  induction xs with
  | nil => intro f ys; simp [matchStates_nil]
  | cons x xs2 ih =>
    intro f ys
    cases f with
    | zero => simp [matchStates_zero, Nat.zero_sub]
    | succ f2 =>
      rw [List.cons_append, starG_cons, starG_cons, ih f2 ys]
      simp [List.append_assoc, Nat.succ_sub_succ]

theorem gws_length (w z : Str) : (gws w z).length = w.length + 1 := by
  induction w with
  | nil => rfl
  | cons c w2 ih => simp [gws, ih]

theorem suffixesList_length (s : Str) : (suffixesList s).length = s.length + 1 := by
  induction s with
  | nil => rfl
  | cons c t ih => simp [suffixesList, ih]

end Re

namespace Re

theorem bool_eq_false {b : Bool} (h : ¬ b = true) : b = false := by
  cases b
  · rfl
  · exact absurd rfl h

/-- The lazy any-character star enumerates all suffixes, shortest
consumption first. -/
theorem sfx_exact : ∀ (s : Str) (f : Nat), 2 * s.length + 2 ≤ f →
    matchStates f (.starL (.cls (fun _ => true))) [s] = suffixesList s := by
  intro s
  induction s with
  | nil =>
    intro f hf
    match f, hf with
    | f2 + 2, _ =>
      rw [starL_cons]
      rw [show matchStates (f2 + 1) (.cls (fun _ => true)) [([] : Str)] = [] from by
        rw [cls_cons]; simp [matchStates_nil]]
      simp [matchStates_nil, suffixesList]
  | cons c t ih =>
    intro f hf
    match f, hf with
    | f2 + 2, hf =>
      rw [starL_cons]
      rw [show matchStates (f2 + 1) (.cls (fun _ => true)) [c :: t] =
        [t] ++ matchStates f2 (.cls (fun _ => true)) [] from rfl]
      rw [matchStates_nil]
      simp only [List.append_nil, List.filter]
      rw [show decide (t.length < (c :: t).length) = true from by simp]
      rw [ih (f2 + 1) (by simp at hf ⊢; omega)]
      simp [matchStates_nil, suffixesList]

/-- A literal scanned over the suffix enumeration: with no occurrence
inside `U`, the first remainder is `W` and the scan continues after the
occurrence's first character. -/
theorem search_lit : ∀ (U : Str) (L W : Str) (f : Nat), L ≠ [] →
    (∀ i < U.length, ¬ L.isPrefixOf ((U ++ (L ++ W)).drop i)) →
    U.length + 2 ≤ f →
    matchStates f (.lit L) (suffixesList (U ++ L ++ W)) =
      W :: matchStates (f - (U.length + 1)) (.lit L) (suffixesList (L.tail ++ W)) := by
  intro U
  induction U with
  | nil =>
    intro L W f hL hno hf
    match L, hL with
    | l0 :: L2, _ =>
      match f, hf with
      | f2 + 1, _ =>
        rw [List.nil_append, show (l0 :: L2) ++ W = l0 :: (L2 ++ W) from rfl]
        rw [show suffixesList (l0 :: (L2 ++ W)) =
          (l0 :: (L2 ++ W)) :: suffixesList (L2 ++ W) from rfl]
        rw [lit_cons]
        rw [show ((l0 :: L2).isPrefixOf (l0 :: (L2 ++ W))) = true from by
          rw [List.isPrefixOf_iff_prefix]
          exact ⟨W, by simp⟩]
        simp only [if_true]
        rw [show (l0 :: (L2 ++ W)).drop (l0 :: L2).length = W from by
          simp [List.drop_left']]
        simp
  | cons u0 U2 ih =>
    intro L W f hL hno hf
    match f, hf with
    | f2 + 1, hf =>
      rw [show (u0 :: U2) ++ L ++ W = u0 :: (U2 ++ L ++ W) from by simp]
      rw [show suffixesList (u0 :: (U2 ++ L ++ W)) =
        (u0 :: (U2 ++ L ++ W)) :: suffixesList (U2 ++ L ++ W) from rfl]
      rw [lit_cons]
      rw [show (L.isPrefixOf (u0 :: (U2 ++ L ++ W))) = false from by
        have h0 := hno 0 (by simp)
        rw [List.drop_zero] at h0
        rw [show (u0 :: U2) ++ (L ++ W) = u0 :: (U2 ++ L ++ W) from by simp] at h0
        exact bool_eq_false h0]
      simp only [Bool.false_eq_true, if_false, List.nil_append]
      rw [ih L W f2 hL (fun i hi => by
        have h1 := hno (i + 1) (by simp; omega)
        rw [show (u0 :: U2) ++ (L ++ W) = u0 :: (U2 ++ (L ++ W)) from by simp] at h1
        simpa using h1) (by simp at hf ⊢; omega)]
      have harith : f2 - (U2.length + 1) = f2 + 1 - ((u0 :: U2).length + 1) := by
        simp only [List.length_cons]
        omega
      rw [harith]

/-- The greedy class star on `w ++ z` (all of `w` in the class, `z` not
starting in it) yields exactly the `gws` enumeration. -/
theorem ws_exact (P : Char → Bool) : ∀ (w z : Str) (f : Nat),
    (∀ c ∈ w, P c = true) →
    (∀ c, z.head? = some c → P c = false) →
    2 * w.length + 4 ≤ f →
    matchStates f (.starG (.cls P)) [w ++ z] = gws w z := by
  intro w
  induction w with
  | nil =>
    intro z f hw hz hf
    match f, hf with
    | f2 + 2, _ =>
      rw [List.nil_append, starG_cons]
      have hcls : matchStates (f2 + 1) (.cls P) [z] = [] := by
        cases z with
        | nil =>
          rw [cls_cons]
          simp [matchStates_nil]
        | cons c z2 =>
          rw [cls_cons]
          show (if P c = true then [z2] else []) ++ matchStates f2 (.cls P) [] = []
          rw [hz c rfl]
          simp [matchStates_nil]
      rw [hcls]
      simp [matchStates_nil, gws]
  | cons c w2 ih =>
    intro z f hw hz hf
    match f, hf with
    | f2 + 2, hf =>
      rw [show (c :: w2) ++ z = c :: (w2 ++ z) from rfl, starG_cons]
      have hcls : matchStates (f2 + 1) (.cls P) [c :: (w2 ++ z)] = [w2 ++ z] := by
        rw [cls_cons]
        show (if P c = true then [w2 ++ z] else []) ++ matchStates f2 (.cls P) [] = [w2 ++ z]
        rw [hw c (List.mem_cons_self c w2)]
        simp [matchStates_nil]
      rw [hcls]
      simp only [List.filter]
      rw [show decide ((w2 ++ z).length < (c :: (w2 ++ z)).length) = true from by simp]
      rw [ih z (f2 + 1) (fun x hx => hw x (List.mem_cons_of_mem c hx)) hz
        (by simp at hf ⊢; omega)]
      simp [matchStates_nil, gws]

/-- A literal starting with `l0` scanned over a `gws` enumeration whose
consumed characters all differ from `l0`: only the full-consumption
head can match, and it does. -/
theorem lit_gws (l0 : Char) (L2 : Str) : ∀ (w z : Str) (f : Nat),
    (∀ c ∈ w, c ≠ l0) →
    (l0 :: L2).isPrefixOf z = true →
    w.length + 2 ≤ f →
    matchStates f (.lit (l0 :: L2)) (gws w z) = [z.drop (L2.length + 1)] := by
  intro w
  induction w with
  | nil =>
    intro z f hw hz hf
    match f, hf with
    | f2 + 1, _ =>
      rw [show gws [] z = [z] from rfl, lit_cons, hz]
      simp [matchStates_nil]
  | cons c w2 ih =>
    intro z f hw hz hf
    rw [show gws (c :: w2) z = gws w2 z ++ [c :: (w2 ++ z)] from rfl]
    rw [dist_lit]
    rw [ih z f (fun x hx => hw x (List.mem_cons_of_mem c hx)) hz (by simp at hf ⊢; omega)]
    rw [gws_length]
    have hff : f - (w2.length + 1) = (f - (w2.length + 2)) + 1 := by simp at hf; omega
    rw [hff, lit_cons]
    rw [show ((l0 :: L2).isPrefixOf (c :: (w2 ++ z))) = false from by
      rw [show ((l0 :: L2).isPrefixOf (c :: (w2 ++ z))) =
        ((l0 == c) && L2.isPrefixOf (w2 ++ z)) from rfl]
      rw [beq_eq_false_iff_ne.mpr (Ne.symm (hw c (List.mem_cons_self c w2)))]
      rw [Bool.false_and]]
    simp [matchStates_nil]

end Re

namespace Re

theorem prefix_get_eq {L x : Str} (h : L <+: x) (j : Nat) (hj : j < L.length) :
    x.get? j = L.get? j := by
  obtain ⟨t, rfl⟩ := h
  exact List.get?_append hj

theorem litGuard_noEarly (L K : Str) (h : litGuard L K = true) : noEarly L K := by
  intro Z i hi hpref
  rw [litGuard, List.all_eq_true] at h
  have h2 := h i (List.mem_range.mpr hi)
  rw [List.any_eq_true] at h2
  obtain ⟨j, hjr, hj2⟩ := h2
  rw [Bool.and_eq_true, decide_eq_true_eq, decide_eq_true_eq] at hj2
  obtain ⟨hijK, hne⟩ := hj2
  have hjL := List.mem_range.mp hjr
  have hp : L <+: (K ++ Z).drop i := List.isPrefixOf_iff_prefix.mp hpref
  have h1 : ((K ++ Z).drop i).get? j = L.get? j := prefix_get_eq hp j hjL
  rw [List.get?_drop] at h1
  rw [List.get?_append (by omega : i + j < K.length)] at h1
  exact hne h1

theorem free_noEarly (L K : Str) (l0 : Char) (hL : L.get? 0 = some l0)
    (h : ∀ c ∈ K, c ≠ l0) : noEarly L K := by
  intro Z i hi hpref
  have hp : L <+: (K ++ Z).drop i := List.isPrefixOf_iff_prefix.mp hpref
  have h1 : ((K ++ Z).drop i).get? 0 = L.get? 0 :=
    prefix_get_eq hp 0 (by cases L with
      | nil => simp at hL
      | cons a L2 => simp)
  rw [List.get?_drop] at h1
  rw [List.get?_append (by omega : i + 0 < K.length)] at h1
  rw [hL] at h1
  have h2 : K.get (⟨i + 0, by omega⟩) = l0 := by
    have := List.get?_eq_get (l := K) (n := i + 0) (by omega)
    rw [this] at h1
    exact Option.some.inj h1
  exact h (K.get ⟨i + 0, by omega⟩) (K.get_mem _ _) h2

theorem noEarly_nil (L : Str) : noEarly L [] := by
  intro Z i hi
  simp at hi

theorem noEarly_append (L A B : Str) (ha : noEarly L A) (hb : noEarly L B) :
    noEarly L (A ++ B) := by
  intro Z i hi
  rw [List.append_assoc]
  by_cases hcase : i < A.length
  · exact ha (B ++ Z) i hcase
  · rw [show i = A.length + (i - A.length) from by omega]
    rw [List.drop_append]
    have hlt : i - A.length < B.length := by
      rw [List.length_append] at hi
      omega
    intro hpref
    exact hb Z (i - A.length) hlt hpref

theorem lit_single (cs x : Str) (f : Nat) (hf : 1 ≤ f) :
    matchStates f (.lit cs) [cs ++ x] = [x] := by
  match f, hf with
  | f2 + 1, _ =>
    rw [lit_cons]
    rw [show (cs.isPrefixOf (cs ++ x)) = true from
      List.isPrefixOf_iff_prefix.mpr ⟨x, rfl⟩]
    simp [matchStates_nil, List.drop_left]

theorem lit_single_none (cs x : Str) (f : Nat) (hf : 1 ≤ f)
    (h : cs.isPrefixOf x = false) :
    matchStates f (.lit cs) [x] = [] := by
  match f, hf with
  | f2 + 1, _ =>
    rw [lit_cons, h]
    simp [matchStates_nil]

theorem opt_single (r : Pat) (s : Str) (f : Nat) (hf : 1 ≤ f) :
    matchStates f (.opt r) [s] = matchStates (f - 1) r [s] ++ [s] := by
  match f, hf with
  | f2 + 1, _ =>
    rw [opt_cons]
    simp [matchStates_nil]

/-- Prefix testing cannot see past a long enough left part. -/
theorem isPrefixOf_trunc (L K Z : Str) (h : L.length ≤ K.length) :
    L.isPrefixOf (K ++ Z) = L.isPrefixOf K := by
  cases hb : L.isPrefixOf K with
  | true =>
    have hp : L <+: K := List.isPrefixOf_iff_prefix.mp hb
    exact List.isPrefixOf_iff_prefix.mpr (hp.trans (List.prefix_append K Z))
  | false =>
    cases hb2 : L.isPrefixOf (K ++ Z) with
    | false => rfl
    | true =>
      exfalso
      have hp : L <+: K ++ Z := List.isPrefixOf_iff_prefix.mp hb2
      have hK : L <+: K := by
        have h1 : L = (K ++ Z).take L.length := List.prefix_iff_eq_take.mp hp
        rw [List.take_append_of_le_length h] at h1
        rw [h1]
        exact List.take_prefix _ _
      rw [List.isPrefixOf_iff_prefix.mpr hK] at hb
      exact Bool.noConfusion hb

end Re

namespace Re

theorem lit_gws_none (l0 : Char) (L2 : Str) : ∀ (w z : Str) (f : Nat),
    (∀ c ∈ w, c ≠ l0) →
    (l0 :: L2).isPrefixOf z = false →
    w.length + 2 ≤ f →
    matchStates f (.lit (l0 :: L2)) (gws w z) = [] := by
  intro w
  induction w with
  | nil =>
    intro z f hw hz hf
    match f, hf with
    | f2 + 1, _ =>
      rw [show gws [] z = [z] from rfl, lit_cons, hz]
      simp [matchStates_nil]
  | cons c w2 ih =>
    intro z f hw hz hf
    rw [show gws (c :: w2) z = gws w2 z ++ [c :: (w2 ++ z)] from rfl]
    rw [dist_lit]
    rw [ih z f (fun x hx => hw x (List.mem_cons_of_mem c hx)) hz (by simp at hf ⊢; omega)]
    rw [gws_length]
    have hff : f - (w2.length + 1) = (f - (w2.length + 2)) + 1 := by simp at hf; omega
    rw [hff, lit_cons]
    rw [show ((l0 :: L2).isPrefixOf (c :: (w2 ++ z))) = false from by
      rw [show ((l0 :: L2).isPrefixOf (c :: (w2 ++ z))) =
        ((l0 == c) && L2.isPrefixOf (w2 ++ z)) from rfl]
      rw [beq_eq_false_iff_ne.mpr (Ne.symm (hw c (List.mem_cons_self c w2)))]
      rw [Bool.false_and]]
    simp [matchStates_nil]

theorem litnil_cons (f : Nat) (x : Str) (xs : List Str) (hf : 1 ≤ f) :
    matchStates f (.lit []) (x :: xs) = x :: matchStates (f - 1) (.lit []) xs := by
  match f, hf with
  | f2 + 1, _ =>
    rw [lit_cons]
    simp

/-- `\s*` followed by a literal beginning with a non-class character:
successful singleton evaluation. -/
theorem wslit_match (P : Char → Bool) (l0 : Char) (L2 w z : Str) (f : Nat)
    (hw : ∀ c ∈ w, P c = true)
    (hwl : ∀ c ∈ w, c ≠ l0)
    (hP : P l0 = false)
    (hz : (l0 :: L2).isPrefixOf z = true)
    (hf : 2 * w.length + 8 ≤ f) :
    matchStates f (.seq (.starG (.cls P)) (.lit (l0 :: L2))) [w ++ z] =
      [z.drop (L2.length + 1)] := by
  match f, hf with
  | f2 + 1, hf =>
    rw [seq_cons]
    have hhead : ∀ c, z.head? = some c → P c = false := by
      intro c hc
      have hp : (l0 :: L2) <+: z := List.isPrefixOf_iff_prefix.mp hz
      obtain ⟨t, rfl⟩ := hp
      simp at hc
      rw [← hc]
      exact hP
    rw [ws_exact P w z f2 hw hhead (by omega)]
    exact lit_gws l0 L2 w z f2 hwl hz (by omega)

/-- `\s*` followed by a non-matching literal: failure. -/
theorem wslit_none (P : Char → Bool) (l0 : Char) (L2 w z : Str) (f : Nat)
    (hw : ∀ c ∈ w, P c = true)
    (hwl : ∀ c ∈ w, c ≠ l0)
    (hzh : ∀ c, z.head? = some c → P c = false)
    (hz : (l0 :: L2).isPrefixOf z = false)
    (hf : 2 * w.length + 8 ≤ f) :
    matchStates f (.seq (.starG (.cls P)) (.lit (l0 :: L2))) [w ++ z] = [] := by
  match f, hf with
  | f2 + 1, hf =>
    rw [seq_cons]
    rw [ws_exact P w z f2 hw hzh (by omega)]
    exact lit_gws_none l0 L2 w z f2 hwl hz (by omega)

theorem firstTail_cons_none (f : Nat) (tl : Pat) (s1 : Str) (rest : List Str)
    (h : matchStates f tl [s1] = []) :
    firstTail f tl (s1 :: rest) = firstTail f tl rest := by
  have e : firstTail f tl (s1 :: rest) =
      (match matchStates f tl [s1] with
       | r :: _ => some (s1, r)
       | [] => firstTail f tl rest) := rfl
  rw [e, h]

theorem firstTail_cons_some (f : Nat) (tl : Pat) (s1 r : Str) (rest J : List Str)
    (h : matchStates f tl [s1] = r :: J) :
    firstTail f tl (s1 :: rest) = some (s1, r) := by
  have e : firstTail f tl (s1 :: rest) =
      (match matchStates f tl [s1] with
       | r :: _ => some (s1, r)
       | [] => firstTail f tl rest) := rfl
  rw [e, h]

theorem findFirst_cons_none (f : Nat) (body tl : Pat) (c : Char) (s2 : Str)
    (h : firstTail f tl (matchStates f body [c :: s2]) = none) :
    findFirst f body tl (c :: s2) =
      (findFirst f body tl s2).map (fun q => (c :: q.1, q.2.1, q.2.2.1, q.2.2.2)) := by
  rw [findFirst]
  rw [h]

theorem findFirst_here (f : Nat) (body tl : Pat) (s s1 r : Str)
    (hs : s ≠ [])
    (h : firstTail f tl (matchStates f body [s]) = some (s1, r)) :
    findFirst f body tl s =
      some ([], s.take (s.length - r.length), s1.take (s1.length - r.length), r) := by
  obtain ⟨c, s2, rfl⟩ := List.exists_cons_of_ne_nil hs
  rw [findFirst]
  rw [h]

/-- Unanchored search skips positions where the leading literal of the
body cannot match. -/
theorem findFirst_skip (body0 : Pat) (L1 : Str) (tl : Pat) :
    ∀ (p : Str) (S : Str) (f : Nat),
      2 ≤ f →
      (∀ i < p.length, ¬ L1.isPrefixOf ((p ++ S).drop i)) →
      findFirst f (.seq (.lit L1) body0) tl (p ++ S) =
        (findFirst f (.seq (.lit L1) body0) tl S).map
          (fun q => (p ++ q.1, q.2.1, q.2.2.1, q.2.2.2)) := by
  intro p
  induction p with
  | nil =>
    intro S f hf hno
    rcases h : findFirst f (.seq (.lit L1) body0) tl S with _ | ⟨q1, q2, q3, q4⟩ <;> simp [h]
  | cons c p2 ih =>
    intro S f hf hno
    have hbody : matchStates f (.seq (.lit L1) body0) [(c :: p2) ++ S] = [] := by
      match f, hf with
      | f2 + 1, _ =>
        rw [seq_cons]
        have hlit : matchStates f2 (.lit L1) [(c :: p2) ++ S] = [] := by
          apply lit_single_none _ _ _ (by omega)
          apply bool_eq_false
          have h0 := hno 0 (by simp)
          rw [List.drop_zero] at h0
          exact h0
        rw [hlit, matchStates_nil]
    rw [show (c :: p2) ++ S = c :: (p2 ++ S) from rfl] at hbody ⊢
    rw [findFirst_cons_none f _ tl c (p2 ++ S) (by rw [hbody]; rfl)]
    rw [ih S f hf (fun i hi => by
      have h1 := hno (i + 1) (by simp; omega)
      rw [show (c :: p2) ++ S = c :: (p2 ++ S) from rfl] at h1
      simpa using h1)]
    rcases h : findFirst f (.seq (.lit L1) body0) tl S with _ | ⟨q1, q2, q3, q4⟩ <;> simp

end Re

namespace UpdateBookRegistry

theorem canonPre_eq : canonPre = L1S ++ WS12 ++ ULO ++ NL := rfl

theorem canonMid_eq : canonMid =
    WS12 ++ ULS ++ WS8 ++ DVS ++ WS2_8 ++ SEPOS ++ DVS ++ WS2_8 ++ DETOS ++
      WS12 ++ ULO ++ NL := rfl

theorem canonPost_eq : canonPost = WS12 ++ ULS ++ WS8 ++ DVS := rfl

/-- Escaped text contains no `<`, so no pattern literal (each starts
with `<`) can begin inside it. -/
theorem noEarly_lt_escape (L : Str) (hL : L.get? 0 = some '<') (s : Str) :
    Re.noEarly L (Py.escape s) :=
  Re.free_noEarly _ _ '<' hL (fun c hc => (Py.escape_no_tag hc).1)

theorem noEarly_UL_summaryItem (b : Book) : Re.noEarly ULS (summaryItem b) := by
  show Re.noEarly ULS (str "                <li>" ++ Py.escape b.rating ++ str " — " ++
    Py.escape (format_date b.date_read) ++ str " — <strong>" ++
    Py.escape b.title ++ str "</strong> by " ++ Py.escape b.author ++ str "</li>")
  refine Re.noEarly_append _ _ _ (Re.noEarly_append _ _ _ (Re.noEarly_append _ _ _
    (Re.noEarly_append _ _ _ (Re.noEarly_append _ _ _ (Re.noEarly_append _ _ _
      (Re.noEarly_append _ _ _ (Re.noEarly_append _ _ _ ?_ ?_) ?_) ?_) ?_) ?_) ?_) ?_) ?_
  · exact Re.litGuard_noEarly _ _ (by decide)
  · exact noEarly_lt_escape ULS rfl _
  · exact Re.litGuard_noEarly _ _ (by decide)
  · exact noEarly_lt_escape ULS rfl _
  · exact Re.litGuard_noEarly _ _ (by decide)
  · exact noEarly_lt_escape ULS rfl _
  · exact Re.litGuard_noEarly _ _ (by decide)
  · exact noEarly_lt_escape ULS rfl _
  · exact Re.litGuard_noEarly _ _ (by decide)

theorem noEarly_UL_detailItem (b : Book) : Re.noEarly ULS (detailItem b) := by
  show Re.noEarly ULS
    (str "                <li>\n                    <span class=\"book-title-author\"><strong>" ++
      Py.escape b.title ++ str "</strong> by " ++ Py.escape b.author ++
      str "</span>\n                    <div class=\"book-description\">" ++
      Py.escape b.description ++ str "</div>\n                </li>")
  refine Re.noEarly_append _ _ _ (Re.noEarly_append _ _ _ (Re.noEarly_append _ _ _
    (Re.noEarly_append _ _ _ (Re.noEarly_append _ _ _ (Re.noEarly_append _ _ _
      ?_ ?_) ?_) ?_) ?_) ?_) ?_
  · exact Re.litGuard_noEarly _ _ (by decide)
  · exact noEarly_lt_escape ULS rfl _
  · exact Re.litGuard_noEarly _ _ (by decide)
  · exact noEarly_lt_escape ULS rfl _
  · exact Re.litGuard_noEarly _ _ (by decide)
  · exact noEarly_lt_escape ULS rfl _
  · exact Re.litGuard_noEarly _ _ (by decide)

theorem noEarly_UL_inter (items : List Str)
    (h : ∀ x ∈ items, Re.noEarly ULS x) :
    Re.noEarly ULS (List.intercalate (str "\n") items) := by
  induction items with
  | nil =>
    rw [MdToHtml.intercalate_nil_parts]
    exact Re.noEarly_nil _
  | cons g t ih =>
    cases t with
    | nil =>
      rw [MdToHtml.intercalate_single]
      exact h g (List.mem_cons_self g [])
    | cons g2 t2 =>
      rw [MdToHtml.intercalate_cons2]
      refine Re.noEarly_append _ _ _ (Re.noEarly_append _ _ _ ?_ ?_) ?_
      · exact h g (List.mem_cons_self g _)
      · exact Re.litGuard_noEarly _ _ (by decide)
      · exact ih (fun x hx => h x (List.mem_cons_of_mem g hx))

theorem noEarly_UL_s1 (books : List Book) :
    Re.noEarly ULS (generate_book_html books).1 := by
  unfold generate_book_html
  by_cases hb : books = []
  · rw [if_pos hb]
    exact Re.noEarly_nil _
  · rw [if_neg hb]
    exact noEarly_UL_inter _ (fun x hx => by
      obtain ⟨b, -, rfl⟩ := List.mem_map.1 hx
      exact noEarly_UL_summaryItem b)

theorem noEarly_UL_s2 (books : List Book) :
    Re.noEarly ULS (generate_book_html books).2 := by
  unfold generate_book_html
  by_cases hb : books = []
  · rw [if_pos hb]
    exact Re.noEarly_nil _
  · rw [if_neg hb]
    exact noEarly_UL_inter _ (fun x hx => by
      obtain ⟨b, -, rfl⟩ := List.mem_map.1 hx
      exact noEarly_UL_detailItem b)

end UpdateBookRegistry

namespace Re

/-- One sequencing layer: run the first pattern over the states, then
the second over its output, each with one unit of fuel less. -/
theorem seq_eval (f : Nat) (hf : 1 ≤ f) (a b : Pat) (ss : List Str) :
    matchStates f (.seq a b) ss =
      matchStates (f - 1) b (matchStates (f - 1) a ss) := by
  match f, hf with
  | f2 + 1, _ =>
    cases ss with
    | nil => simp [matchStates_nil]
    | cons s rest =>
      rw [seq_cons]
      rfl

end Re

namespace UpdateBookRegistry

theorem sepPat_shape : sepPat =
    .seq wsStar (.seq (.lit SEPOS) (.seq lazyDot (.seq (.lit DVS) (.lit [])))) := rfl

theorem detPat_shape : detPat =
    .seq wsStar (.seq (.lit DETOS) (.seq lazyDot (.seq (.lit ULS)
      (.seq wsStar (.seq (.lit DVS) (.lit [])))))) := rfl

theorem primaryBody_shape : primaryBody =
    .seq (.lit L1S) (.seq lazyDot (.seq (.lit ULS) (.seq wsStar (.seq (.lit DVS)
      (.seq (.opt sepPat) (.seq (.opt detPat) (.lit []))))))) := rfl

theorem fallbackBody_shape : fallbackBody =
    .seq (.lit L1S) (.seq wsStar (.seq (.lit ULO) (.seq lazyDot (.seq (.lit ULS)
      (.seq wsStar (.seq (.lit DVS) (.lit []))))))) := rfl

theorem spliceTail_shape : spliceTail = .seq wsStar (.lit MAINS) := rfl

/-- Evaluation of the separator group on the canonical separator text:
the first (and only) remainder is the text after its `</div>`. -/
theorem sep_states (T : Str) (f : Nat) (hf : 2 * T.length + 60 ≤ f) :
    ∃ J, Re.matchStates f sepPat [WS2_8 ++ (SEPOS ++ (DVS ++ T))] = T :: J := by
  have hW : WS2_8.length = 10 := rfl
  have hD : DVS.length = 6 := rfl
  have hS : SEPOS.length = 29 := rfl
  have hDT : (DVS ++ T).length = T.length + 6 := by
    rw [List.length_append, hD]; omega
  have hnil : ([] : Str).length = 0 := rfl
  rw [sepPat_shape]
  simp only [wsStar, lazyDot]
  rw [Re.seq_eval f (by omega)]
  rw [Re.ws_exact Py.isSpace WS2_8 (SEPOS ++ (DVS ++ T)) (f - 1) (by decide)
    (fun c hc => by
      have : (SEPOS ++ (DVS ++ T)).head? = some '<' := rfl
      rw [this] at hc
      injection hc with hc2
      rw [← hc2]
      decide) (by omega)]
  rw [Re.seq_eval (f - 1) (by omega)]
  rw [show SEPOS = '<' :: str "div class=\"books-separator\">" from rfl]
  rw [Re.lit_gws '<' (str "div class=\"books-separator\">") WS2_8
    (('<' :: str "div class=\"books-separator\">") ++ (DVS ++ T)) (f - 1 - 1)
    (by decide)
    (List.isPrefixOf_iff_prefix.mpr (List.prefix_append _ _))
    (by omega)]
  rw [List.drop_left' (by rfl)]
  rw [Re.seq_eval (f - 1 - 1) (by omega)]
  rw [Re.sfx_exact (DVS ++ T) (f - 1 - 1 - 1) (by omega)]
  rw [Re.seq_eval (f - 1 - 1 - 1) (by omega)]
  rw [show DVS ++ T = [] ++ DVS ++ T from by simp]
  rw [Re.search_lit [] DVS T (f - 1 - 1 - 1 - 1) (by decide)
    (by intro i hi; simp at hi) (by omega)]
  rw [Re.litnil_cons _ _ _ (by omega)]
  exact ⟨_, rfl⟩

end UpdateBookRegistry

namespace UpdateBookRegistry

/-- Evaluation of the details group on the canonical details text: the
first remainder is the text after the closing `</div>` of the block. -/
theorem det_states (s2 GR : Str) (f : Nat)
    (h2 : Re.noEarly ULS s2)
    (hf : 4 * (s2.length + GR.length) + 200 ≤ f) :
    ∃ J, Re.matchStates f detPat
      [WS2_8 ++ (DETOS ++ (WS12 ++ ULO ++ NL ++ s2 ++ canonPost ++ GR))] = GR :: J := by
  have hW : WS2_8.length = 10 := rfl
  have hD : DVS.length = 6 := rfl
  have hDet : DETOS.length = 27 := rfl
  have h12 : WS12.length = 13 := rfl
  have h8 : WS8.length = 9 := rfl
  have hULO : ULO.length = 4 := rfl
  have hNL : NL.length = 1 := rfl
  have hULS : ULS.length = 5 := rfl
  have hcp : canonPost.length = 33 := rfl
  have hnil : ([] : Str).length = 0 := rfl
  have hX2 : (WS12 ++ ULO ++ NL ++ s2 ++ canonPost ++ GR).length =
      s2.length + GR.length + 51 := by
    simp only [List.length_append]
    omega
  rw [detPat_shape]
  simp only [wsStar, lazyDot]
  rw [Re.seq_eval f (by omega)]
  rw [Re.ws_exact Py.isSpace WS2_8 (DETOS ++ (WS12 ++ ULO ++ NL ++ s2 ++ canonPost ++ GR))
    (f - 1) (by decide)
    (fun c hc => by
      have : (DETOS ++ (WS12 ++ ULO ++ NL ++ s2 ++ canonPost ++ GR)).head? = some '<' := rfl
      rw [this] at hc
      injection hc with hc2
      rw [← hc2]
      decide) (by omega)]
  rw [Re.seq_eval (f - 1) (by omega)]
  rw [show DETOS = '<' :: str "div class=\"books-details\">" from rfl]
  rw [Re.lit_gws '<' (str "div class=\"books-details\">") WS2_8
    (('<' :: str "div class=\"books-details\">") ++ (WS12 ++ ULO ++ NL ++ s2 ++ canonPost ++ GR))
    (f - 1 - 1) (by decide)
    (List.isPrefixOf_iff_prefix.mpr (List.prefix_append _ _))
    (by omega)]
  rw [List.drop_left' (by rfl)]
  rw [Re.seq_eval (f - 1 - 1) (by omega)]
  rw [Re.sfx_exact (WS12 ++ ULO ++ NL ++ s2 ++ canonPost ++ GR) (f - 1 - 1 - 1) (by omega)]
  rw [Re.seq_eval (f - 1 - 1 - 1) (by omega)]
  have eX2 : WS12 ++ ULO ++ NL ++ s2 ++ canonPost ++ GR =
      (WS12 ++ ULO ++ NL ++ s2 ++ WS12) ++ ULS ++ (WS8 ++ (DVS ++ GR)) := by
    rw [canonPost_eq]
    simp [List.append_assoc]
  rw [eX2]
  have hU2 : Re.noEarly ULS (WS12 ++ ULO ++ NL ++ s2 ++ WS12) := by
    refine Re.noEarly_append _ _ _ (Re.noEarly_append _ _ _ (Re.noEarly_append _ _ _
      (Re.noEarly_append _ _ _ ?_ ?_) ?_) ?_) ?_
    · exact Re.litGuard_noEarly _ _ (by decide)
    · exact Re.litGuard_noEarly _ _ (by decide)
    · exact Re.litGuard_noEarly _ _ (by decide)
    · exact h2
    · exact Re.litGuard_noEarly _ _ (by decide)
  rw [Re.search_lit (WS12 ++ ULO ++ NL ++ s2 ++ WS12) ULS (WS8 ++ (DVS ++ GR))
    (f - 1 - 1 - 1 - 1) (by decide)
    (fun i hi => hU2 (ULS ++ (WS8 ++ (DVS ++ GR))) i hi)
    (by simp only [List.length_append]; omega)]
  rw [Re.seq_eval (f - 1 - 1 - 1 - 1) (by omega)]
  rw [show ∀ (l : List Str), (WS8 ++ (DVS ++ GR)) :: l = [WS8 ++ (DVS ++ GR)] ++ l
    from fun l => rfl]
  rw [Re.dist_starG]
  rw [Re.ws_exact Py.isSpace WS8 (DVS ++ GR) (f - 1 - 1 - 1 - 1 - 1) (by decide)
    (fun c hc => by
      have : (DVS ++ GR).head? = some '<' := rfl
      rw [this] at hc
      injection hc with hc2
      rw [← hc2]
      decide) (by omega)]
  rw [Re.seq_eval (f - 1 - 1 - 1 - 1 - 1) (by omega)]
  rw [Re.dist_lit]
  rw [show DVS = '<' :: str "/div>" from rfl]
  rw [Re.lit_gws '<' (str "/div>") WS8 (('<' :: str "/div>") ++ GR)
    (f - 1 - 1 - 1 - 1 - 1 - 1) (by decide)
    (List.isPrefixOf_iff_prefix.mpr (List.prefix_append _ _))
    (by omega)]
  rw [List.drop_left' (by rfl)]
  rw [show ∀ (l : List Str), ([GR] ++ l : List Str) = GR :: l from fun l => rfl]
  rw [Re.litnil_cons _ _ _ (by omega)]
  exact ⟨_, rfl⟩

end UpdateBookRegistry

namespace UpdateBookRegistry

/-- `.lit DVS` over a `gws` enumeration, specialised wrapper. -/
theorem lit_gws_DVS (w z : Str) (f : Nat)
    (hw : ∀ c ∈ w, c ≠ '<')
    (hz : DVS.isPrefixOf z = true)
    (hf : w.length + 2 ≤ f) :
    Re.matchStates f (.lit DVS) (Re.gws w z) = [z.drop 6] :=
  Re.lit_gws '<' (str "/div>") w z f hw hz hf

/-- Evaluation of the primary splice body on the canonical block
followed by arbitrary text `GR`: the first backtracking remainder is
exactly `GR`. -/
theorem primary_states (s1 s2 GR : Str) (f : Nat)
    (h1 : Re.noEarly ULS s1) (h2 : Re.noEarly ULS s2)
    (hf : 4 * (s1.length + s2.length + GR.length) + 500 ≤ f) :
    ∃ J, Re.matchStates f primaryBody
      [canonPre ++ s1 ++ canonMid ++ s2 ++ canonPost ++ GR] = GR :: J := by
  have hW : WS2_8.length = 10 := rfl
  have hD : DVS.length = 6 := rfl
  have hDet : DETOS.length = 27 := rfl
  have hSep : SEPOS.length = 29 := rfl
  have h12 : WS12.length = 13 := rfl
  have h8 : WS8.length = 9 := rfl
  have hULO : ULO.length = 4 := rfl
  have hNL : NL.length = 1 := rfl
  have hULS : ULS.length = 5 := rfl
  have hL1 : L1S.length = 24 := rfl
  have hcp : canonPost.length = 33 := rfl
  have hcm : canonMid.length = 133 := rfl
  have hnil : ([] : Str).length = 0 := rfl
  have hX1 : (WS12 ++ ULO ++ NL ++ s1 ++ canonMid ++ s2 ++ canonPost ++ GR).length =
      s1.length + s2.length + GR.length + 184 := by
    simp only [List.length_append]
    omega
  have e0 : canonPre ++ s1 ++ canonMid ++ s2 ++ canonPost ++ GR =
      L1S ++ (WS12 ++ ULO ++ NL ++ s1 ++ canonMid ++ s2 ++ canonPost ++ GR) := by
    rw [canonPre_eq]
    simp [List.append_assoc]
  rw [primaryBody_shape]
  simp only [wsStar, lazyDot]
  rw [e0]
  rw [Re.seq_eval f (by omega)]
  rw [Re.lit_single _ _ _ (by omega)]
  rw [Re.seq_eval (f - 1) (by omega)]
  rw [Re.sfx_exact (WS12 ++ ULO ++ NL ++ s1 ++ canonMid ++ s2 ++ canonPost ++ GR)
    (f - 1 - 1) (by omega)]
  rw [Re.seq_eval (f - 1 - 1) (by omega)]
  have e1 : WS12 ++ ULO ++ NL ++ s1 ++ canonMid ++ s2 ++ canonPost ++ GR =
      (WS12 ++ ULO ++ NL ++ s1 ++ WS12) ++ ULS ++
        (WS8 ++ (DVS ++ (WS2_8 ++ (SEPOS ++ (DVS ++ (WS2_8 ++ (DETOS ++
          (WS12 ++ ULO ++ NL ++ s2 ++ canonPost ++ GR)))))))) := by
    rw [canonMid_eq]
    simp [List.append_assoc]
  rw [e1]
  have hU1 : Re.noEarly ULS (WS12 ++ ULO ++ NL ++ s1 ++ WS12) := by
    refine Re.noEarly_append _ _ _ (Re.noEarly_append _ _ _ (Re.noEarly_append _ _ _
      (Re.noEarly_append _ _ _ ?_ ?_) ?_) ?_) ?_
    · exact Re.litGuard_noEarly _ _ (by decide)
    · exact Re.litGuard_noEarly _ _ (by decide)
    · exact Re.litGuard_noEarly _ _ (by decide)
    · exact h1
    · exact Re.litGuard_noEarly _ _ (by decide)
  rw [Re.search_lit (WS12 ++ ULO ++ NL ++ s1 ++ WS12) ULS
    (WS8 ++ (DVS ++ (WS2_8 ++ (SEPOS ++ (DVS ++ (WS2_8 ++ (DETOS ++
      (WS12 ++ ULO ++ NL ++ s2 ++ canonPost ++ GR))))))))
    (f - 1 - 1 - 1) (by decide)
    (fun i hi => hU1 _ i hi)
    (by simp only [List.length_append]; omega)]
  rw [Re.seq_eval (f - 1 - 1 - 1) (by omega)]
  rw [show ∀ (l : List Str),
      (WS8 ++ (DVS ++ (WS2_8 ++ (SEPOS ++ (DVS ++ (WS2_8 ++ (DETOS ++
        (WS12 ++ ULO ++ NL ++ s2 ++ canonPost ++ GR)))))))) :: l =
      [WS8 ++ (DVS ++ (WS2_8 ++ (SEPOS ++ (DVS ++ (WS2_8 ++ (DETOS ++
        (WS12 ++ ULO ++ NL ++ s2 ++ canonPost ++ GR)))))))] ++ l
    from fun l => rfl]
  rw [Re.dist_starG]
  rw [Re.ws_exact Py.isSpace WS8
    (DVS ++ (WS2_8 ++ (SEPOS ++ (DVS ++ (WS2_8 ++ (DETOS ++
      (WS12 ++ ULO ++ NL ++ s2 ++ canonPost ++ GR)))))))
    (f - 1 - 1 - 1 - 1) (by decide)
    (fun c hc => by
      have hh : (DVS ++ (WS2_8 ++ (SEPOS ++ (DVS ++ (WS2_8 ++ (DETOS ++
        (WS12 ++ ULO ++ NL ++ s2 ++ canonPost ++ GR))))))).head? = some '<' := rfl
      rw [hh] at hc
      injection hc with hc2
      rw [← hc2]
      decide) (by omega)]
  rw [Re.seq_eval (f - 1 - 1 - 1 - 1) (by omega)]
  rw [Re.dist_lit]
  rw [lit_gws_DVS WS8 _ _ (by decide)
    (List.isPrefixOf_iff_prefix.mpr (List.prefix_append _ _))
    (by omega)]
  rw [List.drop_left' (by rfl)]
  rw [Re.seq_eval (f - 1 - 1 - 1 - 1 - 1) (by omega)]
  rw [Re.dist_opt]
  rw [Re.opt_single _ _ _ (by omega)]
  obtain ⟨Jsep, hsep⟩ := sep_states
    (WS2_8 ++ (DETOS ++ (WS12 ++ ULO ++ NL ++ s2 ++ canonPost ++ GR)))
    (f - 1 - 1 - 1 - 1 - 1 - 1 - 1)
    (by simp only [List.length_append]; omega)
  rw [hsep]
  rw [List.cons_append, List.cons_append]
  rw [Re.seq_eval (f - 1 - 1 - 1 - 1 - 1 - 1) (by omega)]
  rw [show ∀ (l : List Str),
      (WS2_8 ++ (DETOS ++ (WS12 ++ ULO ++ NL ++ s2 ++ canonPost ++ GR))) :: l =
      [WS2_8 ++ (DETOS ++ (WS12 ++ ULO ++ NL ++ s2 ++ canonPost ++ GR))] ++ l
    from fun l => rfl]
  rw [Re.dist_opt]
  rw [Re.opt_single _ _ _ (by omega)]
  obtain ⟨Jdet, hdet⟩ := det_states s2 GR (f - 1 - 1 - 1 - 1 - 1 - 1 - 1 - 1) h2 (by omega)
  rw [hdet]
  rw [List.cons_append, List.cons_append]
  rw [Re.litnil_cons _ _ _ (by omega)]
  exact ⟨_, rfl⟩

end UpdateBookRegistry

namespace UpdateBookRegistry

/-- `.lit ULO` over a `gws` enumeration, specialised wrapper. -/
theorem lit_gws_ULO (w z : Str) (f : Nat)
    (hw : ∀ c ∈ w, c ≠ '<')
    (hz : ULO.isPrefixOf z = true)
    (hf : w.length + 2 ≤ f) :
    Re.matchStates f (.lit ULO) (Re.gws w z) = [z.drop 4] :=
  Re.lit_gws '<' (str "ul>") w z f hw hz hf

/-- Evaluation of the fallback splice body on the canonical block
followed by arbitrary text `GR`: the first backtracking remainder stops
at the summary list's closing `</div>` (the text from the separator
on), the second is exactly `GR`. -/
theorem fallback_states (s1 s2 GR : Str) (f : Nat)
    (h1 : Re.noEarly ULS s1) (h2 : Re.noEarly ULS s2)
    (hf : 4 * (s1.length + s2.length + GR.length) + 500 ≤ f) :
    ∃ J, Re.matchStates f fallbackBody
      [canonPre ++ s1 ++ canonMid ++ s2 ++ canonPost ++ GR] =
      (WS2_8 ++ (SEPOS ++ (DVS ++ (WS2_8 ++ (DETOS ++
        (WS12 ++ ULO ++ NL ++ s2 ++ canonPost ++ GR)))))) :: (GR :: J) := by
  have hW : WS2_8.length = 10 := rfl
  have hD : DVS.length = 6 := rfl
  have hDet : DETOS.length = 27 := rfl
  have hSep : SEPOS.length = 29 := rfl
  have h12 : WS12.length = 13 := rfl
  have h8 : WS8.length = 9 := rfl
  have hULO : ULO.length = 4 := rfl
  have hNL : NL.length = 1 := rfl
  have hULS : ULS.length = 5 := rfl
  have hL1 : L1S.length = 24 := rfl
  have hcp : canonPost.length = 33 := rfl
  have hcm : canonMid.length = 133 := rfl
  have hnil : ([] : Str).length = 0 := rfl
  have htl : ULS.tail = str "/ul>" := rfl
  have hs4 : (str "/ul>").length = 4 := rfl
  have e0 : canonPre ++ s1 ++ canonMid ++ s2 ++ canonPost ++ GR =
      L1S ++ (WS12 ++ (ULO ++ (NL ++ s1 ++ canonMid ++ s2 ++ canonPost ++ GR))) := by
    rw [canonPre_eq]
    simp [List.append_assoc]
  rw [fallbackBody_shape]
  simp only [wsStar, lazyDot]
  rw [e0]
  rw [Re.seq_eval f (by omega)]
  rw [Re.lit_single _ _ _ (by omega)]
  rw [Re.seq_eval (f - 1) (by omega)]
  rw [Re.ws_exact Py.isSpace WS12 (ULO ++ (NL ++ s1 ++ canonMid ++ s2 ++ canonPost ++ GR))
    (f - 1 - 1) (by decide)
    (fun c hc => by
      have hh : (ULO ++ (NL ++ s1 ++ canonMid ++ s2 ++ canonPost ++ GR)).head? =
        some '<' := rfl
      rw [hh] at hc
      injection hc with hc2
      rw [← hc2]
      decide) (by omega)]
  rw [Re.seq_eval (f - 1 - 1) (by omega)]
  rw [lit_gws_ULO WS12 _ _ (by decide)
    (List.isPrefixOf_iff_prefix.mpr (List.prefix_append _ _))
    (by omega)]
  rw [List.drop_left' (by rfl)]
  rw [Re.seq_eval (f - 1 - 1 - 1) (by omega)]
  rw [Re.sfx_exact (NL ++ s1 ++ canonMid ++ s2 ++ canonPost ++ GR)
    (f - 1 - 1 - 1 - 1) (by simp only [List.length_append]; omega)]
  rw [Re.seq_eval (f - 1 - 1 - 1 - 1) (by omega)]
  have e1 : NL ++ s1 ++ canonMid ++ s2 ++ canonPost ++ GR =
      (NL ++ s1 ++ WS12) ++ ULS ++
        (WS8 ++ (DVS ++ (WS2_8 ++ (SEPOS ++ (DVS ++ (WS2_8 ++ (DETOS ++
          (WS12 ++ ULO ++ NL ++ s2 ++ canonPost ++ GR)))))))) := by
    rw [canonMid_eq]
    simp [List.append_assoc]
  rw [e1]
  have hU1 : Re.noEarly ULS (NL ++ s1 ++ WS12) := by
    refine Re.noEarly_append _ _ _ (Re.noEarly_append _ _ _ ?_ ?_) ?_
    · exact Re.litGuard_noEarly _ _ (by decide)
    · exact h1
    · exact Re.litGuard_noEarly _ _ (by decide)
  rw [Re.search_lit (NL ++ s1 ++ WS12) ULS
    (WS8 ++ (DVS ++ (WS2_8 ++ (SEPOS ++ (DVS ++ (WS2_8 ++ (DETOS ++
      (WS12 ++ ULO ++ NL ++ s2 ++ canonPost ++ GR))))))))
    (f - 1 - 1 - 1 - 1 - 1) (by decide)
    (fun i hi => hU1 _ i hi)
    (by simp only [List.length_append]; omega)]
  rw [htl]
  have e2 : str "/ul>" ++ (WS8 ++ (DVS ++ (WS2_8 ++ (SEPOS ++ (DVS ++ (WS2_8 ++ (DETOS ++
      (WS12 ++ ULO ++ NL ++ s2 ++ canonPost ++ GR)))))))) =
      (str "/ul>" ++ WS8 ++ DVS ++ WS2_8 ++ SEPOS ++ DVS ++ WS2_8 ++ DETOS ++
        WS12 ++ ULO ++ NL ++ s2 ++ WS12) ++ ULS ++ (WS8 ++ (DVS ++ GR)) := by
    rw [canonPost_eq]
    simp [List.append_assoc]
  rw [e2]
  have hU2 : Re.noEarly ULS (str "/ul>" ++ WS8 ++ DVS ++ WS2_8 ++ SEPOS ++ DVS ++ WS2_8 ++
      DETOS ++ WS12 ++ ULO ++ NL ++ s2 ++ WS12) := by
    refine Re.noEarly_append _ _ _ (Re.noEarly_append _ _ _ (Re.noEarly_append _ _ _
      (Re.noEarly_append _ _ _ (Re.noEarly_append _ _ _ (Re.noEarly_append _ _ _
        (Re.noEarly_append _ _ _ (Re.noEarly_append _ _ _ (Re.noEarly_append _ _ _
          (Re.noEarly_append _ _ _ (Re.noEarly_append _ _ _ (Re.noEarly_append _ _ _
            ?_ ?_) ?_) ?_) ?_) ?_) ?_) ?_) ?_) ?_) ?_) ?_) ?_
    · exact Re.litGuard_noEarly _ _ (by decide)
    · exact Re.litGuard_noEarly _ _ (by decide)
    · exact Re.litGuard_noEarly _ _ (by decide)
    · exact Re.litGuard_noEarly _ _ (by decide)
    · exact Re.litGuard_noEarly _ _ (by decide)
    · exact Re.litGuard_noEarly _ _ (by decide)
    · exact Re.litGuard_noEarly _ _ (by decide)
    · exact Re.litGuard_noEarly _ _ (by decide)
    · exact Re.litGuard_noEarly _ _ (by decide)
    · exact Re.litGuard_noEarly _ _ (by decide)
    · exact Re.litGuard_noEarly _ _ (by decide)
    · exact h2
    · exact Re.litGuard_noEarly _ _ (by decide)
  rw [Re.search_lit
    (str "/ul>" ++ WS8 ++ DVS ++ WS2_8 ++ SEPOS ++ DVS ++ WS2_8 ++ DETOS ++
      WS12 ++ ULO ++ NL ++ s2 ++ WS12) ULS (WS8 ++ (DVS ++ GR))
    (f - 1 - 1 - 1 - 1 - 1 - ((NL ++ s1 ++ WS12).length + 1)) (by decide)
    (fun i hi => hU2 _ i hi)
    (by simp only [List.length_append]; omega)]
  rw [Re.seq_eval (f - 1 - 1 - 1 - 1 - 1) (by omega)]
  rw [show ∀ (l : List Str),
      (WS8 ++ (DVS ++ (WS2_8 ++ (SEPOS ++ (DVS ++ (WS2_8 ++ (DETOS ++
        (WS12 ++ ULO ++ NL ++ s2 ++ canonPost ++ GR)))))))) :: l =
      [WS8 ++ (DVS ++ (WS2_8 ++ (SEPOS ++ (DVS ++ (WS2_8 ++ (DETOS ++
        (WS12 ++ ULO ++ NL ++ s2 ++ canonPost ++ GR)))))))] ++ l
    from fun l => rfl]
  rw [Re.dist_starG]
  simp only [List.length_singleton]
  rw [show ∀ (l : List Str), (WS8 ++ (DVS ++ GR)) :: l = [WS8 ++ (DVS ++ GR)] ++ l
    from fun l => rfl]
  rw [Re.dist_starG]
  simp only [List.length_singleton]
  rw [Re.ws_exact Py.isSpace WS8
    (DVS ++ (WS2_8 ++ (SEPOS ++ (DVS ++ (WS2_8 ++ (DETOS ++
      (WS12 ++ ULO ++ NL ++ s2 ++ canonPost ++ GR)))))))
    (f - 1 - 1 - 1 - 1 - 1 - 1) (by decide)
    (fun c hc => by
      have hh : (DVS ++ (WS2_8 ++ (SEPOS ++ (DVS ++ (WS2_8 ++ (DETOS ++
        (WS12 ++ ULO ++ NL ++ s2 ++ canonPost ++ GR))))))).head? = some '<' := rfl
      rw [hh] at hc
      injection hc with hc2
      rw [← hc2]
      decide) (by omega)]
  rw [Re.ws_exact Py.isSpace WS8 (DVS ++ GR)
    (f - 1 - 1 - 1 - 1 - 1 - 1 - 1) (by decide)
    (fun c hc => by
      have hh : (DVS ++ GR).head? = some '<' := rfl
      rw [hh] at hc
      injection hc with hc2
      rw [← hc2]
      decide) (by omega)]
  rw [Re.seq_eval (f - 1 - 1 - 1 - 1 - 1 - 1) (by omega)]
  rw [Re.dist_lit]
  rw [lit_gws_DVS WS8 _ _ (by decide)
    (List.isPrefixOf_iff_prefix.mpr (List.prefix_append _ _))
    (by omega)]
  rw [List.drop_left' (by rfl)]
  have hg1 : (Re.gws WS8 (DVS ++ (WS2_8 ++ (SEPOS ++ (DVS ++ (WS2_8 ++ (DETOS ++
      (WS12 ++ ULO ++ NL ++ s2 ++ canonPost ++ GR)))))))).length = 10 := by
    rw [Re.gws_length, h8]
  rw [Re.dist_lit DVS (Re.gws WS8 (DVS ++ GR))]
  rw [lit_gws_DVS WS8 _ _ (by decide)
    (List.isPrefixOf_iff_prefix.mpr (List.prefix_append _ _))
    (by omega)]
  rw [List.drop_left' (by rfl)]
  rw [show ∀ (l : List Str),
      ([WS2_8 ++ (SEPOS ++ (DVS ++ (WS2_8 ++ (DETOS ++
        (WS12 ++ ULO ++ NL ++ s2 ++ canonPost ++ GR)))))] ++ l : List Str) =
      (WS2_8 ++ (SEPOS ++ (DVS ++ (WS2_8 ++ (DETOS ++
        (WS12 ++ ULO ++ NL ++ s2 ++ canonPost ++ GR)))))) :: l from fun l => rfl]
  rw [Re.litnil_cons _ _ _ (by omega)]
  rw [show ∀ (l : List Str), ([GR] ++ l : List Str) = GR :: l from fun l => rfl]
  rw [Re.litnil_cons _ _ _ (by omega)]
  exact ⟨_, rfl⟩

end UpdateBookRegistry

namespace UpdateBookRegistry

/-- The capture-group pattern `(\s*</main>)` on whitespace followed by
`</main>`: single remainder, the text after `</main>`. -/
theorem tail_on (w0 r : Str) (f : Nat)
    (hw : ∀ c ∈ w0, Py.isSpace c = true)
    (hf : 2 * w0.length + 10 ≤ f) :
    Re.matchStates f spliceTail [(w0 ++ MAINS) ++ r] = [r] := by
  rw [spliceTail_shape]
  simp only [wsStar]
  rw [show (w0 ++ MAINS) ++ r = w0 ++ (MAINS ++ r) from by simp]
  rw [Re.seq_eval f (by omega)]
  rw [Re.ws_exact Py.isSpace w0 (MAINS ++ r) (f - 1) hw
    (fun c hc => by
      have hh : (MAINS ++ r).head? = some '<' := rfl
      rw [hh] at hc
      injection hc with hc2
      rw [← hc2]
      decide) (by omega)]
  rw [show MAINS = '<' :: str "/main>" from rfl]
  rw [Re.lit_gws '<' (str "/main>") w0 (('<' :: str "/main>") ++ r) (f - 1)
    (fun c hc => by
      intro he
      have hs := hw c hc
      rw [he] at hs
      exact absurd hs (by decide))
    (List.isPrefixOf_iff_prefix.mpr (List.prefix_append _ _))
    (by omega)]
  rw [List.drop_left' (by rfl)]

/-- The capture-group pattern fails on the separator-side remainder:
after the whitespace comes `<div class="books-separator">`, not
`</main>`. -/
theorem tail_fail_sep (X : Str) (f : Nat) (hf : 30 ≤ f) :
    Re.matchStates f spliceTail [WS2_8 ++ (SEPOS ++ X)] = [] := by
  have hW : WS2_8.length = 10 := rfl
  rw [spliceTail_shape]
  simp only [wsStar]
  rw [Re.seq_eval f (by omega)]
  rw [Re.ws_exact Py.isSpace WS2_8 (SEPOS ++ X) (f - 1) (by decide)
    (fun c hc => by
      have hh : (SEPOS ++ X).head? = some '<' := rfl
      rw [hh] at hc
      injection hc with hc2
      rw [← hc2]
      decide) (by omega)]
  rw [show MAINS = '<' :: str "/main>" from rfl]
  rw [Re.lit_gws_none '<' (str "/main>") WS2_8 (SEPOS ++ X) (f - 1)
    (by decide)
    (by
      rw [show ('<' :: str "/main>") = MAINS from rfl]
      rw [Re.isPrefixOf_trunc MAINS SEPOS X (by decide)]
      decide)
    (by omega)]

/-- Unanchored search of the primary pattern over a prefix with no
marker occurrence followed by the canonical block: the match starts at
the block, spans through the `\s*</main>` group, and captures it. -/
theorem findFirst_primary_canon (p s1 s2 w0 r : Str) (f : Nat)
    (h1 : Re.noEarly ULS s1) (h2 : Re.noEarly ULS s2)
    (hw : ∀ c ∈ w0, Py.isSpace c = true)
    (hp : ∀ i < p.length, ¬ L1S.isPrefixOf ((p ++ L1S).drop i))
    (hf : 4 * (p.length + s1.length + s2.length + w0.length + r.length) + 600 ≤ f) :
    Re.findFirst f primaryBody spliceTail
        (p ++ (canonPre ++ s1 ++ canonMid ++ s2 ++ canonPost ++ ((w0 ++ MAINS) ++ r))) =
      some (p, canonPre ++ s1 ++ canonMid ++ s2 ++ canonPost ++ (w0 ++ MAINS),
        w0 ++ MAINS, r) := by
  have hcprelen : canonPre.length = 42 := rfl
  have hcm : canonMid.length = 133 := rfl
  have hcp : canonPost.length = 33 := rfl
  have hM : MAINS.length = 7 := rfl
  have hL1 : L1S.length = 24 := rfl
  obtain ⟨J, hJ⟩ := primary_states s1 s2 ((w0 ++ MAINS) ++ r) f h1 h2
    (by simp only [List.length_append]; omega)
  have htail : Re.matchStates f spliceTail [(w0 ++ MAINS) ++ r] = [r] :=
    tail_on w0 r f hw (by omega)
  have hft : Re.firstTail f spliceTail
      (Re.matchStates f primaryBody
        [canonPre ++ s1 ++ canonMid ++ s2 ++ canonPost ++ ((w0 ++ MAINS) ++ r)]) =
      some ((w0 ++ MAINS) ++ r, r) := by
    rw [hJ]
    exact Re.firstTail_cons_some f spliceTail _ r J [] htail
  have hhere := Re.findFirst_here f primaryBody spliceTail
    (canonPre ++ s1 ++ canonMid ++ s2 ++ canonPost ++ ((w0 ++ MAINS) ++ r))
    ((w0 ++ MAINS) ++ r) r
    (by
      intro hcontra
      have hlen := congrArg List.length hcontra
      simp only [List.length_append, List.length_nil] at hlen
      omega) hft
  have htake1 : (canonPre ++ s1 ++ canonMid ++ s2 ++ canonPost ++
      ((w0 ++ MAINS) ++ r)).take
        ((canonPre ++ s1 ++ canonMid ++ s2 ++ canonPost ++ ((w0 ++ MAINS) ++ r)).length
          - r.length) =
      canonPre ++ s1 ++ canonMid ++ s2 ++ canonPost ++ (w0 ++ MAINS) := by
    rw [show canonPre ++ s1 ++ canonMid ++ s2 ++ canonPost ++ ((w0 ++ MAINS) ++ r) =
      (canonPre ++ s1 ++ canonMid ++ s2 ++ canonPost ++ (w0 ++ MAINS)) ++ r from by
        simp [List.append_assoc]]
    rw [List.take_left' ?hlen]
    case hlen =>
      simp only [List.length_append]
      omega
  have htake2 : ((w0 ++ MAINS) ++ r).take (((w0 ++ MAINS) ++ r).length - r.length) =
      w0 ++ MAINS := by
    rw [List.take_left' ?hlen2]
    case hlen2 =>
      simp only [List.length_append]
      omega
  rw [htake1, htake2] at hhere
  have hno : ∀ i < p.length, ¬ L1S.isPrefixOf
      ((p ++ (canonPre ++ s1 ++ canonMid ++ s2 ++ canonPost ++ ((w0 ++ MAINS) ++ r))).drop i) := by
    intro i hi
    rw [show p ++ (canonPre ++ s1 ++ canonMid ++ s2 ++ canonPost ++ ((w0 ++ MAINS) ++ r)) =
      (p ++ L1S) ++ (WS12 ++ ULO ++ NL ++ s1 ++ canonMid ++ s2 ++ canonPost ++
        ((w0 ++ MAINS) ++ r)) from by
        rw [canonPre_eq]
        simp [List.append_assoc]]
    rw [List.drop_append_of_le_length (by simp only [List.length_append]; omega)]
    rw [Re.isPrefixOf_trunc L1S ((p ++ L1S).drop i) _ (by
      rw [List.length_drop]
      simp only [List.length_append]
      omega)]
    exact fun hc => hp i hi hc
  have hskip := Re.findFirst_skip
    (.seq lazyDot (.seq (.lit ULS) (.seq wsStar (.seq (.lit DVS)
      (.seq (.opt sepPat) (.seq (.opt detPat) (.lit []))))))) L1S spliceTail p
    (canonPre ++ s1 ++ canonMid ++ s2 ++ canonPost ++ ((w0 ++ MAINS) ++ r)) f
    (by omega) hno
  rw [← primaryBody_shape] at hskip
  rw [hskip, hhere]
  simp

end UpdateBookRegistry

namespace UpdateBookRegistry

/-- Unanchored search of the fallback pattern over the same shape: its
first backtracking candidate (stopping at the summary list) is rejected
by the `\s*</main>` group, and the match lands on the whole block with
the same span and capture as the primary pattern. -/
theorem findFirst_fallback_canon (p s1 s2 w0 r : Str) (f : Nat)
    (h1 : Re.noEarly ULS s1) (h2 : Re.noEarly ULS s2)
    (hw : ∀ c ∈ w0, Py.isSpace c = true)
    (hp : ∀ i < p.length, ¬ L1S.isPrefixOf ((p ++ L1S).drop i))
    (hf : 4 * (p.length + s1.length + s2.length + w0.length + r.length) + 600 ≤ f) :
    Re.findFirst f fallbackBody spliceTail
        (p ++ (canonPre ++ s1 ++ canonMid ++ s2 ++ canonPost ++ ((w0 ++ MAINS) ++ r))) =
      some (p, canonPre ++ s1 ++ canonMid ++ s2 ++ canonPost ++ (w0 ++ MAINS),
        w0 ++ MAINS, r) := by
  have hcprelen : canonPre.length = 42 := rfl
  have hcm : canonMid.length = 133 := rfl
  have hcp : canonPost.length = 33 := rfl
  have hM : MAINS.length = 7 := rfl
  have hL1 : L1S.length = 24 := rfl
  obtain ⟨J, hJ⟩ := fallback_states s1 s2 ((w0 ++ MAINS) ++ r) f h1 h2
    (by simp only [List.length_append]; omega)
  have htail : Re.matchStates f spliceTail [(w0 ++ MAINS) ++ r] = [r] :=
    tail_on w0 r f hw (by omega)
  have hft : Re.firstTail f spliceTail
      (Re.matchStates f fallbackBody
        [canonPre ++ s1 ++ canonMid ++ s2 ++ canonPost ++ ((w0 ++ MAINS) ++ r)]) =
      some ((w0 ++ MAINS) ++ r, r) := by
    rw [hJ]
    rw [Re.firstTail_cons_none f spliceTail _ _ (tail_fail_sep _ f (by omega))]
    exact Re.firstTail_cons_some f spliceTail _ r J [] htail
  have hhere := Re.findFirst_here f fallbackBody spliceTail
    (canonPre ++ s1 ++ canonMid ++ s2 ++ canonPost ++ ((w0 ++ MAINS) ++ r))
    ((w0 ++ MAINS) ++ r) r
    (by
      intro hcontra
      have hlen := congrArg List.length hcontra
      simp only [List.length_append, List.length_nil] at hlen
      omega) hft
  have htake1 : (canonPre ++ s1 ++ canonMid ++ s2 ++ canonPost ++
      ((w0 ++ MAINS) ++ r)).take
        ((canonPre ++ s1 ++ canonMid ++ s2 ++ canonPost ++ ((w0 ++ MAINS) ++ r)).length
          - r.length) =
      canonPre ++ s1 ++ canonMid ++ s2 ++ canonPost ++ (w0 ++ MAINS) := by
    rw [show canonPre ++ s1 ++ canonMid ++ s2 ++ canonPost ++ ((w0 ++ MAINS) ++ r) =
      (canonPre ++ s1 ++ canonMid ++ s2 ++ canonPost ++ (w0 ++ MAINS)) ++ r from by
        simp [List.append_assoc]]
    rw [List.take_left' ?hlen]
    case hlen =>
      simp only [List.length_append]
      omega
  have htake2 : ((w0 ++ MAINS) ++ r).take (((w0 ++ MAINS) ++ r).length - r.length) =
      w0 ++ MAINS := by
    rw [List.take_left' ?hlen2]
    case hlen2 =>
      simp only [List.length_append]
      omega
  rw [htake1, htake2] at hhere
  have hno : ∀ i < p.length, ¬ L1S.isPrefixOf
      ((p ++ (canonPre ++ s1 ++ canonMid ++ s2 ++ canonPost ++ ((w0 ++ MAINS) ++ r))).drop i) := by
    intro i hi
    rw [show p ++ (canonPre ++ s1 ++ canonMid ++ s2 ++ canonPost ++ ((w0 ++ MAINS) ++ r)) =
      (p ++ L1S) ++ (WS12 ++ ULO ++ NL ++ s1 ++ canonMid ++ s2 ++ canonPost ++
        ((w0 ++ MAINS) ++ r)) from by
        rw [canonPre_eq]
        simp [List.append_assoc]]
    rw [List.drop_append_of_le_length (by simp only [List.length_append]; omega)]
    rw [Re.isPrefixOf_trunc L1S ((p ++ L1S).drop i) _ (by
      rw [List.length_drop]
      simp only [List.length_append]
      omega)]
    exact fun hc => hp i hi hc
  have hskip := Re.findFirst_skip
    (.seq wsStar (.seq (.lit ULO) (.seq lazyDot (.seq (.lit ULS)
      (.seq wsStar (.seq (.lit DVS) (.lit []))))))) L1S spliceTail p
    (canonPre ++ s1 ++ canonMid ++ s2 ++ canonPost ++ ((w0 ++ MAINS) ++ r)) f
    (by omega) hno
  rw [← fallbackBody_shape] at hskip
  rw [hskip, hhere]
  simp

end UpdateBookRegistry


namespace Re

theorem lit_mem (L : Str) :
    ∀ (ss : List Str) (f : Nat) (t : Str), t ∈ matchStates f (.lit L) ss →
      ∃ s ∈ ss, s = L ++ t := by
  intro ss
  induction ss with
  | nil =>
    intro f t ht
    rw [matchStates_nil] at ht
    simp at ht
  | cons s rest ih =>
    intro f t ht
    cases f with
    | zero =>
      rw [matchStates_zero] at ht
      simp at ht
    | succ f2 =>
      rw [lit_cons] at ht
      rw [List.mem_append] at ht
      cases ht with
      | inl hin =>
        cases hb : L.isPrefixOf s with
        | false =>
          rw [hb] at hin
          simp at hin
        | true =>
          rw [hb] at hin
          simp only [if_true, List.mem_singleton] at hin
          refine ⟨s, List.mem_cons_self s rest, ?_⟩
          have hp : L <+: s := List.isPrefixOf_iff_prefix.mp hb
          obtain ⟨t2, rfl⟩ := hp
          rw [hin]
          rw [List.drop_left' rfl]
      | inr hin =>
        obtain ⟨s2, hs2, he⟩ := ih f2 t hin
        exact ⟨s2, List.mem_cons_of_mem s hs2, he⟩

theorem cls_cons_cons (f : Nat) (p : Char → Bool) (c : Char) (s2 : Str)
    (rest : List Str) :
    matchStates (f + 1) (.cls p) ((c :: s2) :: rest) =
      (if p c then [s2] else []) ++ matchStates f (.cls p) rest := rfl

theorem starG_cls_mem (P : Char → Bool) :
    ∀ (f : Nat) (z s : Str), s ∈ matchStates f (.starG (.cls P)) [z] →
      ∃ w, z = w ++ s ∧ ∀ c ∈ w, P c = true := by
  intro f
  induction f with
  | zero =>
    intro z s hs
    rw [matchStates_zero] at hs
    simp at hs
  | succ f2 ih =>
    intro z s hs
    rw [starG_cons, matchStates_nil, List.append_nil, List.mem_append] at hs
    cases hs with
    | inr hin =>
      rw [List.mem_singleton] at hin
      exact ⟨[], by rw [hin]; exact rfl, by intro c hc; simp at hc⟩
    | inl hin =>
      cases z with
      | nil =>
        have hcls : matchStates f2 (.cls P) [([] : Str)] = [] := by
          cases f2 with
          | zero => rfl
          | succ f3 =>
            rw [cls_cons]
            simp [matchStates_nil]
        rw [hcls] at hin
        rw [show (([] : List Str).filter (fun t => t.length < ([] : Str).length)) = []
          from rfl] at hin
        rw [matchStates_nil] at hin
        simp at hin
      | cons c z2 =>
        cases f2 with
        | zero =>
          rw [matchStates_zero] at hin
          simp at hin
        | succ f3 =>
          rw [cls_cons_cons, matchStates_nil, List.append_nil] at hin
          cases hPc : P c with
          | false =>
            rw [hPc] at hin
            rw [if_neg (by decide)] at hin
            rw [show (([] : List Str).filter (fun t => t.length < (c :: z2).length)) = []
              from rfl, matchStates_nil] at hin
            simp at hin
          | true =>
            rw [hPc] at hin
            rw [if_pos rfl] at hin
            rw [show ([z2].filter (fun t => t.length < (c :: z2).length)) = [z2] from by
              simp] at hin
            obtain ⟨w2, hz2, hw2⟩ := ih z2 s hin
            refine ⟨c :: w2, ?_, ?_⟩
            · rw [List.cons_append, ← hz2]
            · intro x hx
              rcases List.mem_cons.mp hx with hx1 | hx2
              · rw [hx1]; exact hPc
              · exact hw2 x hx2

theorem wslit_shape (P : Char → Bool) (L s1 r2 : Str) (f : Nat)
    (h : r2 ∈ matchStates f (.seq (.starG (.cls P)) (.lit L)) [s1]) :
    ∃ w0, s1 = (w0 ++ L) ++ r2 ∧ ∀ c ∈ w0, P c = true := by
  cases f with
  | zero =>
    rw [matchStates_zero] at h
    simp at h
  | succ f2 =>
    rw [seq_cons] at h
    obtain ⟨s, hs, he⟩ := lit_mem L _ f2 r2 h
    obtain ⟨w0, hz, hw⟩ := starG_cls_mem P f2 s1 s hs
    refine ⟨w0, ?_, hw⟩
    rw [hz, he, List.append_assoc]

theorem findFirst_tail_shape (f : Nat) (body : Pat) (P : Char → Bool) (L : Str) :
    ∀ (s p m g r : Str),
      findFirst f body (.seq (.starG (.cls P)) (.lit L)) s = some (p, m, g, r) →
      ∃ w0, g = w0 ++ L ∧ ∀ c ∈ w0, P c = true := by
  intro s
  induction s with
  | nil =>
    intro p m g r h
    rw [findFirst] at h
    rcases hft : firstTail f (.seq (.starG (.cls P)) (.lit L))
        (matchStates f body [[]]) with _ | ⟨s1, r0⟩
    · rw [hft] at h
      simp at h
    · rw [hft] at h
      obtain ⟨hs1, hr0⟩ := firstTail_spec f _ _ s1 r0 hft
      obtain ⟨w0, he, hw⟩ := wslit_shape P L s1 r0 f hr0
      simp only [Option.some.injEq, Prod.mk.injEq] at h
      obtain ⟨-, -, h3, h4⟩ := h
      refine ⟨w0, ?_, hw⟩
      rw [← h3, he]
      rw [show ((w0 ++ L) ++ r0).length - r0.length = (w0 ++ L).length from by
        simp only [List.length_append]; omega]
      rw [List.take_left]
  | cons c s2 ih =>
    intro p m g r h
    rw [findFirst] at h
    rcases hft : firstTail f (.seq (.starG (.cls P)) (.lit L))
        (matchStates f body [c :: s2]) with _ | ⟨s1, r0⟩
    · rw [hft] at h
      rcases hf2 : findFirst f body (.seq (.starG (.cls P)) (.lit L)) s2 with
        _ | ⟨⟨p2, m2, g2, r2⟩⟩
      · rw [hf2] at h
        simp at h
      · rw [hf2] at h
        simp only [Option.map_some', Option.some.injEq, Prod.mk.injEq] at h
        obtain ⟨-, -, h3, -⟩ := h
        obtain ⟨w0, he, hw⟩ := ih p2 m2 g2 r2 hf2
        exact ⟨w0, by rw [← h3, he], hw⟩
    · rw [hft] at h
      obtain ⟨hs1, hr0⟩ := firstTail_spec f _ _ s1 r0 hft
      obtain ⟨w0, he, hw⟩ := wslit_shape P L s1 r0 f hr0
      simp only [Option.some.injEq, Prod.mk.injEq] at h
      obtain ⟨-, -, h3, h4⟩ := h
      refine ⟨w0, ?_, hw⟩
      rw [← h3, he]
      rw [show ((w0 ++ L) ++ r0).length - r0.length = (w0 ++ L).length from by
        simp only [List.length_append]; omega]
      rw [List.take_left]

end Re

namespace UpdateBookRegistry

/-- C6: splice idempotence.  For a host document where the primary
pattern matches once (leftmost match `p ++ m ++ r` with marker-free
prefix `p`, whitespace-shaped trailing capture `g` and no further match
in `r`), and a rendered block without backslashes, one splice produces
`p ++ canonBlock ++ g ++ r` — and splicing that output again (the
primary pattern re-matches the canonical block and re-substitutes the
same content, after which the unchanged-output test sends the code
through the fallback pattern, which also reproduces it) yields the
identical document. -/
theorem C6_splice_idempotent (books : List Book) (doc p m g r : Str)
    (hb : ∀ c ∈ canonBlock books, c ≠ '\\')
    (hm : Re.findFirst (Re.mfuel doc) primaryBody spliceTail doc = some (p, m, g, r))
    (hone : Re.findFirst (Re.mfuel doc) primaryBody spliceTail r = none)
    (hmne : m ≠ [])
    (hp : ∀ i < p.length, ¬ L1S.isPrefixOf ((p ++ L1S).drop i))
    (h4 : Re.findFirst (Re.mfuel (p ++ canonBlock books ++ g ++ r))
      primaryBody spliceTail r = none)
    (h5 : Re.findFirst (Re.mfuel (p ++ canonBlock books ++ g ++ r))
      fallbackBody spliceTail r = none) :
    spliceBooks books doc = some (p ++ canonBlock books ++ g ++ r) ∧
    spliceBooks books (p ++ canonBlock books ++ g ++ r) =
      some (p ++ canonBlock books ++ g ++ r) := by
  have hst : spliceTail = Re.Pat.seq (.starG (.cls Py.isSpace)) (.lit MAINS) := rfl
  have hm2 := hm
  rw [hst] at hm2
  obtain ⟨w0, hgeq, hw⟩ :=
    Re.findFirst_tail_shape (Re.mfuel doc) primaryBody Py.isSpace MAINS doc p m g r hm2
  subst hgeq
  have hcanon : canonBlock books = canonPre ++ (generate_book_html books).1 ++ canonMid ++
      (generate_book_html books).2 ++ canonPost := rfl
  have hcprelen : canonPre.length = 42 := rfl
  have hcm : canonMid.length = 133 := rfl
  have hcp : canonPost.length = 33 := rfl
  have hM : MAINS.length = 7 := rfl
  have ed : p ++ canonBlock books ++ (w0 ++ MAINS) ++ r =
      p ++ (canonPre ++ (generate_book_html books).1 ++ canonMid ++
        (generate_book_html books).2 ++ canonPost ++ ((w0 ++ MAINS) ++ r)) := by
    rw [hcanon]
    simp [List.append_assoc]
  have hdlen : (p ++ canonBlock books ++ (w0 ++ MAINS) ++ r).length =
      p.length + (generate_book_html books).1.length + (generate_book_html books).2.length +
        w0.length + r.length + 215 := by
    rw [ed]
    simp only [List.length_append]
    omega
  have hmf : Re.mfuel (p ++ canonBlock books ++ (w0 ++ MAINS) ++ r) =
      ((p ++ canonBlock books ++ (w0 ++ MAINS) ++ r).length + 200) *
        ((p ++ canonBlock books ++ (w0 ++ MAINS) ++ r).length + 200) := rfl
  have hmfge : 200 * ((p ++ canonBlock books ++ (w0 ++ MAINS) ++ r).length + 200) ≤
      Re.mfuel (p ++ canonBlock books ++ (w0 ++ MAINS) ++ r) := by
    rw [hmf]
    exact Nat.mul_le_mul_right _ (by omega)
  have hfuelbound : 4 * (p.length + (generate_book_html books).1.length +
      (generate_book_html books).2.length + w0.length + r.length) + 600 ≤
      Re.mfuel (p ++ canonBlock books ++ (w0 ++ MAINS) ++ r) := by
    omega
  have htpl2 : Re.parseTemplate 2 ((canonBlock books ++ ['\\', '2']).length + 1)
      (canonBlock books ++ ['\\', '2']) =
      some ((canonBlock books).map Re.TItem.litc ++ [Re.TItem.ref 2]) := by
    have h0 := primary_tpl_parse books hb
    rw [primaryTemplate_eq] at h0
    exact h0
  have htpl4 : Re.parseTemplate 4 ((canonBlock books ++ ['\\', '4']).length + 1)
      (canonBlock books ++ ['\\', '4']) =
      some ((canonBlock books).map Re.TItem.litc ++ [Re.TItem.ref 4]) := by
    have h0 := fallback_tpl_parse books hb
    rw [fallbackTemplate_eq] at h0
    exact h0
  have hPdoc : primarySub books doc = some (p ++ canonBlock books ++ (w0 ++ MAINS) ++ r) := by
    unfold primarySub
    rw [primaryTemplate_eq]
    exact Re.reSub_single_match primaryBody spliceTail 2 '2' (canonBlock books)
      doc p m (w0 ++ MAINS) r htpl2 hm hone hmne
  have hfp0 := findFirst_primary_canon p (generate_book_html books).1
    (generate_book_html books).2 w0 r
    (Re.mfuel (p ++ canonBlock books ++ (w0 ++ MAINS) ++ r))
    (noEarly_UL_s1 books) (noEarly_UL_s2 books) hw hp hfuelbound
  rw [← ed] at hfp0
  have hfp : Re.findFirst (Re.mfuel (p ++ canonBlock books ++ (w0 ++ MAINS) ++ r))
      primaryBody spliceTail (p ++ canonBlock books ++ (w0 ++ MAINS) ++ r) =
      some (p, canonBlock books ++ (w0 ++ MAINS), w0 ++ MAINS, r) := by
    rw [hfp0]
    rw [show canonPre ++ (generate_book_html books).1 ++ canonMid ++
      (generate_book_html books).2 ++ canonPost ++ (w0 ++ MAINS) =
      canonBlock books ++ (w0 ++ MAINS) from by rw [hcanon]]
  have hff0 := findFirst_fallback_canon p (generate_book_html books).1
    (generate_book_html books).2 w0 r
    (Re.mfuel (p ++ canonBlock books ++ (w0 ++ MAINS) ++ r))
    (noEarly_UL_s1 books) (noEarly_UL_s2 books) hw hp hfuelbound
  rw [← ed] at hff0
  have hff : Re.findFirst (Re.mfuel (p ++ canonBlock books ++ (w0 ++ MAINS) ++ r))
      fallbackBody spliceTail (p ++ canonBlock books ++ (w0 ++ MAINS) ++ r) =
      some (p, canonBlock books ++ (w0 ++ MAINS), w0 ++ MAINS, r) := by
    rw [hff0]
    rw [show canonPre ++ (generate_book_html books).1 ++ canonMid ++
      (generate_book_html books).2 ++ canonPost ++ (w0 ++ MAINS) =
      canonBlock books ++ (w0 ++ MAINS) from by rw [hcanon]]
  have hm2ne : canonBlock books ++ (w0 ++ MAINS) ≠ [] := by
    intro hcontra
    have hlen := congrArg List.length hcontra
    rw [hcanon] at hlen
    simp only [List.length_append, List.length_nil] at hlen
    omega
  have hP2 : primarySub books (p ++ canonBlock books ++ (w0 ++ MAINS) ++ r) =
      some (p ++ canonBlock books ++ (w0 ++ MAINS) ++ r) := by
    unfold primarySub
    rw [primaryTemplate_eq]
    exact Re.reSub_single_match primaryBody spliceTail 2 '2' (canonBlock books)
      (p ++ canonBlock books ++ (w0 ++ MAINS) ++ r) p
      (canonBlock books ++ (w0 ++ MAINS)) (w0 ++ MAINS) r htpl2 hfp h4 hm2ne
  have hF2 : fallbackSub books (p ++ canonBlock books ++ (w0 ++ MAINS) ++ r) =
      some (p ++ canonBlock books ++ (w0 ++ MAINS) ++ r) := by
    unfold fallbackSub
    rw [fallbackTemplate_eq]
    exact Re.reSub_single_match fallbackBody spliceTail 4 '4' (canonBlock books)
      (p ++ canonBlock books ++ (w0 ++ MAINS) ++ r) p
      (canonBlock books ++ (w0 ++ MAINS)) (w0 ++ MAINS) r htpl4 hff h5 hm2ne
  have hsecond : spliceBooks books (p ++ canonBlock books ++ (w0 ++ MAINS) ++ r) =
      some (p ++ canonBlock books ++ (w0 ++ MAINS) ++ r) := by
    unfold spliceBooks
    rw [hP2]
    show (if p ++ canonBlock books ++ (w0 ++ MAINS) ++ r =
        p ++ canonBlock books ++ (w0 ++ MAINS) ++ r then
      fallbackSub books (p ++ canonBlock books ++ (w0 ++ MAINS) ++ r)
      else some (p ++ canonBlock books ++ (w0 ++ MAINS) ++ r)) =
      some (p ++ canonBlock books ++ (w0 ++ MAINS) ++ r)
    rw [if_pos rfl]
    exact hF2
  refine ⟨?_, hsecond⟩
  unfold spliceBooks
  rw [hPdoc]
  show (if p ++ canonBlock books ++ (w0 ++ MAINS) ++ r = doc then
      fallbackSub books doc
      else some (p ++ canonBlock books ++ (w0 ++ MAINS) ++ r)) =
    some (p ++ canonBlock books ++ (w0 ++ MAINS) ++ r)
  by_cases hdd : p ++ canonBlock books ++ (w0 ++ MAINS) ++ r = doc
  · rw [if_pos hdd]
    rw [← hdd]
    exact hF2
  · rw [if_neg hdd]

end UpdateBookRegistry

namespace UpdateBookRegistry

/-- Witness for C6 at a concrete host document with a nonempty prefix,
a whitespace-bearing capture and trailing text: one splice rewrites the
block, the second splice reproduces its own output exactly. -/
theorem C6_splice_idempotent_witness :
    spliceBooks (parseBooks [str "5 stars - 2024-01-01 - T - A - D"])
        (str "x<div class=\"books-list\"><ul></ul></div>\n</main>tail") =
      some (str "x" ++ canonBlock (parseBooks [str "5 stars - 2024-01-01 - T - A - D"]) ++
        str "\n</main>" ++ str "tail") ∧
    spliceBooks (parseBooks [str "5 stars - 2024-01-01 - T - A - D"])
        (str "x" ++ canonBlock (parseBooks [str "5 stars - 2024-01-01 - T - A - D"]) ++
          str "\n</main>" ++ str "tail") =
      some (str "x" ++ canonBlock (parseBooks [str "5 stars - 2024-01-01 - T - A - D"]) ++
        str "\n</main>" ++ str "tail") :=
  C6_splice_idempotent (parseBooks [str "5 stars - 2024-01-01 - T - A - D"])
    (str "x<div class=\"books-list\"><ul></ul></div>\n</main>tail")
    (str "x") (str "<div class=\"books-list\"><ul></ul></div>\n</main>")
    (str "\n</main>") (str "tail")
    (by decide) (by decide) (by decide) (by decide)
    (by decide) (by decide) (by decide)

end UpdateBookRegistry
